import Mathlib

/-!
# s-timer: the command-serialising timer manager (timer.go)

A shallow embedding of `timer.go`.

* `Timer` is the source struct (`allocID`, `mainChan`, `timers`).
* `event` is the source's tagged envelope: an integer tag `_type` and a
  dynamically typed payload `arg`; `Deal` switches on the tag and asserts the
  payload type, so a mismatch is a run-time failure (`none`).
* User callbacks are function values of the caller.  They are represented by
  labels (natural numbers); invoking one appends an `Effect` to the trace.
  A callback is a non-nil function value that returns normally.
* Go's `time` package (`time.AfterFunc`, `(*time.Timer).Stop`,
  `(*time.Timer).Reset`) is the host environment.  `Runtime` models it with a
  logical clock, following the documented behaviour of that package.
* The goroutines spawned by the public operations and by expiring runtime
  timers each perform one channel send; `Runtime.goroutines` holds the sends
  that have not happened yet, `Action.send` performs one of them.
* `Action.recv` is one iteration of the dispatch loop of `timer_test.go`
  (`e := <-timer.GetMainChan(); timer.Deal(e)`).
-/

namespace STimer

/-! ## Constants -/

/-- Capacity of the command channel (`mainChanLength`). -/
def mainChanLength : Nat := 1024

/-- Number of values of a `uint64`. -/
def uint64Size : Nat := 2 ^ 64

/-- Tag `afterFunc` (iota = 0). -/
def afterFunc : Int := 0
/-- Tag `afterFuncWithAfterFuncFinishedCallback` (iota = 1). -/
def afterFuncWithAfterFuncFinishedCallback : Int := 1
/-- Tag `execute` (iota = 2). -/
def execute : Int := 2
/-- Tag `stop` (iota = 3). -/
def stop : Int := 3
/-- Tag `stopWithStopFinishedCallback` (iota = 4). -/
def stopWithStopFinishedCallback : Int := 4
/-- Tag `reset` (iota = 5). -/
def reset : Int := 5
/-- Tag `resetWithResetFinishedCallback` (iota = 6). -/
def resetWithResetFinishedCallback : Int := 6
/-- Tag `remove` (iota = 7). -/
def remove : Int := 7
/-- Tag `removeWithRemoveFinishedCallback` (iota = 8). -/
def removeWithRemoveFinishedCallback : Int := 8

/-! ## Events -/

/-- The dynamic payload of an event: one constructor per payload struct of the
source (`*afterFuncEvent`, ..., `*removeWithRemoveFinishedCallbackEvent`).
Handles are `uint64`, durations are `time.Duration` (nanoseconds), callbacks
are labels. -/
inductive Arg where
  | afterFuncEvent (id : Nat) (d : Int) (f : Nat)
  | afterFuncWithAfterFuncFinishedCallbackEvent (id : Nat) (d : Int) (f : Nat) (cb : Nat)
  | executeEvent (id : Nat) (f : Nat)
  | stopEvent (id : Nat)
  | stopWithStopFinishedCallbackEvent (id : Nat) (f : Nat)
  | resetEvent (id : Nat) (d : Int)
  | resetWithResetFinishedCallbackEvent (id : Nat) (d : Int) (f : Nat)
  | removeEvent (id : Nat)
  | removeWithRemoveFinishedCallbackEvent (id : Nat) (f : Nat)
  deriving DecidableEq, Repr

/-- The source's `event`: a tag and a payload. -/
structure event where
  _type : Int
  arg : Arg
  deriving DecidableEq, Repr

/-- The `afterFunc` event built by `AfterFunc` (spec: Create). -/
def evAfterFunc (id : Nat) (d : Int) (f : Nat) : event :=
  { _type := afterFunc, arg := Arg.afterFuncEvent id d f }

/-- The event built by `AfterFuncWithAfterFuncFinishedCallback` (spec: CreateAck). -/
def evAfterFuncWithAfterFuncFinishedCallback (id : Nat) (d : Int) (f cb : Nat) : event :=
  { _type := afterFuncWithAfterFuncFinishedCallback,
    arg := Arg.afterFuncWithAfterFuncFinishedCallbackEvent id d f cb }

/-- The `execute` event built by the closure of a runtime timer (spec: Fire). -/
def evExecute (id : Nat) (f : Nat) : event :=
  { _type := execute, arg := Arg.executeEvent id f }

/-- The `stop` event built by `Stop` (spec: Stop). -/
def evStop (id : Nat) : event :=
  { _type := stop, arg := Arg.stopEvent id }

/-- The event built by `StopWithStopFinishedCallback` (spec: StopAck). -/
def evStopWithStopFinishedCallback (id f : Nat) : event :=
  { _type := stopWithStopFinishedCallback, arg := Arg.stopWithStopFinishedCallbackEvent id f }

/-- The `reset` event built by `Reset` (spec: Reset). -/
def evReset (id : Nat) (d : Int) : event :=
  { _type := reset, arg := Arg.resetEvent id d }

/-- The event built by `ResetWithResetFinishedCallback` (spec: ResetAck). -/
def evResetWithResetFinishedCallback (id : Nat) (d : Int) (f : Nat) : event :=
  { _type := resetWithResetFinishedCallback,
    arg := Arg.resetWithResetFinishedCallbackEvent id d f }

/-- The `remove` event built by `Remove` (spec: Remove). -/
def evRemove (id : Nat) : event :=
  { _type := remove, arg := Arg.removeEvent id }

/-- The event built by `RemoveWithRemoveFinishedCallback` (spec: RemoveAck). -/
def evRemoveWithRemoveFinishedCallback (id f : Nat) : event :=
  { _type := removeWithRemoveFinishedCallback,
    arg := Arg.removeWithRemoveFinishedCallbackEvent id f }

/-! ## The host environment -/

/-- The function value handed to `time.AfterFunc` by `Deal`: the closure
`func() { t.mainChan <- &event{execute, &executeEvent{arg.id, arg.f}} }`
with its captured variables. -/
inductive Closure where
  | sendExecute (id : Nat) (f : Nat)
  deriving DecidableEq, Repr

/-- Modelled from the spec: the reference to an external deferred-execution
timer (section 6, `TimerRef`), which is not part of the repository; in the
source it is a `*time.Timer` made by `time.AfterFunc`.  `when = some w` while
the timer is active with deadline `w`, `none` once it has expired or has been
stopped; `fn` is the function it runs on expiry. -/
structure GoTimer where
  when : Option Int
  fn : Closure
  deriving DecidableEq, Repr

/-- What `Deal` does to its surroundings, in program order: calls of user
callbacks and operations on runtime timers (`r` is the timer reference). -/
inductive Effect where
  | call (f : Nat)
  | callBool (f : Nat) (b : Bool)
  | callUint64 (cb : Nat) (id : Nat)
  | newTimer (r : Nat) (d : Int)
  | stopTimer (r : Nat)
  | resetTimer (r : Nat) (d : Int)
  deriving DecidableEq, Repr

/-- The host environment: logical clock, the runtime timers created so far
(a timer reference is an index), the goroutines that are about to perform
`t.mainChan <- e`, and the trace of effects. -/
structure Runtime where
  now : Int
  gotimers : List GoTimer
  goroutines : List event
  trace : List Effect

/-- The source struct `Timer`. -/
structure Timer where
  allocID : Nat
  mainChan : List event
  timers : Nat → Option Nat

/-- `New()`: allocator at zero, empty channel, empty registry. -/
def New : Timer :=
  { allocID := 0, mainChan := [], timers := fun _ => none }

/-- The environment at start: time zero, no runtime timers, no goroutines. -/
def Runtime.init : Runtime :=
  { now := 0, gotimers := [], goroutines := [], trace := [] }

/-- Modelled from the spec: `scheduleOnce(duration, fn)` of the host
environment (section 6), in the source `time.AfterFunc(d, fn)` of Go's
standard library: a new active timer with deadline `now + d`; returns its
reference. -/
def timeAfterFunc (rt : Runtime) (d : Int) (fn : Closure) : Runtime × Nat :=
  ({ rt with
      gotimers := rt.gotimers ++ [{ when := some (rt.now + d), fn := fn }]
      trace := rt.trace ++ [Effect.newTimer rt.gotimers.length d] },
   rt.gotimers.length)

/-- Timer `r` gets the activity state `w` (nothing happens for a reference
that names no timer). -/
def setWhen (gs : List GoTimer) (r : Nat) (w : Option Int) : List GoTimer :=
  match gs[r]? with
  | some g => gs.set r { g with when := w }
  | none => gs

/-- Is timer `r` active (created or reset, and neither expired nor stopped
since)? -/
def isActive (gs : List GoTimer) (r : Nat) : Bool :=
  match gs[r]? with
  | some g => g.when.isSome
  | none => false

/-- Modelled from the spec: `TimerRef.cancel()` of the host environment
(section 6), in the source `(*time.Timer).Stop()` of Go's standard library,
with the result its documentation gives: it prevents the timer from firing
and returns `true` if the call stops the timer, `false` if the timer has
already expired or been stopped. -/
def timerStop (rt : Runtime) (r : Nat) : Runtime × Bool :=
  ({ rt with
      gotimers := setWhen rt.gotimers r none
      trace := rt.trace ++ [Effect.stopTimer r] },
   isActive rt.gotimers r)

/-- Modelled from the spec: `TimerRef.reschedule(duration)` of the host
environment (section 6), in the source `(*time.Timer).Reset(d)` of Go's
standard library, with the result its documentation gives: the timer expires
after `d` from now; the call returns `true` if the timer had been active,
`false` if it had expired or been stopped (for a function timer it then
schedules the function to run again). -/
def timerReset (rt : Runtime) (r : Nat) (d : Int) : Runtime × Bool :=
  ({ rt with
      gotimers := setWhen rt.gotimers r (some (rt.now + d))
      trace := rt.trace ++ [Effect.resetTimer r d] },
   isActive rt.gotimers r)

/-- Calling a user callback `f()`. -/
def callFunc (rt : Runtime) (f : Nat) : Runtime :=
  { rt with trace := rt.trace ++ [Effect.call f] }

/-- Calling an acknowledgement callback `f(b)`. -/
def callFuncBool (rt : Runtime) (f : Nat) (b : Bool) : Runtime :=
  { rt with trace := rt.trace ++ [Effect.callBool f b] }

/-- Calling the creation acknowledgement `cb(id)`. -/
def callFuncUint64 (rt : Runtime) (cb : Nat) (id : Nat) : Runtime :=
  { rt with trace := rt.trace ++ [Effect.callUint64 cb id] }

/-- Running a closure in its own goroutine: the goroutine will perform the
channel send of the `execute` event. -/
def runClosure (rt : Runtime) : Closure → Runtime
  | Closure.sendExecute id f =>
    { rt with goroutines := rt.goroutines ++ [evExecute id f] }

/-! ## Deal -/

/-- `(*Timer).Deal(e)`: the switch over `e._type`; each case asserts the
payload type (`none` when the assertion fails) and runs the case body.  A tag
that matches no case falls through the switch. -/
def Deal (t : Timer) (rt : Runtime) (e : event) : Option (Timer × Runtime) :=
  if e._type = afterFunc then
    match e.arg with
    | Arg.afterFuncEvent id d f =>
      let (rt1, r) := timeAfterFunc rt d (Closure.sendExecute id f)
      some ({ t with timers := Function.update t.timers id (some r) }, rt1)
    | _ => none
  else if e._type = afterFuncWithAfterFuncFinishedCallback then
    match e.arg with
    | Arg.afterFuncWithAfterFuncFinishedCallbackEvent id d f cb =>
      let (rt1, r) := timeAfterFunc rt d (Closure.sendExecute id f)
      let t1 := { t with timers := Function.update t.timers id (some r) }
      some (t1, callFuncUint64 rt1 cb id)
    | _ => none
  else if e._type = execute then
    match e.arg with
    | Arg.executeEvent id f =>
      let rt1 := callFunc rt f
      some ({ t with timers := Function.update t.timers id none }, rt1)
    | _ => none
  else if e._type = stop then
    match e.arg with
    | Arg.stopEvent id =>
      match t.timers id with
      | some timer => some (t, (timerStop rt timer).1)
      | none => some (t, rt)
    | _ => none
  else if e._type = stopWithStopFinishedCallback then
    match e.arg with
    | Arg.stopWithStopFinishedCallbackEvent id f =>
      match t.timers id with
      | some timer =>
        let (rt1, result) := timerStop rt timer
        some (t, callFuncBool rt1 f result)
      | none => some (t, callFuncBool rt f false)
    | _ => none
  else if e._type = reset then
    match e.arg with
    | Arg.resetEvent id d =>
      match t.timers id with
      | some timer => some (t, (timerReset rt timer d).1)
      | none => some (t, rt)
    | _ => none
  else if e._type = resetWithResetFinishedCallback then
    match e.arg with
    | Arg.resetWithResetFinishedCallbackEvent id d f =>
      match t.timers id with
      | some timer =>
        let (rt1, result) := timerReset rt timer d
        some (t, callFuncBool rt1 f result)
      | none => some (t, callFuncBool rt f false)
    | _ => none
  else if e._type = remove then
    match e.arg with
    | Arg.removeEvent id =>
      match t.timers id with
      | some timer =>
        let rt1 := (timerStop rt timer).1
        some ({ t with timers := Function.update t.timers id none }, rt1)
      | none => some (t, rt)
    | _ => none
  else if e._type = removeWithRemoveFinishedCallback then
    match e.arg with
    | Arg.removeWithRemoveFinishedCallbackEvent id f =>
      match t.timers id with
      | some timer =>
        let rt1 := (timerStop rt timer).1
        some ({ t with timers := Function.update t.timers id none }, callFuncBool rt1 f true)
      | none => some (t, callFuncBool rt f false)
    | _ => none
  else
    some (t, rt)

/-! ## Public operations -/

/-- `(*Timer).AfterFunc(d, f)`: atomically increment `allocID` (a `uint64`),
spawn the goroutine that sends the `afterFunc` event, return the new id. -/
def AfterFunc (t : Timer) (rt : Runtime) (d : Int) (f : Nat) : (Timer × Runtime) × Nat :=
  let id := (t.allocID + 1) % uint64Size
  (({ t with allocID := id },
    { rt with goroutines := rt.goroutines ++ [evAfterFunc id d f] }), id)

/-- `(*Timer).AfterFuncWithAfterFuncFinishedCallback(d, f, cb)`. -/
def AfterFuncWithAfterFuncFinishedCallback (t : Timer) (rt : Runtime) (d : Int) (f cb : Nat) :
    (Timer × Runtime) × Nat :=
  let id := (t.allocID + 1) % uint64Size
  (({ t with allocID := id },
    { rt with goroutines := rt.goroutines ++
        [evAfterFuncWithAfterFuncFinishedCallback id d f cb] }), id)

/-- `(*Timer).Stop(id)`. -/
def Stop (t : Timer) (rt : Runtime) (id : Nat) : Timer × Runtime :=
  (t, { rt with goroutines := rt.goroutines ++ [evStop id] })

/-- `(*Timer).StopWithStopFinishedCallback(id, f)`. -/
def StopWithStopFinishedCallback (t : Timer) (rt : Runtime) (id f : Nat) : Timer × Runtime :=
  (t, { rt with goroutines := rt.goroutines ++ [evStopWithStopFinishedCallback id f] })

/-- `(*Timer).Reset(id, d)`. -/
def Reset (t : Timer) (rt : Runtime) (id : Nat) (d : Int) : Timer × Runtime :=
  (t, { rt with goroutines := rt.goroutines ++ [evReset id d] })

/-- `(*Timer).ResetWithResetFinishedCallback(id, d, f)`. -/
def ResetWithResetFinishedCallback (t : Timer) (rt : Runtime) (id : Nat) (d : Int) (f : Nat) :
    Timer × Runtime :=
  (t, { rt with goroutines := rt.goroutines ++ [evResetWithResetFinishedCallback id d f] })

/-- `(*Timer).Remove(id)`. -/
def Remove (t : Timer) (rt : Runtime) (id : Nat) : Timer × Runtime :=
  (t, { rt with goroutines := rt.goroutines ++ [evRemove id] })

/-- `(*Timer).RemoveWithRemoveFinishedCallback(id, f)`. -/
def RemoveWithRemoveFinishedCallback (t : Timer) (rt : Runtime) (id f : Nat) : Timer × Runtime :=
  (t, { rt with goroutines := rt.goroutines ++ [evRemoveWithRemoveFinishedCallback id f] })

/-! ## The running system -/

/-- A manager in its environment, with two records kept for stating
properties: `history` lists the events handed to `Deal` so far, `issued` the
handles returned by the two creating operations, both in order. -/
structure Sys where
  t : Timer
  rt : Runtime
  history : List event
  issued : List Nat

/-- A manager fresh from `New()`. -/
def Sys.init : Sys :=
  { t := New, rt := Runtime.init, history := [], issued := [] }

/-- What can happen next: a caller invokes one of the eight public operations,
goroutine `i` completes its channel send, the dispatch loop receives one event
and deals with it, runtime timer `r` expires, or time passes. -/
inductive Action where
  | AfterFunc (d : Int) (f : Nat)
  | AfterFuncWithAfterFuncFinishedCallback (d : Int) (f cb : Nat)
  | Stop (id : Nat)
  | StopWithStopFinishedCallback (id f : Nat)
  | Reset (id : Nat) (d : Int)
  | ResetWithResetFinishedCallback (id : Nat) (d : Int) (f : Nat)
  | Remove (id : Nat)
  | RemoveWithRemoveFinishedCallback (id f : Nat)
  | send (i : Nat)
  | recv
  | expire (r : Nat)
  | tick (dt : Nat)
  deriving DecidableEq, Repr

/-- One step of the system; `none` when the action is not enabled (a send on a
full channel, a receive on an empty one, the expiry of a timer that is not
active or not yet due) or when `Deal` fails. -/
def step (s : Sys) : Action → Option Sys
  | Action.AfterFunc d f =>
    let r := AfterFunc s.t s.rt d f
    some { s with t := r.1.1, rt := r.1.2, issued := s.issued ++ [r.2] }
  | Action.AfterFuncWithAfterFuncFinishedCallback d f cb =>
    let r := AfterFuncWithAfterFuncFinishedCallback s.t s.rt d f cb
    some { s with t := r.1.1, rt := r.1.2, issued := s.issued ++ [r.2] }
  | Action.Stop id =>
    let r := Stop s.t s.rt id
    some { s with t := r.1, rt := r.2 }
  | Action.StopWithStopFinishedCallback id f =>
    let r := StopWithStopFinishedCallback s.t s.rt id f
    some { s with t := r.1, rt := r.2 }
  | Action.Reset id d =>
    let r := Reset s.t s.rt id d
    some { s with t := r.1, rt := r.2 }
  | Action.ResetWithResetFinishedCallback id d f =>
    let r := ResetWithResetFinishedCallback s.t s.rt id d f
    some { s with t := r.1, rt := r.2 }
  | Action.Remove id =>
    let r := Remove s.t s.rt id
    some { s with t := r.1, rt := r.2 }
  | Action.RemoveWithRemoveFinishedCallback id f =>
    let r := RemoveWithRemoveFinishedCallback s.t s.rt id f
    some { s with t := r.1, rt := r.2 }
  | Action.send i =>
    match s.rt.goroutines[i]? with
    | some e =>
      if s.t.mainChan.length < mainChanLength then
        some { s with
          t := { s.t with mainChan := s.t.mainChan ++ [e] }
          rt := { s.rt with goroutines := s.rt.goroutines.eraseIdx i } }
      else none
    | none => none
  | Action.recv =>
    match s.t.mainChan with
    | e :: rest =>
      match Deal { s.t with mainChan := rest } s.rt e with
      | some r => some { s with t := r.1, rt := r.2, history := s.history ++ [e] }
      | none => none
    | [] => none
  | Action.expire r =>
    match s.rt.gotimers[r]? with
    | some g =>
      match g.when with
      | some w =>
        if w ≤ s.rt.now then
          some { s with
            rt := runClosure { s.rt with gotimers := setWhen s.rt.gotimers r none } g.fn }
        else none
      | none => none
    | none => none
  | Action.tick dt =>
    some { s with rt := { s.rt with now := s.rt.now + dt } }

/-- Running a list of actions from a state. -/
def run (s : Sys) : List Action → Option Sys
  | [] => some s
  | a :: as =>
    match step s a with
    | some s1 => run s1 as
    | none => none

/-! ## Reading the history of dispatched events -/

/-- The handle captured by a timer closure. -/
def Closure.id : Closure → Nat
  | Closure.sendExecute id _ => id

/-- Is `e` a Create or CreateAck command for handle `h`? -/
def isCreateFor (h : Nat) (e : event) : Bool :=
  match e.arg with
  | Arg.afterFuncEvent id _ _ => decide (e._type = afterFunc) && decide (id = h)
  | Arg.afterFuncWithAfterFuncFinishedCallbackEvent id _ _ _ =>
    decide (e._type = afterFuncWithAfterFuncFinishedCallback) && decide (id = h)
  | _ => false

/-- Is `e` a Fire command for handle `h`? -/
def isFireFor (h : Nat) (e : event) : Bool :=
  match e.arg with
  | Arg.executeEvent id _ => decide (e._type = execute) && decide (id = h)
  | _ => false

/-- Is `e` a Remove or RemoveAck command for handle `h`? -/
def isRemoveFor (h : Nat) (e : event) : Bool :=
  match e.arg with
  | Arg.removeEvent id => decide (e._type = remove) && decide (id = h)
  | Arg.removeWithRemoveFinishedCallbackEvent id _ =>
    decide (e._type = removeWithRemoveFinishedCallback) && decide (id = h)
  | _ => false

/-- Is `e` a Reset or ResetAck command for handle `h`? -/
def isResetFor (h : Nat) (e : event) : Bool :=
  match e.arg with
  | Arg.resetEvent id _ => decide (e._type = reset) && decide (id = h)
  | Arg.resetWithResetFinishedCallbackEvent id _ _ =>
    decide (e._type = resetWithResetFinishedCallback) && decide (id = h)
  | _ => false

/-- Number of Fire commands for `h` in a list of events. -/
def fires (h : Nat) (l : List event) : Nat :=
  l.countP (isFireFor h)

/-- Number of Create and CreateAck commands for `h` in a list of events. -/
def creates (h : Nat) (l : List event) : Nat :=
  l.countP (isCreateFor h)

/-- Number of runtime timers whose closure captured handle `h`. -/
def made (h : Nat) (gs : List GoTimer) : Nat :=
  gs.countP (fun g => decide (g.fn.id = h))

/-- Number of active runtime timers whose closure captured handle `h`. -/
def armed (h : Nat) (gs : List GoTimer) : Nat :=
  gs.countP (fun g => g.when.isSome && decide (g.fn.id = h))

/-- Invariant I1 in the words of the specification: the registry holds `h`
iff a Create (or CreateAck) for `h` has been dispatched and no Fire, Remove or
RemoveAck for `h` has been dispatched so far. -/
def I1 (s : Sys) (h : Nat) : Prop :=
  (s.t.timers h).isSome = true ↔
    ((∃ e ∈ s.history, isCreateFor h e = true) ∧
      ∀ e ∈ s.history, isFireFor h e = false ∧ isRemoveFor h e = false)

/-- Some Create (or CreateAck) for `h` in the history is followed by no Fire,
Remove or RemoveAck for `h`. -/
def LiveIn (h : Nat) (hist : List event) : Prop :=
  ∃ pre c post, hist = pre ++ c :: post ∧ isCreateFor h c = true ∧
    ∀ e ∈ post, isFireFor h e = false ∧ isRemoveFor h e = false

/-- Does action `a`, taken in state `s`, dispatch a Reset or ResetAck for `h`
that finds the entry of `h` with a runtime timer that is no longer active
(expired or stopped)?  Counts 1 if so. -/
def lateReset (h : Nat) (s : Sys) : Action → Nat
  | Action.recv =>
    match s.t.mainChan with
    | e :: _ =>
      if isResetFor h e then
        match s.t.timers h with
        | some r => if isActive s.rt.gotimers r then 0 else 1
        | none => 0
      else 0
    | [] => 0
  | _ => 0

/-- Number of late resets for `h` along a run. -/
def lateResets (h : Nat) : Sys → List Action → Nat
  | _, [] => 0
  | s, a :: as =>
    match step s a with
    | some s1 => lateReset h s a + lateResets h s1 as
    | none => 0

/-- The allocator and the handles issued so far: the counter is the number of
issued handles modulo 2^64, and the i-th handle (from 0) is (i + 1) mod 2^64. -/
def AllocInv (s : Sys) : Prop :=
  s.t.allocID = s.issued.length % uint64Size ∧
  s.issued = (List.range s.issued.length).map (fun i => (i + 1) % uint64Size)

/-- Replaying one dispatched event on the presence of the entry for `h`. -/
def liveStep (h : Nat) (b : Bool) (e : event) : Bool :=
  if isCreateFor h e then true
  else if isFireFor h e || isRemoveFor h e then false
  else b

/-- Replaying a history on the presence of the entry for `h`, from absent. -/
def liveB (h : Nat) (hist : List event) : Bool :=
  hist.foldl (liveStep h) false

/-- Is `e` a Fire command carrying callback `f`? -/
def isFireWith (f : Nat) (e : event) : Bool :=
  match e.arg with
  | Arg.executeEvent _ g => decide (e._type = execute) && decide (g = f)
  | _ => false

/-- Every registry entry refers to an existing runtime timer whose closure
captured the handle of the entry. -/
def RegInv (s : Sys) : Prop :=
  ∀ h r, s.t.timers h = some r → ∃ g, s.rt.gotimers[r]? = some g ∧ g.fn.id = h

/-- Fire commands for `h` dispatched so far or on their way (in the channel
or held by a goroutine about to send). -/
def inFlight (h : Nat) (s : Sys) : Nat :=
  fires h s.history + fires h s.t.mainChan + fires h s.rt.goroutines

/-- Fire commands for `h` dispatched or on their way, plus the active runtime
timers that will produce one. -/
def potential (h : Nat) (s : Sys) : Nat :=
  inFlight h s + armed h s.rt.gotimers

/-- A tag outside the nine known values: the switch has no matching case. -/
def unknownTag (ty : Int) : Prop :=
  ty ≠ afterFunc ∧ ty ≠ afterFuncWithAfterFuncFinishedCallback ∧ ty ≠ execute ∧ ty ≠ stop ∧
  ty ≠ stopWithStopFinishedCallback ∧ ty ≠ reset ∧ ty ≠ resetWithResetFinishedCallback ∧
  ty ≠ remove ∧ ty ≠ removeWithRemoveFinishedCallback

/-- The handle carried by a payload (the field `id` of every payload struct). -/
def Arg.id : Arg → Nat
  | Arg.afterFuncEvent id _ _ => id
  | Arg.afterFuncWithAfterFuncFinishedCallbackEvent id _ _ _ => id
  | Arg.executeEvent id _ => id
  | Arg.stopEvent id => id
  | Arg.stopWithStopFinishedCallbackEvent id _ => id
  | Arg.resetEvent id _ => id
  | Arg.resetWithResetFinishedCallbackEvent id _ _ => id
  | Arg.removeEvent id => id
  | Arg.removeWithRemoveFinishedCallbackEvent id _ => id

/-- Is `e` a Stop or StopAck command for handle `h`? -/
def isStopFor (h : Nat) (e : event) : Bool :=
  match e.arg with
  | Arg.stopEvent id => decide (e._type = stop) && decide (id = h)
  | Arg.stopWithStopFinishedCallbackEvent id _ =>
    decide (e._type = stopWithStopFinishedCallback) && decide (id = h)
  | _ => false

/-- Do the tag of `e` and the dynamic type of its payload agree, as the type
assertion of the matching case of `Deal` requires? -/
def wellTyped (e : event) : Bool :=
  match e.arg with
  | Arg.afterFuncEvent _ _ _ => decide (e._type = afterFunc)
  | Arg.afterFuncWithAfterFuncFinishedCallbackEvent _ _ _ _ =>
    decide (e._type = afterFuncWithAfterFuncFinishedCallback)
  | Arg.executeEvent _ _ => decide (e._type = execute)
  | Arg.stopEvent _ => decide (e._type = stop)
  | Arg.stopWithStopFinishedCallbackEvent _ _ => decide (e._type = stopWithStopFinishedCallback)
  | Arg.resetEvent _ _ => decide (e._type = reset)
  | Arg.resetWithResetFinishedCallbackEvent _ _ _ =>
    decide (e._type = resetWithResetFinishedCallback)
  | Arg.removeEvent _ => decide (e._type = remove)
  | Arg.removeWithRemoveFinishedCallbackEvent _ _ =>
    decide (e._type = removeWithRemoveFinishedCallback)

/-- Is the action a call of one of the eight public operations? -/
def Action.isCall : Action → Bool
  | Action.send _ => false
  | Action.recv => false
  | Action.expire _ => false
  | Action.tick _ => false
  | _ => true

/-- The activity state of runtime timer `r` (`none` for no such timer too). -/
def whenOf (s : Sys) (r : Nat) : Option Int :=
  match s.rt.gotimers[r]? with
  | some g => g.when
  | none => none

/-- The time at which action `a`, taken in state `s`, makes a runtime timer
with a closure for `h` expire, that is, hands a Fire command for `h` over for
the channel: the current time if `a` is such an expiry, nothing otherwise. -/
def expiryAt (h : Nat) (s : Sys) : Action → List Int
  | Action.expire r =>
    match s.rt.gotimers[r]? with
    | some g => if g.fn.id = h then [s.rt.now] else []
    | none => []
  | _ => []

/-- The times, in order, at which Fire commands for `h` are handed over for
the channel along a run. -/
def expiryTimes (h : Nat) : Sys → List Action → List Int
  | _, [] => []
  | s, a :: as =>
    match step s a with
    | some s1 => expiryAt h s a ++ expiryTimes h s1 as
    | none => []

/-- Does every step of the run satisfy `p` (of the state it is taken in)? -/
def allSteps (p : Sys → Action → Bool) : Sys → List Action → Bool
  | _, [] => true
  | s, a :: as =>
    match step s a with
    | some s1 => p s a && allSteps p s1 as
    | none => true

/-- The step dispatches no command that carries handle `h`. -/
def silentStep (h : Nat) (s : Sys) : Action → Bool
  | Action.recv =>
    match s.t.mainChan with
    | e :: _ => decide (e.arg.id ≠ h)
    | [] => true
  | _ => true

/-- The step dispatches no command that carries handle `h`, except a Fire. -/
def quietStep (h : Nat) (s : Sys) : Action → Bool
  | Action.recv =>
    match s.t.mainChan with
    | e :: _ => decide (e.arg.id ≠ h) || isFireFor h e
    | [] => true
  | _ => true

/-- Timers are punctual in this step: time does not pass the deadline of an
active runtime timer (a timer that is due expires before time moves on). -/
def punctualStep (s : Sys) : Action → Bool
  | Action.tick dt =>
    s.rt.gotimers.all (fun g =>
      match g.when with
      | some w => decide (s.rt.now + dt ≤ max w s.rt.now)
      | none => true)
  | _ => true

/-- Runtime timer `r` is the one timer made for `h`, with the closure for
(`h`, `f`), and every Fire command for `h` in the system carries `f`. -/
def TimerFor (h f r : Nat) (s : Sys) : Prop :=
  RegInv s ∧
  (∀ i g, s.rt.gotimers[i]? = some g → g.fn.id = h → i = r) ∧
  (∃ wh, s.rt.gotimers[r]? = some { when := wh, fn := Closure.sendExecute h f }) ∧
  (∀ e, isFireFor h e = true →
    e ∈ s.history ∨ e ∈ s.t.mainChan ∨ e ∈ s.rt.goroutines → e = evExecute h f)

/-- A callback invocation made by `Deal`, with what the callee finds of the
manager at the moment of the call: the registry and the runtime timers as
they are when the call is made. -/
structure Moment where
  call : Effect
  timers : Nat → Option Nat
  gotimers : List GoTimer

/-- `(*Timer).Deal(e)` read statement by statement: the result of `Deal`, and
for each callback invocation, in program order, the state of the manager in
which the statement `arg.cb(arg.id)`, `arg.f()` or `arg.f(result)` is
executed.  In the case `afterFuncWithAfterFuncFinishedCallback` the call
`arg.cb(arg.id)` follows the assignment to `t.timers[arg.id]`; in the case
`execute` the call `arg.f()` precedes `delete(t.timers, arg.id)`; in the
other cases with a callback the call is the last statement. -/
def DealObs (t : Timer) (rt : Runtime) (e : event) :
    Option ((Timer × Runtime) × List Moment) :=
  if e._type = afterFunc then
    match e.arg with
    | Arg.afterFuncEvent id d f =>
      let (rt1, r) := timeAfterFunc rt d (Closure.sendExecute id f)
      some (({ t with timers := Function.update t.timers id (some r) }, rt1), [])
    | _ => none
  else if e._type = afterFuncWithAfterFuncFinishedCallback then
    match e.arg with
    | Arg.afterFuncWithAfterFuncFinishedCallbackEvent id d f cb =>
      let (rt1, r) := timeAfterFunc rt d (Closure.sendExecute id f)
      let t1 := { t with timers := Function.update t.timers id (some r) }
      some ((t1, callFuncUint64 rt1 cb id),
        [{ call := Effect.callUint64 cb id, timers := t1.timers, gotimers := rt1.gotimers }])
    | _ => none
  else if e._type = execute then
    match e.arg with
    | Arg.executeEvent id f =>
      let rt1 := callFunc rt f
      some (({ t with timers := Function.update t.timers id none }, rt1),
        [{ call := Effect.call f, timers := t.timers, gotimers := rt.gotimers }])
    | _ => none
  else if e._type = stop then
    match e.arg with
    | Arg.stopEvent id =>
      match t.timers id with
      | some timer => some ((t, (timerStop rt timer).1), [])
      | none => some ((t, rt), [])
    | _ => none
  else if e._type = stopWithStopFinishedCallback then
    match e.arg with
    | Arg.stopWithStopFinishedCallbackEvent id f =>
      match t.timers id with
      | some timer =>
        let (rt1, result) := timerStop rt timer
        some ((t, callFuncBool rt1 f result),
          [{ call := Effect.callBool f result, timers := t.timers, gotimers := rt1.gotimers }])
      | none =>
        some ((t, callFuncBool rt f false),
          [{ call := Effect.callBool f false, timers := t.timers, gotimers := rt.gotimers }])
    | _ => none
  else if e._type = reset then
    match e.arg with
    | Arg.resetEvent id d =>
      match t.timers id with
      | some timer => some ((t, (timerReset rt timer d).1), [])
      | none => some ((t, rt), [])
    | _ => none
  else if e._type = resetWithResetFinishedCallback then
    match e.arg with
    | Arg.resetWithResetFinishedCallbackEvent id d f =>
      match t.timers id with
      | some timer =>
        let (rt1, result) := timerReset rt timer d
        some ((t, callFuncBool rt1 f result),
          [{ call := Effect.callBool f result, timers := t.timers, gotimers := rt1.gotimers }])
      | none =>
        some ((t, callFuncBool rt f false),
          [{ call := Effect.callBool f false, timers := t.timers, gotimers := rt.gotimers }])
    | _ => none
  else if e._type = remove then
    match e.arg with
    | Arg.removeEvent id =>
      match t.timers id with
      | some timer =>
        let rt1 := (timerStop rt timer).1
        some (({ t with timers := Function.update t.timers id none }, rt1), [])
      | none => some ((t, rt), [])
    | _ => none
  else if e._type = removeWithRemoveFinishedCallback then
    match e.arg with
    | Arg.removeWithRemoveFinishedCallbackEvent id f =>
      match t.timers id with
      | some timer =>
        let rt1 := (timerStop rt timer).1
        let t1 := { t with timers := Function.update t.timers id none }
        some ((t1, callFuncBool rt1 f true),
          [{ call := Effect.callBool f true, timers := t1.timers, gotimers := rt1.gotimers }])
      | none =>
        some ((t, callFuncBool rt f false),
          [{ call := Effect.callBool f false, timers := t.timers, gotimers := rt.gotimers }])
    | _ => none
  else
    some ((t, rt), [])

/-- Is the effect the invocation of a callback? -/
def Effect.isCallback : Effect → Bool
  | Effect.call _ => true
  | Effect.callBool _ _ => true
  | Effect.callUint64 _ _ => true
  | _ => false

/-- Does action `a`, taken in state `s`, dispatch a Reset or ResetAck for `h`
that finds the entry of `h` with a runtime timer that is no longer active
while a Fire for `h` has not been dispatched yet (it is in the channel or a
goroutine is about to send it)?  Counts 1 if so.  This is the reset that
races with the Fire of an expired timer. -/
def raceReset (h : Nat) (s : Sys) (a : Action) : Nat :=
  if 0 < fires h s.t.mainChan + fires h s.rt.goroutines then lateReset h s a else 0

/-- Number of racing resets for `h` along a run. -/
def raceResets (h : Nat) : Sys → List Action → Nat
  | _, [] => 0
  | s, a :: as =>
    match step s a with
    | some s1 => raceReset h s a + raceResets h s1 as
    | none => 0

/-! ## Theorems -/

/-! ### What `Deal` does on each command -/

theorem Deal_evAfterFunc (t : Timer) (rt : Runtime) (h : Nat) (d : Int) (f : Nat) :
    Deal t rt (evAfterFunc h d f) =
      some ({ t with timers := Function.update t.timers h (some rt.gotimers.length) },
            (timeAfterFunc rt d (Closure.sendExecute h f)).1) := by
  simp [Deal, evAfterFunc, timeAfterFunc]

theorem Deal_evAfterFuncWithAfterFuncFinishedCallback (t : Timer) (rt : Runtime) (h : Nat)
    (d : Int) (f cb : Nat) :
    Deal t rt (evAfterFuncWithAfterFuncFinishedCallback h d f cb) =
      some ({ t with timers := Function.update t.timers h (some rt.gotimers.length) },
            callFuncUint64 (timeAfterFunc rt d (Closure.sendExecute h f)).1 cb h) := by
  simp [Deal, evAfterFuncWithAfterFuncFinishedCallback, timeAfterFunc, afterFunc,
    afterFuncWithAfterFuncFinishedCallback]

theorem Deal_evExecute (t : Timer) (rt : Runtime) (h f : Nat) :
    Deal t rt (evExecute h f) =
      some ({ t with timers := Function.update t.timers h none }, callFunc rt f) := by
  simp [Deal, evExecute, afterFunc, afterFuncWithAfterFuncFinishedCallback, execute]

theorem Deal_evStop (t : Timer) (rt : Runtime) (h : Nat) :
    Deal t rt (evStop h) =
      match t.timers h with
      | some timer => some (t, (timerStop rt timer).1)
      | none => some (t, rt) := by
  simp [Deal, evStop, afterFunc, afterFuncWithAfterFuncFinishedCallback, execute, stop]

theorem Deal_evStopWithStopFinishedCallback (t : Timer) (rt : Runtime) (h f : Nat) :
    Deal t rt (evStopWithStopFinishedCallback h f) =
      match t.timers h with
      | some timer => some (t, callFuncBool (timerStop rt timer).1 f (timerStop rt timer).2)
      | none => some (t, callFuncBool rt f false) := by
  simp [Deal, evStopWithStopFinishedCallback, afterFunc, afterFuncWithAfterFuncFinishedCallback,
    execute, stop, stopWithStopFinishedCallback]

theorem Deal_evReset (t : Timer) (rt : Runtime) (h : Nat) (d : Int) :
    Deal t rt (evReset h d) =
      match t.timers h with
      | some timer => some (t, (timerReset rt timer d).1)
      | none => some (t, rt) := by
  simp [Deal, evReset, afterFunc, afterFuncWithAfterFuncFinishedCallback, execute, stop,
    stopWithStopFinishedCallback, reset]

theorem Deal_evResetWithResetFinishedCallback (t : Timer) (rt : Runtime) (h : Nat) (d : Int)
    (f : Nat) :
    Deal t rt (evResetWithResetFinishedCallback h d f) =
      match t.timers h with
      | some timer =>
        some (t, callFuncBool (timerReset rt timer d).1 f (timerReset rt timer d).2)
      | none => some (t, callFuncBool rt f false) := by
  simp [Deal, evResetWithResetFinishedCallback, afterFunc,
    afterFuncWithAfterFuncFinishedCallback, execute, stop, stopWithStopFinishedCallback, reset,
    resetWithResetFinishedCallback]

theorem Deal_evRemove (t : Timer) (rt : Runtime) (h : Nat) :
    Deal t rt (evRemove h) =
      match t.timers h with
      | some timer =>
        some ({ t with timers := Function.update t.timers h none }, (timerStop rt timer).1)
      | none => some (t, rt) := by
  simp [Deal, evRemove, afterFunc, afterFuncWithAfterFuncFinishedCallback, execute, stop,
    stopWithStopFinishedCallback, reset, resetWithResetFinishedCallback, remove]

theorem Deal_evRemoveWithRemoveFinishedCallback (t : Timer) (rt : Runtime) (h f : Nat) :
    Deal t rt (evRemoveWithRemoveFinishedCallback h f) =
      match t.timers h with
      | some timer =>
        some ({ t with timers := Function.update t.timers h none },
              callFuncBool (timerStop rt timer).1 f true)
      | none => some (t, callFuncBool rt f false) := by
  simp [Deal, evRemoveWithRemoveFinishedCallback, afterFunc,
    afterFuncWithAfterFuncFinishedCallback, execute, stop, stopWithStopFinishedCallback, reset,
    resetWithResetFinishedCallback, remove, removeWithRemoveFinishedCallback]

/-- Whenever `Deal` succeeds, the event is one of the nine commands, built as
the public operations and the timer closure build them, or its tag is unknown
and nothing changes. -/
theorem Deal_cases {t : Timer} {rt : Runtime} {e : event} {r : Timer × Runtime}
    (hd : Deal t rt e = some r) :
    (∃ h d f, e = evAfterFunc h d f) ∨
    (∃ h d f cb, e = evAfterFuncWithAfterFuncFinishedCallback h d f cb) ∨
    (∃ h f, e = evExecute h f) ∨
    (∃ h, e = evStop h) ∨
    (∃ h f, e = evStopWithStopFinishedCallback h f) ∨
    (∃ h d, e = evReset h d) ∨
    (∃ h d f, e = evResetWithResetFinishedCallback h d f) ∨
    (∃ h, e = evRemove h) ∨
    (∃ h f, e = evRemoveWithRemoveFinishedCallback h f) ∨
    (unknownTag e._type ∧ r = (t, rt)) := by
  obtain ⟨ty, a⟩ := e
  unfold Deal at hd
  simp only at hd
  split_ifs at hd with h0 h1 h2 h3 h4 h5 h6 h7 h8
  · subst h0; cases a <;> simp at hd
    exact Or.inl ⟨_, _, _, rfl⟩
  · subst h1; cases a <;> simp at hd
    exact Or.inr (Or.inl ⟨_, _, _, _, rfl⟩)
  · subst h2; cases a <;> simp at hd
    exact Or.inr (Or.inr (Or.inl ⟨_, _, rfl⟩))
  · subst h3; cases a <;> simp at hd
    exact Or.inr (Or.inr (Or.inr (Or.inl ⟨_, rfl⟩)))
  · subst h4; cases a <;> simp at hd
    exact Or.inr (Or.inr (Or.inr (Or.inr (Or.inl ⟨_, _, rfl⟩))))
  · subst h5; cases a <;> simp at hd
    exact Or.inr (Or.inr (Or.inr (Or.inr (Or.inr (Or.inl ⟨_, _, rfl⟩)))))
  · subst h6; cases a <;> simp at hd
    exact Or.inr (Or.inr (Or.inr (Or.inr (Or.inr (Or.inr (Or.inl ⟨_, _, _, rfl⟩))))))
  · subst h7; cases a <;> simp at hd
    exact Or.inr (Or.inr (Or.inr (Or.inr (Or.inr (Or.inr (Or.inr (Or.inl ⟨_, rfl⟩)))))))
  · subst h8; cases a <;> simp at hd
    exact Or.inr (Or.inr (Or.inr (Or.inr (Or.inr (Or.inr (Or.inr (Or.inr (Or.inl ⟨_, _, rfl⟩))))))))
  · simp at hd
    exact Or.inr (Or.inr (Or.inr (Or.inr (Or.inr (Or.inr (Or.inr (Or.inr (Or.inr
      ⟨⟨h0, h1, h2, h3, h4, h5, h6, h7, h8⟩, hd.symm⟩))))))))

/-! ### The dispatch of single commands (C7 to C10) -/

/-- C7. Dispatching Create(h, d, f) maps h to a newly created runtime timer
armed for d and leaves every other registry entry unchanged; when that timer
expires, its action hands exactly one Fire(h, f) command to the channel (one
goroutine performing one send) and does not touch the manager's registry. -/
theorem C7_create_registers_timer (t : Timer) (rt : Runtime) (h : Nat) (d : Int) (f : Nat) :
    ∃ t1 rt1, Deal t rt (evAfterFunc h d f) = some (t1, rt1) ∧
      t1.timers h = some rt.gotimers.length ∧
      rt.gotimers[rt.gotimers.length]? = none ∧
      (∀ k, k ≠ h → t1.timers k = t.timers k) ∧
      rt1.gotimers = rt.gotimers ++
        [{ when := some (rt.now + d), fn := Closure.sendExecute h f }] ∧
      rt1.trace = rt.trace ++ [Effect.newTimer rt.gotimers.length d] ∧
      rt1.goroutines = rt.goroutines ∧ t1.mainChan = t.mainChan ∧
      (∀ (s : Sys) (r : Nat) (w : Int),
        s.rt.gotimers[r]? = some { when := some w, fn := Closure.sendExecute h f } →
        w ≤ s.rt.now →
        step s (Action.expire r) = some { s with
          rt := { s.rt with
            gotimers := setWhen s.rt.gotimers r none
            goroutines := s.rt.goroutines ++ [evExecute h f] } }) ∧
      (∀ (s : Sys) (pending : List event), s.rt.goroutines = pending ++ [evExecute h f] →
        s.t.mainChan.length < mainChanLength →
        step s (Action.send pending.length) = some { s with
          t := { s.t with mainChan := s.t.mainChan ++ [evExecute h f] }
          rt := { s.rt with goroutines := pending } }) := by
  refine ⟨_, _, Deal_evAfterFunc t rt h d f, by simp, by simp, ?_, by simp [timeAfterFunc],
    by simp [timeAfterFunc], by simp [timeAfterFunc], rfl, ?_, ?_⟩
  · intro k hk
    simp [Function.update_noteq hk]
  · intro s r w hg hw
    simp [step, hg, hw, runClosure]
  · intro s pending hp hlen
    simp [step, hp, hlen, List.eraseIdx_append_of_length_le]

/-! ### C8: the registry at the moment of the acknowledgement -/

/-- Forgetting the moments, `DealObs` is `Deal`. -/
theorem DealObs_fst (t : Timer) (rt : Runtime) (e : event) :
    (DealObs t rt e).map Prod.fst = Deal t rt e := by
  obtain ⟨ty, arg⟩ := e
  unfold DealObs Deal
  cases arg with
  | afterFuncEvent id d f =>
    simp only [apply_ite (Option.map Prod.fst), Option.map_some', Option.map_none']
  | afterFuncWithAfterFuncFinishedCallbackEvent id d f cb =>
    simp only [apply_ite (Option.map Prod.fst), Option.map_some', Option.map_none']
  | executeEvent id f =>
    simp only [apply_ite (Option.map Prod.fst), Option.map_some', Option.map_none']
  | stopEvent id =>
    cases hx : t.timers id <;>
      simp only [hx, apply_ite (Option.map Prod.fst), Option.map_some', Option.map_none']
  | stopWithStopFinishedCallbackEvent id f =>
    cases hx : t.timers id <;>
      simp only [hx, apply_ite (Option.map Prod.fst), Option.map_some', Option.map_none']
  | resetEvent id d =>
    cases hx : t.timers id <;>
      simp only [hx, apply_ite (Option.map Prod.fst), Option.map_some', Option.map_none']
  | resetWithResetFinishedCallbackEvent id d f =>
    cases hx : t.timers id <;>
      simp only [hx, apply_ite (Option.map Prod.fst), Option.map_some', Option.map_none']
  | removeEvent id =>
    cases hx : t.timers id <;>
      simp only [hx, apply_ite (Option.map Prod.fst), Option.map_some', Option.map_none']
  | removeWithRemoveFinishedCallbackEvent id f =>
    cases hx : t.timers id <;>
      simp only [hx, apply_ite (Option.map Prod.fst), Option.map_some', Option.map_none']

theorem DealObs_evAfterFuncWithAfterFuncFinishedCallback (t : Timer) (rt : Runtime) (h : Nat)
    (d : Int) (f cb : Nat) :
    DealObs t rt (evAfterFuncWithAfterFuncFinishedCallback h d f cb) =
      some (({ t with timers := Function.update t.timers h (some rt.gotimers.length) },
             callFuncUint64 (timeAfterFunc rt d (Closure.sendExecute h f)).1 cb h),
        [{ call := Effect.callUint64 cb h,
           timers := Function.update t.timers h (some rt.gotimers.length),
           gotimers := (timeAfterFunc rt d (Closure.sendExecute h f)).1.gotimers }]) := by
  simp [DealObs, evAfterFuncWithAfterFuncFinishedCallback, afterFunc,
    afterFuncWithAfterFuncFinishedCallback, timeAfterFunc]

/-- The moments of `DealObs` are the callback invocations in the trace of
`Deal`, in order. -/
theorem DealObs_calls {t : Timer} {rt : Runtime} {e : event}
    {r : (Timer × Runtime) × List Moment} (hd : DealObs t rt e = some r) :
    ∃ l, r.1.2.trace = rt.trace ++ l ∧ l.filter Effect.isCallback = r.2.map Moment.call := by
  have hD : Deal t rt e = some r.1 := by rw [← DealObs_fst, hd]; rfl
  rcases Deal_cases hD with ⟨h, d, g, rfl⟩ | ⟨h, d, g, cb, rfl⟩ | ⟨h, g, rfl⟩ | ⟨h, rfl⟩ |
    ⟨h, g, rfl⟩ | ⟨h, d, rfl⟩ | ⟨h, d, g, rfl⟩ | ⟨h, rfl⟩ | ⟨h, g, rfl⟩ | ⟨hu, heq⟩
  · simp [DealObs, evAfterFunc] at hd
    subst hd
    exact ⟨[Effect.newTimer rt.gotimers.length d], by simp [timeAfterFunc], rfl⟩
  · rw [DealObs_evAfterFuncWithAfterFuncFinishedCallback] at hd
    cases hd
    exact ⟨[Effect.newTimer rt.gotimers.length d, Effect.callUint64 cb h],
      by simp [timeAfterFunc, callFuncUint64], rfl⟩
  · simp [DealObs, evExecute, afterFunc, afterFuncWithAfterFuncFinishedCallback, execute] at hd
    subst hd
    exact ⟨[Effect.call g], by simp [callFunc], rfl⟩
  · cases hx : t.timers h with
    | none =>
      simp [DealObs, evStop, afterFunc, afterFuncWithAfterFuncFinishedCallback, execute, stop, hx]
        at hd
      subst hd
      exact ⟨[], by simp, rfl⟩
    | some x =>
      simp [DealObs, evStop, afterFunc, afterFuncWithAfterFuncFinishedCallback, execute, stop, hx]
        at hd
      subst hd
      exact ⟨[Effect.stopTimer x], by simp [timerStop], rfl⟩
  · cases hx : t.timers h with
    | none =>
      simp [DealObs, evStopWithStopFinishedCallback, afterFunc,
        afterFuncWithAfterFuncFinishedCallback, execute, stop, stopWithStopFinishedCallback, hx]
        at hd
      subst hd
      exact ⟨[Effect.callBool g false], by simp [callFuncBool], rfl⟩
    | some x =>
      simp [DealObs, evStopWithStopFinishedCallback, afterFunc,
        afterFuncWithAfterFuncFinishedCallback, execute, stop, stopWithStopFinishedCallback, hx]
        at hd
      subst hd
      exact ⟨[Effect.stopTimer x, Effect.callBool g (timerStop rt x).2],
        by simp [timerStop, callFuncBool], rfl⟩
  · cases hx : t.timers h with
    | none =>
      simp [DealObs, evReset, afterFunc, afterFuncWithAfterFuncFinishedCallback, execute, stop,
        stopWithStopFinishedCallback, reset, hx] at hd
      subst hd
      exact ⟨[], by simp, rfl⟩
    | some x =>
      simp [DealObs, evReset, afterFunc, afterFuncWithAfterFuncFinishedCallback, execute, stop,
        stopWithStopFinishedCallback, reset, hx] at hd
      subst hd
      exact ⟨[Effect.resetTimer x d], by simp [timerReset], rfl⟩
  · cases hx : t.timers h with
    | none =>
      simp [DealObs, evResetWithResetFinishedCallback, afterFunc,
        afterFuncWithAfterFuncFinishedCallback, execute, stop, stopWithStopFinishedCallback, reset,
        resetWithResetFinishedCallback, hx] at hd
      subst hd
      exact ⟨[Effect.callBool g false], by simp [callFuncBool], rfl⟩
    | some x =>
      simp [DealObs, evResetWithResetFinishedCallback, afterFunc,
        afterFuncWithAfterFuncFinishedCallback, execute, stop, stopWithStopFinishedCallback, reset,
        resetWithResetFinishedCallback, hx] at hd
      subst hd
      exact ⟨[Effect.resetTimer x d, Effect.callBool g (timerReset rt x d).2],
        by simp [timerReset, callFuncBool], rfl⟩
  · cases hx : t.timers h with
    | none =>
      simp [DealObs, evRemove, afterFunc, afterFuncWithAfterFuncFinishedCallback, execute, stop,
        stopWithStopFinishedCallback, reset, resetWithResetFinishedCallback, remove, hx] at hd
      subst hd
      exact ⟨[], by simp, rfl⟩
    | some x =>
      simp [DealObs, evRemove, afterFunc, afterFuncWithAfterFuncFinishedCallback, execute, stop,
        stopWithStopFinishedCallback, reset, resetWithResetFinishedCallback, remove, hx] at hd
      subst hd
      exact ⟨[Effect.stopTimer x], by simp [timerStop], rfl⟩
  · cases hx : t.timers h with
    | none =>
      simp [DealObs, evRemoveWithRemoveFinishedCallback, afterFunc,
        afterFuncWithAfterFuncFinishedCallback, execute, stop, stopWithStopFinishedCallback, reset,
        resetWithResetFinishedCallback, remove, removeWithRemoveFinishedCallback, hx] at hd
      subst hd
      exact ⟨[Effect.callBool g false], by simp [callFuncBool], rfl⟩
    | some x =>
      simp [DealObs, evRemoveWithRemoveFinishedCallback, afterFunc,
        afterFuncWithAfterFuncFinishedCallback, execute, stop, stopWithStopFinishedCallback, reset,
        resetWithResetFinishedCallback, remove, removeWithRemoveFinishedCallback, hx] at hd
      subst hd
      exact ⟨[Effect.stopTimer x, Effect.callBool g true],
        by simp [timerStop, callFuncBool], rfl⟩
  · obtain ⟨h0, h1, h2, h3, h4, h5, h6, h7, h8⟩ := hu
    simp [DealObs, h0, h1, h2, h3, h4, h5, h6, h7, h8] at hd
    subst hd
    exact ⟨[], by simp, rfl⟩

/-- C8. Dispatching CreateAck(h, d, f, ack), from any registry: `Deal` makes
exactly one callback invocation, ack(h), and at the moment of that call the
registry already holds the entry for h, which names the new runtime timer,
armed for now + d with the closure for (h, f); the call changes neither.
Apart from the call, CreateAck does what Create(h, d, f) does. -/
theorem C8_createAck_acknowledges_after_insert (t : Timer) (rt : Runtime) (h : Nat) (d : Int)
    (f ack : Nat) :
    ∃ t1 rt1 m, Deal t rt (evAfterFunc h d f) = some (t1, rt1) ∧
      Deal t rt (evAfterFuncWithAfterFuncFinishedCallback h d f ack) =
        some (t1, callFuncUint64 rt1 ack h) ∧
      DealObs t rt (evAfterFuncWithAfterFuncFinishedCallback h d f ack) =
        some ((t1, callFuncUint64 rt1 ack h), [m]) ∧
      m.call = Effect.callUint64 ack h ∧
      m.timers h = some rt.gotimers.length ∧
      m.gotimers[rt.gotimers.length]? =
        some { when := some (rt.now + d), fn := Closure.sendExecute h f } ∧
      m.timers = t1.timers ∧ m.gotimers = rt1.gotimers ∧
      t1.timers h = some rt.gotimers.length ∧
      rt1.gotimers[rt.gotimers.length]? =
        some { when := some (rt.now + d), fn := Closure.sendExecute h f } ∧
      (callFuncUint64 rt1 ack h).trace =
        rt.trace ++ [Effect.newTimer rt.gotimers.length d, Effect.callUint64 ack h] ∧
      (callFuncUint64 rt1 ack h).gotimers = rt1.gotimers := by
  refine ⟨_, _, _, Deal_evAfterFunc t rt h d f,
    Deal_evAfterFuncWithAfterFuncFinishedCallback t rt h d f ack,
    DealObs_evAfterFuncWithAfterFuncFinishedCallback t rt h d f ack, rfl, by simp, ?_, rfl, rfl,
    by simp, ?_, ?_, rfl⟩
  · simp [timeAfterFunc]
  · simp [timeAfterFunc]
  · simp [timeAfterFunc, callFuncUint64]

/-- C9. Dispatching Fire(h, f) calls f exactly once and leaves the registry
equal to the prior registry with h removed, whether or not h was present; a
Stop, StopAck, Remove or RemoveAck for h dispatched first changes neither the
channel nor the pending sends, so a Fire already on its way is still
dispatched afterwards and still calls f. -/
theorem C9_fire_calls_then_deletes (t : Timer) (rt : Runtime) (h f : Nat) :
    (Deal t rt (evExecute h f) =
        some ({ t with timers := Function.update t.timers h none }, callFunc rt f) ∧
      (callFunc rt f).trace = rt.trace ++ [Effect.call f] ∧
      (callFunc rt f).gotimers = rt.gotimers) ∧
    (∀ c ack, c = evStop h ∨ c = evStopWithStopFinishedCallback h ack ∨ c = evRemove h ∨
        c = evRemoveWithRemoveFinishedCallback h ack →
      ∃ t1 rt1, Deal t rt c = some (t1, rt1) ∧ t1.mainChan = t.mainChan ∧
        rt1.goroutines = rt.goroutines ∧
        ∃ t2 rt2, Deal t1 rt1 (evExecute h f) = some (t2, rt2) ∧
          rt2.trace = rt1.trace ++ [Effect.call f] ∧
          t2.timers = Function.update t1.timers h none) := by
  refine ⟨⟨Deal_evExecute t rt h f, rfl, rfl⟩, ?_⟩
  intro c ack hc
  rcases hc with rfl | rfl | rfl | rfl
  · rw [Deal_evStop]
    cases t.timers h with
    | none => exact ⟨_, _, rfl, rfl, rfl, _, _, Deal_evExecute _ _ h f, rfl, rfl⟩
    | some r =>
      refine ⟨_, _, rfl, rfl, ?_, _, _, Deal_evExecute _ _ h f, rfl, rfl⟩
      rfl
  · rw [Deal_evStopWithStopFinishedCallback]
    cases t.timers h with
    | none => exact ⟨_, _, rfl, rfl, rfl, _, _, Deal_evExecute _ _ h f, rfl, rfl⟩
    | some r =>
      refine ⟨_, _, rfl, rfl, ?_, _, _, Deal_evExecute _ _ h f, rfl, rfl⟩
      rfl
  · rw [Deal_evRemove]
    cases t.timers h with
    | none => exact ⟨_, _, rfl, rfl, rfl, _, _, Deal_evExecute _ _ h f, rfl, rfl⟩
    | some r =>
      refine ⟨_, _, rfl, rfl, ?_, _, _, Deal_evExecute _ _ h f, rfl, rfl⟩
      rfl
  · rw [Deal_evRemoveWithRemoveFinishedCallback]
    cases t.timers h with
    | none => exact ⟨_, _, rfl, rfl, rfl, _, _, Deal_evExecute _ _ h f, rfl, rfl⟩
    | some r =>
      refine ⟨_, _, rfl, rfl, ?_, _, _, Deal_evExecute _ _ h f, rfl, rfl⟩
      rfl

/-- C10. Dispatching StopAck(h, ack): when the registry holds a timer for h,
the timer's Stop is requested once and ack is called exactly once with the
value Stop returned (true exactly when the timer was still active); when it
holds none, no timer operation is made and ack is called exactly once with
false.  The registry is unchanged in both cases. -/
theorem C10_stopAck_reports_stop_result (t : Timer) (rt : Runtime) (h ack : Nat) :
    (∀ r, t.timers h = some r →
      Deal t rt (evStopWithStopFinishedCallback h ack) =
        some (t, callFuncBool (timerStop rt r).1 ack (timerStop rt r).2) ∧
      (callFuncBool (timerStop rt r).1 ack (timerStop rt r).2).trace =
        rt.trace ++ [Effect.stopTimer r, Effect.callBool ack (timerStop rt r).2] ∧
      ((timerStop rt r).2 = true ↔ ∃ g w, rt.gotimers[r]? = some g ∧ g.when = some w)) ∧
    (t.timers h = none →
      Deal t rt (evStopWithStopFinishedCallback h ack) = some (t, callFuncBool rt ack false) ∧
      (callFuncBool rt ack false).trace = rt.trace ++ [Effect.callBool ack false] ∧
      (callFuncBool rt ack false).gotimers = rt.gotimers) := by
  constructor
  · intro r hr
    refine ⟨by rw [Deal_evStopWithStopFinishedCallback, hr], ?_, ?_⟩
    · simp [timerStop, callFuncBool]
    · simp only [timerStop, isActive]
      cases hg : rt.gotimers[r]? with
      | none => simp
      | some g => simp [Option.isSome_iff_exists]
  · intro hn
    exact ⟨by rw [Deal_evStopWithStopFinishedCallback, hn], rfl, rfl⟩

/-! ### Classifying events -/

@[simp] theorem isCreateFor_evAfterFunc (k : Nat) (h : Nat) (d : Int) (f : Nat) :
    isCreateFor k (evAfterFunc h d f) = decide (h = k) := by
  simp [isCreateFor, evAfterFunc]

@[simp] theorem isCreateFor_evAfterFuncWithAfterFuncFinishedCallback (k : Nat) (h : Nat) (d : Int) (f cb : Nat) :
    isCreateFor k (evAfterFuncWithAfterFuncFinishedCallback h d f cb) = decide (h = k) := by
  simp [isCreateFor, evAfterFuncWithAfterFuncFinishedCallback]

@[simp] theorem isCreateFor_evExecute (k : Nat) (h f : Nat) :
    isCreateFor k (evExecute h f) = false := by
  simp [isCreateFor, evExecute]

@[simp] theorem isCreateFor_evStop (k : Nat) (h : Nat) :
    isCreateFor k (evStop h) = false := by
  simp [isCreateFor, evStop]

@[simp] theorem isCreateFor_evStopWithStopFinishedCallback (k : Nat) (h f : Nat) :
    isCreateFor k (evStopWithStopFinishedCallback h f) = false := by
  simp [isCreateFor, evStopWithStopFinishedCallback]

@[simp] theorem isCreateFor_evReset (k : Nat) (h : Nat) (d : Int) :
    isCreateFor k (evReset h d) = false := by
  simp [isCreateFor, evReset]

@[simp] theorem isCreateFor_evResetWithResetFinishedCallback (k : Nat) (h : Nat) (d : Int) (f : Nat) :
    isCreateFor k (evResetWithResetFinishedCallback h d f) = false := by
  simp [isCreateFor, evResetWithResetFinishedCallback]

@[simp] theorem isCreateFor_evRemove (k : Nat) (h : Nat) :
    isCreateFor k (evRemove h) = false := by
  simp [isCreateFor, evRemove]

@[simp] theorem isCreateFor_evRemoveWithRemoveFinishedCallback (k : Nat) (h f : Nat) :
    isCreateFor k (evRemoveWithRemoveFinishedCallback h f) = false := by
  simp [isCreateFor, evRemoveWithRemoveFinishedCallback]

@[simp] theorem isFireFor_evAfterFunc (k : Nat) (h : Nat) (d : Int) (f : Nat) :
    isFireFor k (evAfterFunc h d f) = false := by
  simp [isFireFor, evAfterFunc]

@[simp] theorem isFireFor_evAfterFuncWithAfterFuncFinishedCallback (k : Nat) (h : Nat) (d : Int) (f cb : Nat) :
    isFireFor k (evAfterFuncWithAfterFuncFinishedCallback h d f cb) = false := by
  simp [isFireFor, evAfterFuncWithAfterFuncFinishedCallback]

@[simp] theorem isFireFor_evExecute (k : Nat) (h f : Nat) :
    isFireFor k (evExecute h f) = decide (h = k) := by
  simp [isFireFor, evExecute]

@[simp] theorem isFireFor_evStop (k : Nat) (h : Nat) :
    isFireFor k (evStop h) = false := by
  simp [isFireFor, evStop]

@[simp] theorem isFireFor_evStopWithStopFinishedCallback (k : Nat) (h f : Nat) :
    isFireFor k (evStopWithStopFinishedCallback h f) = false := by
  simp [isFireFor, evStopWithStopFinishedCallback]

@[simp] theorem isFireFor_evReset (k : Nat) (h : Nat) (d : Int) :
    isFireFor k (evReset h d) = false := by
  simp [isFireFor, evReset]

@[simp] theorem isFireFor_evResetWithResetFinishedCallback (k : Nat) (h : Nat) (d : Int) (f : Nat) :
    isFireFor k (evResetWithResetFinishedCallback h d f) = false := by
  simp [isFireFor, evResetWithResetFinishedCallback]

@[simp] theorem isFireFor_evRemove (k : Nat) (h : Nat) :
    isFireFor k (evRemove h) = false := by
  simp [isFireFor, evRemove]

@[simp] theorem isFireFor_evRemoveWithRemoveFinishedCallback (k : Nat) (h f : Nat) :
    isFireFor k (evRemoveWithRemoveFinishedCallback h f) = false := by
  simp [isFireFor, evRemoveWithRemoveFinishedCallback]

@[simp] theorem isRemoveFor_evAfterFunc (k : Nat) (h : Nat) (d : Int) (f : Nat) :
    isRemoveFor k (evAfterFunc h d f) = false := by
  simp [isRemoveFor, evAfterFunc]

@[simp] theorem isRemoveFor_evAfterFuncWithAfterFuncFinishedCallback (k : Nat) (h : Nat) (d : Int) (f cb : Nat) :
    isRemoveFor k (evAfterFuncWithAfterFuncFinishedCallback h d f cb) = false := by
  simp [isRemoveFor, evAfterFuncWithAfterFuncFinishedCallback]

@[simp] theorem isRemoveFor_evExecute (k : Nat) (h f : Nat) :
    isRemoveFor k (evExecute h f) = false := by
  simp [isRemoveFor, evExecute]

@[simp] theorem isRemoveFor_evStop (k : Nat) (h : Nat) :
    isRemoveFor k (evStop h) = false := by
  simp [isRemoveFor, evStop]

@[simp] theorem isRemoveFor_evStopWithStopFinishedCallback (k : Nat) (h f : Nat) :
    isRemoveFor k (evStopWithStopFinishedCallback h f) = false := by
  simp [isRemoveFor, evStopWithStopFinishedCallback]

@[simp] theorem isRemoveFor_evReset (k : Nat) (h : Nat) (d : Int) :
    isRemoveFor k (evReset h d) = false := by
  simp [isRemoveFor, evReset]

@[simp] theorem isRemoveFor_evResetWithResetFinishedCallback (k : Nat) (h : Nat) (d : Int) (f : Nat) :
    isRemoveFor k (evResetWithResetFinishedCallback h d f) = false := by
  simp [isRemoveFor, evResetWithResetFinishedCallback]

@[simp] theorem isRemoveFor_evRemove (k : Nat) (h : Nat) :
    isRemoveFor k (evRemove h) = decide (h = k) := by
  simp [isRemoveFor, evRemove]

@[simp] theorem isRemoveFor_evRemoveWithRemoveFinishedCallback (k : Nat) (h f : Nat) :
    isRemoveFor k (evRemoveWithRemoveFinishedCallback h f) = decide (h = k) := by
  simp [isRemoveFor, evRemoveWithRemoveFinishedCallback]

@[simp] theorem isResetFor_evAfterFunc (k : Nat) (h : Nat) (d : Int) (f : Nat) :
    isResetFor k (evAfterFunc h d f) = false := by
  simp [isResetFor, evAfterFunc]

@[simp] theorem isResetFor_evAfterFuncWithAfterFuncFinishedCallback (k : Nat) (h : Nat) (d : Int) (f cb : Nat) :
    isResetFor k (evAfterFuncWithAfterFuncFinishedCallback h d f cb) = false := by
  simp [isResetFor, evAfterFuncWithAfterFuncFinishedCallback]

@[simp] theorem isResetFor_evExecute (k : Nat) (h f : Nat) :
    isResetFor k (evExecute h f) = false := by
  simp [isResetFor, evExecute]

@[simp] theorem isResetFor_evStop (k : Nat) (h : Nat) :
    isResetFor k (evStop h) = false := by
  simp [isResetFor, evStop]

@[simp] theorem isResetFor_evStopWithStopFinishedCallback (k : Nat) (h f : Nat) :
    isResetFor k (evStopWithStopFinishedCallback h f) = false := by
  simp [isResetFor, evStopWithStopFinishedCallback]

@[simp] theorem isResetFor_evReset (k : Nat) (h : Nat) (d : Int) :
    isResetFor k (evReset h d) = decide (h = k) := by
  simp [isResetFor, evReset]

@[simp] theorem isResetFor_evResetWithResetFinishedCallback (k : Nat) (h : Nat) (d : Int) (f : Nat) :
    isResetFor k (evResetWithResetFinishedCallback h d f) = decide (h = k) := by
  simp [isResetFor, evResetWithResetFinishedCallback]

@[simp] theorem isResetFor_evRemove (k : Nat) (h : Nat) :
    isResetFor k (evRemove h) = false := by
  simp [isResetFor, evRemove]

@[simp] theorem isResetFor_evRemoveWithRemoveFinishedCallback (k : Nat) (h f : Nat) :
    isResetFor k (evRemoveWithRemoveFinishedCallback h f) = false := by
  simp [isResetFor, evRemoveWithRemoveFinishedCallback]

/-- An event with an unknown tag is none of the commands. -/
theorem classify_unknown {e : event} (hu : unknownTag e._type) (k : Nat) :
    isCreateFor k e = false ∧ isFireFor k e = false ∧ isRemoveFor k e = false ∧
      isResetFor k e = false := by
  obtain ⟨h0, h1, h2, _, _, h5, h6, h7, h8⟩ := hu
  obtain ⟨ty, a⟩ := e
  cases a <;> simp_all [isCreateFor, isFireFor, isRemoveFor, isResetFor]

/-! ### The effect of `Deal` on registry and runtime timers -/

/-- `Deal` never touches the channel, the allocator, the pending sends or the
clock. -/
theorem Deal_frame {t : Timer} {rt : Runtime} {e : event} {r : Timer × Runtime}
    (hd : Deal t rt e = some r) :
    r.1.mainChan = t.mainChan ∧ r.1.allocID = t.allocID ∧ r.2.goroutines = rt.goroutines ∧
      r.2.now = rt.now := by
  rcases Deal_cases hd with ⟨h, d, f, rfl⟩ | ⟨h, d, f, cb, rfl⟩ | ⟨h, f, rfl⟩ | ⟨h, rfl⟩ |
    ⟨h, f, rfl⟩ | ⟨h, d, rfl⟩ | ⟨h, d, f, rfl⟩ | ⟨h, rfl⟩ | ⟨h, f, rfl⟩ | ⟨_, rfl⟩
  · rw [Deal_evAfterFunc] at hd; cases hd; exact ⟨rfl, rfl, rfl, rfl⟩
  · rw [Deal_evAfterFuncWithAfterFuncFinishedCallback] at hd; cases hd; exact ⟨rfl, rfl, rfl, rfl⟩
  · rw [Deal_evExecute] at hd; cases hd; exact ⟨rfl, rfl, rfl, rfl⟩
  · rw [Deal_evStop] at hd
    cases hx : t.timers h <;> rw [hx] at hd <;> cases hd <;> exact ⟨rfl, rfl, rfl, rfl⟩
  · rw [Deal_evStopWithStopFinishedCallback] at hd
    cases hx : t.timers h <;> rw [hx] at hd <;> cases hd <;> exact ⟨rfl, rfl, rfl, rfl⟩
  · rw [Deal_evReset] at hd
    cases hx : t.timers h <;> rw [hx] at hd <;> cases hd <;> exact ⟨rfl, rfl, rfl, rfl⟩
  · rw [Deal_evResetWithResetFinishedCallback] at hd
    cases hx : t.timers h <;> rw [hx] at hd <;> cases hd <;> exact ⟨rfl, rfl, rfl, rfl⟩
  · rw [Deal_evRemove] at hd
    cases hx : t.timers h <;> rw [hx] at hd <;> cases hd <;> exact ⟨rfl, rfl, rfl, rfl⟩
  · rw [Deal_evRemoveWithRemoveFinishedCallback] at hd
    cases hx : t.timers h <;> rw [hx] at hd <;> cases hd <;> exact ⟨rfl, rfl, rfl, rfl⟩
  · exact ⟨rfl, rfl, rfl, rfl⟩

/-- The six ways in which `Deal` can change the registry and the runtime
timers: a creation, a firing, a stop of a present entry, a reset of a present
entry, a removal of a present entry, or no change at all. -/
theorem Deal_effect {t : Timer} {rt : Runtime} {e : event} {r : Timer × Runtime}
    (hd : Deal t rt e = some r) :
    (∃ h f w, (∀ k, isCreateFor k e = decide (h = k)) ∧
        (∀ k, isFireFor k e = false ∧ isRemoveFor k e = false ∧ isResetFor k e = false) ∧
        r.1.timers = Function.update t.timers h (some rt.gotimers.length) ∧
        r.2.gotimers = rt.gotimers ++ [{ when := some w, fn := Closure.sendExecute h f }]) ∨
    (∃ h, (∀ k, isFireFor k e = decide (h = k)) ∧
        (∀ k, isCreateFor k e = false ∧ isRemoveFor k e = false ∧ isResetFor k e = false) ∧
        r.1.timers = Function.update t.timers h none ∧ r.2.gotimers = rt.gotimers) ∨
    (∃ h x, t.timers h = some x ∧
        (∀ k, isCreateFor k e = false ∧ isFireFor k e = false ∧ isRemoveFor k e = false ∧
          isResetFor k e = false) ∧
        r.1.timers = t.timers ∧ r.2.gotimers = setWhen rt.gotimers x none) ∨
    (∃ h x w, t.timers h = some x ∧ (∀ k, isResetFor k e = decide (h = k)) ∧
        (∀ k, isCreateFor k e = false ∧ isFireFor k e = false ∧ isRemoveFor k e = false) ∧
        r.1.timers = t.timers ∧ r.2.gotimers = setWhen rt.gotimers x (some w)) ∨
    (∃ h x, t.timers h = some x ∧ (∀ k, isRemoveFor k e = decide (h = k)) ∧
        (∀ k, isCreateFor k e = false ∧ isFireFor k e = false ∧ isResetFor k e = false) ∧
        r.1.timers = Function.update t.timers h none ∧
        r.2.gotimers = setWhen rt.gotimers x none) ∨
    ((∀ k, isCreateFor k e = false ∧ isFireFor k e = false) ∧
        (∀ k, isRemoveFor k e = true → t.timers k = none) ∧
        (∀ k, isResetFor k e = true → t.timers k = none) ∧
        r.1.timers = t.timers ∧ r.2.gotimers = rt.gotimers) := by
  rcases Deal_cases hd with ⟨h, d, f, rfl⟩ | ⟨h, d, f, cb, rfl⟩ | ⟨h, f, rfl⟩ | ⟨h, rfl⟩ |
    ⟨h, f, rfl⟩ | ⟨h, d, rfl⟩ | ⟨h, d, f, rfl⟩ | ⟨h, rfl⟩ | ⟨h, f, rfl⟩ | ⟨hu, rfl⟩
  · rw [Deal_evAfterFunc] at hd; cases hd
    exact Or.inl ⟨h, f, rt.now + d, by simp, by simp, rfl, rfl⟩
  · rw [Deal_evAfterFuncWithAfterFuncFinishedCallback] at hd; cases hd
    exact Or.inl ⟨h, f, rt.now + d, by simp, by simp, rfl, rfl⟩
  · rw [Deal_evExecute] at hd; cases hd
    exact Or.inr (Or.inl ⟨h, by simp, by simp, rfl, rfl⟩)
  · rw [Deal_evStop] at hd
    cases hx : t.timers h with
    | none =>
      rw [hx] at hd; cases hd
      exact Or.inr (Or.inr (Or.inr (Or.inr (Or.inr ⟨by simp, by simp, by simp, rfl, rfl⟩))))
    | some x =>
      rw [hx] at hd; cases hd
      exact Or.inr (Or.inr (Or.inl ⟨h, x, hx, by simp, rfl, rfl⟩))
  · rw [Deal_evStopWithStopFinishedCallback] at hd
    cases hx : t.timers h with
    | none =>
      rw [hx] at hd; cases hd
      exact Or.inr (Or.inr (Or.inr (Or.inr (Or.inr ⟨by simp, by simp, by simp, rfl, rfl⟩))))
    | some x =>
      rw [hx] at hd; cases hd
      exact Or.inr (Or.inr (Or.inl ⟨h, x, hx, by simp, rfl, rfl⟩))
  · rw [Deal_evReset] at hd
    cases hx : t.timers h with
    | none =>
      rw [hx] at hd; cases hd
      refine Or.inr (Or.inr (Or.inr (Or.inr (Or.inr ⟨by simp, by simp, ?_, rfl, rfl⟩))))
      intro k hk; simp at hk; subst hk; exact hx
    | some x =>
      rw [hx] at hd; cases hd
      exact Or.inr (Or.inr (Or.inr (Or.inl ⟨h, x, rt.now + d, hx, by simp, by simp, rfl, rfl⟩)))
  · rw [Deal_evResetWithResetFinishedCallback] at hd
    cases hx : t.timers h with
    | none =>
      rw [hx] at hd; cases hd
      refine Or.inr (Or.inr (Or.inr (Or.inr (Or.inr ⟨by simp, by simp, ?_, rfl, rfl⟩))))
      intro k hk; simp at hk; subst hk; exact hx
    | some x =>
      rw [hx] at hd; cases hd
      exact Or.inr (Or.inr (Or.inr (Or.inl ⟨h, x, rt.now + d, hx, by simp, by simp, rfl, rfl⟩)))
  · rw [Deal_evRemove] at hd
    cases hx : t.timers h with
    | none =>
      rw [hx] at hd; cases hd
      refine Or.inr (Or.inr (Or.inr (Or.inr (Or.inr ⟨by simp, ?_, by simp, rfl, rfl⟩))))
      intro k hk; simp at hk; subst hk; exact hx
    | some x =>
      rw [hx] at hd; cases hd
      exact Or.inr (Or.inr (Or.inr (Or.inr (Or.inl ⟨h, x, hx, by simp, by simp, rfl, rfl⟩))))
  · rw [Deal_evRemoveWithRemoveFinishedCallback] at hd
    cases hx : t.timers h with
    | none =>
      rw [hx] at hd; cases hd
      refine Or.inr (Or.inr (Or.inr (Or.inr (Or.inr ⟨by simp, ?_, by simp, rfl, rfl⟩))))
      intro k hk; simp at hk; subst hk; exact hx
    | some x =>
      rw [hx] at hd; cases hd
      exact Or.inr (Or.inr (Or.inr (Or.inr (Or.inl ⟨h, x, hx, by simp, by simp, rfl, rfl⟩))))
  · refine Or.inr (Or.inr (Or.inr (Or.inr (Or.inr ⟨?_, ?_, ?_, rfl, rfl⟩))))
    · intro k; exact ⟨(classify_unknown hu k).1, (classify_unknown hu k).2.1⟩
    · intro k hk; rw [(classify_unknown hu k).2.2.1] at hk; cases hk
    · intro k hk; rw [(classify_unknown hu k).2.2.2] at hk; cases hk

/-! ### Counting in lists -/

theorem countP_eraseIdx_add {α : Type} (p : α → Bool) :
    ∀ (l : List α) (i : Nat) (a : α), l[i]? = some a →
      (l.eraseIdx i).countP p + (if p a = true then 1 else 0) = l.countP p
  | [], i, a, h => by simp at h
  | x :: xs, 0, a, h => by
    simp at h
    subst h
    simp [List.countP_cons]
  | x :: xs, i + 1, a, h => by
    simp at h
    have ih := countP_eraseIdx_add p xs i a h
    simp only [List.eraseIdx_cons_succ, List.countP_cons]
    omega

theorem countP_set_add {α : Type} (p : α → Bool) :
    ∀ (l : List α) (i : Nat) (a b : α), l[i]? = some a →
      (l.set i b).countP p + (if p a = true then 1 else 0) =
        l.countP p + (if p b = true then 1 else 0)
  | [], i, a, b, h => by simp at h
  | x :: xs, 0, a, b, h => by
    simp at h
    subst h
    simp only [List.set_cons_zero, List.countP_cons]
    omega
  | x :: xs, i + 1, a, b, h => by
    simp at h
    have ih := countP_set_add p xs i a b h
    simp only [List.set_cons_succ, List.countP_cons]
    omega

/-! ### Runtime timers under `setWhen` -/

theorem setWhen_of_none {gs : List GoTimer} {r : Nat} (w : Option Int) (h : gs[r]? = none) :
    setWhen gs r w = gs := by
  simp [setWhen, h]

theorem setWhen_of_some {gs : List GoTimer} {r : Nat} {g : GoTimer} (w : Option Int)
    (h : gs[r]? = some g) : setWhen gs r w = gs.set r { when := w, fn := g.fn } := by
  simp [setWhen, h]

/-- `setWhen` keeps the closure of every timer. -/
theorem getElem?_setWhen_fn (gs : List GoTimer) (r : Nat) (w : Option Int) (i : Nat) :
    ((setWhen gs r w)[i]?).map GoTimer.fn = (gs[i]?).map GoTimer.fn := by
  cases hr : gs[r]? with
  | none => rw [setWhen_of_none w hr]
  | some g =>
    rw [setWhen_of_some w hr, List.getElem?_set]
    by_cases hri : r = i
    · subst hri
      have hlt : r < gs.length := (List.getElem?_eq_some_iff.mp hr).1
      simp [hlt, hr]
    · simp [hri]

theorem made_setWhen (h : Nat) (gs : List GoTimer) (r : Nat) (w : Option Int) :
    made h (setWhen gs r w) = made h gs := by
  cases hr : gs[r]? with
  | none => rw [setWhen_of_none w hr]
  | some g =>
    rw [setWhen_of_some w hr]
    have := countP_set_add (fun g => decide (g.fn.id = h)) gs r g { when := w, fn := g.fn } hr
    simp only [made]
    simp only at this
    omega

theorem armed_setWhen (h : Nat) {gs : List GoTimer} {r : Nat} {g : GoTimer} (w : Option Int)
    (hr : gs[r]? = some g) :
    armed h (setWhen gs r w) + (if (g.when.isSome && decide (g.fn.id = h)) = true then 1 else 0) =
      armed h gs + (if (w.isSome && decide (g.fn.id = h)) = true then 1 else 0) := by
  rw [setWhen_of_some w hr]
  exact countP_set_add (fun g => g.when.isSome && decide (g.fn.id = h)) gs r g
    { when := w, fn := g.fn } hr

theorem armed_setWhen_none_le (h : Nat) (gs : List GoTimer) (r : Nat) :
    armed h (setWhen gs r none) ≤ armed h gs := by
  cases hr : gs[r]? with
  | none => rw [setWhen_of_none none hr]
  | some g =>
    have := armed_setWhen h none hr
    simp only [Option.isSome_none, Bool.false_and] at this
    simp at this
    omega

theorem made_pos_of_getElem? {h : Nat} {gs : List GoTimer} {r : Nat} {g : GoTimer}
    (hr : gs[r]? = some g) (hid : g.fn.id = h) : 0 < made h gs := by
  have hmem : g ∈ gs := List.mem_iff_getElem?.mpr ⟨r, hr⟩
  exact List.countP_pos_iff.mpr ⟨g, hmem, by simp [hid]⟩

/-! ### The shapes of a step -/

/-- Every enabled step is a creating call, another call, a send, a receive
with `Deal`, an expiry, or a tick; the next state is given in full. -/
theorem step_cases {s s1 : Sys} {a : Action} (hs : step s a = some s1) :
    (a ≠ Action.recv ∧ ∃ e,
        (∀ k, isCreateFor k e = decide ((s.t.allocID + 1) % uint64Size = k)) ∧
        (∀ k, isFireFor k e = false) ∧
        s1 = { t := { s.t with allocID := (s.t.allocID + 1) % uint64Size },
               rt := { s.rt with goroutines := s.rt.goroutines ++ [e] },
               history := s.history,
               issued := s.issued ++ [(s.t.allocID + 1) % uint64Size] }) ∨
    (a ≠ Action.recv ∧ ∃ e, (∀ k, isCreateFor k e = false ∧ isFireFor k e = false) ∧
        s1 = { s with rt := { s.rt with goroutines := s.rt.goroutines ++ [e] } }) ∨
    (a ≠ Action.recv ∧ ∃ i e, s.rt.goroutines[i]? = some e ∧
        s.t.mainChan.length < mainChanLength ∧
        s1 = { s with
          t := { s.t with mainChan := s.t.mainChan ++ [e] }
          rt := { s.rt with goroutines := s.rt.goroutines.eraseIdx i } }) ∨
    (a = Action.recv ∧ ∃ e rest r, s.t.mainChan = e :: rest ∧
        Deal { s.t with mainChan := rest } s.rt e = some r ∧
        s1 = { s with t := r.1, rt := r.2, history := s.history ++ [e] }) ∨
    (a ≠ Action.recv ∧ ∃ r h f w,
        s.rt.gotimers[r]? = some { when := some w, fn := Closure.sendExecute h f } ∧
        w ≤ s.rt.now ∧
        s1 = { s with rt := { s.rt with
          gotimers := setWhen s.rt.gotimers r none
          goroutines := s.rt.goroutines ++ [evExecute h f] } }) ∨
    (a ≠ Action.recv ∧ ∃ dt : Nat, s1 = { s with rt := { s.rt with now := s.rt.now + dt } }) := by
  cases a with
  | AfterFunc d f =>
    simp only [step, AfterFunc, Option.some.injEq] at hs
    exact Or.inl ⟨by simp, _, by simp, by simp, hs.symm⟩
  | AfterFuncWithAfterFuncFinishedCallback d f cb =>
    simp only [step, AfterFuncWithAfterFuncFinishedCallback, Option.some.injEq] at hs
    exact Or.inl ⟨by simp, _, by simp, by simp, hs.symm⟩
  | Stop id =>
    simp only [step, Stop, Option.some.injEq] at hs
    exact Or.inr (Or.inl ⟨by simp, _, by simp, hs.symm⟩)
  | StopWithStopFinishedCallback id f =>
    simp only [step, StopWithStopFinishedCallback, Option.some.injEq] at hs
    exact Or.inr (Or.inl ⟨by simp, _, by simp, hs.symm⟩)
  | Reset id d =>
    simp only [step, Reset, Option.some.injEq] at hs
    exact Or.inr (Or.inl ⟨by simp, _, by simp, hs.symm⟩)
  | ResetWithResetFinishedCallback id d f =>
    simp only [step, ResetWithResetFinishedCallback, Option.some.injEq] at hs
    exact Or.inr (Or.inl ⟨by simp, _, by simp, hs.symm⟩)
  | Remove id =>
    simp only [step, Remove, Option.some.injEq] at hs
    exact Or.inr (Or.inl ⟨by simp, _, by simp, hs.symm⟩)
  | RemoveWithRemoveFinishedCallback id f =>
    simp only [step, RemoveWithRemoveFinishedCallback, Option.some.injEq] at hs
    exact Or.inr (Or.inl ⟨by simp, _, by simp, hs.symm⟩)
  | send i =>
    simp only [step] at hs
    cases hg : s.rt.goroutines[i]? with
    | none => rw [hg] at hs; cases hs
    | some e =>
      rw [hg] at hs
      simp only at hs
      split_ifs at hs with hlen
      cases hs
      exact Or.inr (Or.inr (Or.inl ⟨by simp, i, e, hg, hlen, rfl⟩))
  | recv =>
    simp only [step] at hs
    cases hc : s.t.mainChan with
    | nil => rw [hc] at hs; cases hs
    | cons e rest =>
      rw [hc] at hs
      simp only at hs
      cases hd : Deal { s.t with mainChan := rest } s.rt e with
      | none => rw [hd] at hs; cases hs
      | some r =>
        rw [hd] at hs
        cases hs
        exact Or.inr (Or.inr (Or.inr (Or.inl ⟨rfl, e, rest, r, rfl, hd, rfl⟩)))
  | expire r =>
    simp only [step] at hs
    cases hg : s.rt.gotimers[r]? with
    | none => rw [hg] at hs; cases hs
    | some g =>
      rw [hg] at hs
      obtain ⟨wh, fn⟩ := g
      cases wh with
      | none => cases hs
      | some w =>
        simp only at hs
        split_ifs at hs with hw
        cases hs
        obtain ⟨h, f⟩ := fn
        exact Or.inr (Or.inr (Or.inr (Or.inr (Or.inl ⟨by simp, r, h, f, w, hg, hw, rfl⟩))))
  | tick dt =>
    simp only [step, Option.some.injEq] at hs
    exact Or.inr (Or.inr (Or.inr (Or.inr (Or.inr ⟨by simp, dt, hs.symm⟩))))

/-- Induction over a run. -/
theorem run_induction (P : Sys → Prop)
    (hstep : ∀ s a s1, P s → step s a = some s1 → P s1) :
    ∀ (acts : List Action) (s s1 : Sys), P s → run s acts = some s1 → P s1
  | [], s, s1, h0, hr => by
    simp only [run, Option.some.injEq] at hr
    exact hr ▸ h0
  | a :: as, s, s1, h0, hr => by
    simp only [run] at hr
    cases hs : step s a with
    | none => rw [hs] at hr; cases hr
    | some s2 =>
      rw [hs] at hr
      exact run_induction P hstep as s2 s1 (hstep s a s2 h0 hs) hr

/-! ### C1: the handles issued by the allocator -/

theorem allocInv_step (s : Sys) (a : Action) (s1 : Sys) (hi : AllocInv s)
    (hs : step s a = some s1) : AllocInv s1 := by
  obtain ⟨ha, hl⟩ := hi
  rcases step_cases hs with ⟨_, e, _, _, rfl⟩ | ⟨_, e, _, rfl⟩ | ⟨_, i, e, _, _, rfl⟩ |
    ⟨_, e, rest, r, _, hd, rfl⟩ | ⟨_, r, h, f, w, _, _, rfl⟩ | ⟨_, dt, rfl⟩
  · constructor
    · simp only [List.length_append, List.length_singleton]
      rw [ha, Nat.mod_add_mod]
    · simp only [List.length_append, List.length_singleton, List.range_succ, List.map_append,
        List.map_cons, List.map_nil]
      rw [← hl, ha, Nat.mod_add_mod]
  · exact ⟨ha, hl⟩
  · exact ⟨ha, hl⟩
  · exact ⟨(Deal_frame hd).2.1.trans ha, hl⟩
  · exact ⟨ha, hl⟩
  · exact ⟨ha, hl⟩

theorem allocInv_init : AllocInv Sys.init := by
  simp [AllocInv, Sys.init, New]

theorem allocInv_run {acts : List Action} {s : Sys} (hr : run Sys.init acts = some s) :
    AllocInv s :=
  run_induction AllocInv allocInv_step acts Sys.init s allocInv_init hr

/-- Before the counter wraps, the issued handles are 1, 2, 3, ... -/
theorem issued_eq_range' {s : Sys} (hi : AllocInv s) (hlen : s.issued.length < uint64Size) :
    s.issued = List.range' 1 s.issued.length := by
  rw [List.range'_eq_map_range]
  conv_lhs => rw [hi.2]
  apply List.map_congr_left
  intro i hmem
  have hlt : i < s.issued.length := List.mem_range.mp hmem
  rw [Nat.mod_eq_of_lt (by omega)]
  omega

theorem issued_nodup {s : Sys} (hi : AllocInv s) (hlen : s.issued.length < uint64Size) :
    s.issued.Nodup := by
  rw [issued_eq_range' hi hlen]
  exact List.nodup_range' 1 _

theorem run_append (s : Sys) (as bs : List Action) :
    run s (as ++ bs) = (run s as).bind (fun s1 => run s1 bs) := by
  induction as generalizing s with
  | nil => rfl
  | cons a as ih =>
    simp only [List.cons_append, run]
    cases step s a with
    | none => rfl
    | some s1 => exact ih s1

/-- The creating operations always succeed; `n` of them issue `n` handles and
spawn `n` goroutines, the last of which carries the final counter value. -/
theorem run_replicate_AfterFunc (d : Int) (f : Nat) :
    ∀ (n : Nat) (s : Sys), ∃ s1, run s (List.replicate n (Action.AfterFunc d f)) = some s1 ∧
      s1.issued.length = s.issued.length + n ∧ s1.history = s.history ∧
      s1.t.mainChan = s.t.mainChan ∧ s1.t.timers = s.t.timers ∧
      s1.rt.gotimers = s.rt.gotimers ∧ s1.rt.trace = s.rt.trace ∧ s1.rt.now = s.rt.now ∧
      ∃ l, s1.rt.goroutines = s.rt.goroutines ++ l ∧ l.length = n ∧
        (0 < n → l.getLast? = some (evAfterFunc s1.t.allocID d f))
  | 0, s => ⟨s, rfl, rfl, rfl, rfl, rfl, rfl, rfl, rfl, [], by simp, rfl, by simp⟩
  | n + 1, s => by
    obtain ⟨s1, h1, h2, h3, h4, h5, h6, h7, h8, l, hl, hn, hlast⟩ :=
      run_replicate_AfterFunc d f n
        { t := { s.t with allocID := (s.t.allocID + 1) % uint64Size },
          rt := { s.rt with goroutines := s.rt.goroutines ++
            [evAfterFunc ((s.t.allocID + 1) % uint64Size) d f] },
          history := s.history,
          issued := s.issued ++ [(s.t.allocID + 1) % uint64Size] }
    refine ⟨s1, ?_, ?_, h3, h4, h5, h6, h7, h8,
      evAfterFunc ((s.t.allocID + 1) % uint64Size) d f :: l, ?_, by simp [hn], ?_⟩
    · simp only [List.replicate_succ, run, step, AfterFunc]
      exact h1
    · rw [h2]; simp; omega
    · rw [hl]; simp
    · intro _
      cases n with
      | zero =>
        have hnil : l = [] := List.length_eq_zero.mp hn
        subst hnil
        simp only [List.replicate_zero, run, Option.some.injEq] at h1
        subst h1
        rfl
      | succ m =>
        have hne : l ≠ [] := by
          intro hnil; rw [hnil] at hn; simp at hn
        obtain ⟨x, l1, rfl⟩ := List.exists_cons_of_ne_nil hne
        rw [List.getLast?_cons_cons]
        exact hlast (Nat.succ_pos m)

theorem uint64Size_eq : uint64Size = 18446744073709551616 := by
  norm_num [uint64Size]

/-- C1 (as stated) fails once the 64-bit counter wraps: of 2^64 consecutive
calls of AfterFunc on a fresh manager, the last returns 0 right after
2^64 - 1, so the returned handles are not strictly increasing. -/
theorem C1_counterexample_wraparound :
    ∃ s, run Sys.init (List.replicate uint64Size (Action.AfterFunc 0 0)) = some s ∧
      s.issued.length = uint64Size ∧ ¬ List.Chain' (fun a b => a < b) s.issued := by
  obtain ⟨s, hr, hlen, -⟩ := run_replicate_AfterFunc 0 0 uint64Size Sys.init
  have hlen1 : s.issued.length = uint64Size := by
    rw [hlen]; simp [Sys.init]
  refine ⟨s, hr, hlen1, ?_⟩
  have hi := (allocInv_run hr).2
  rw [hlen1] at hi
  have hN := uint64Size_eq
  obtain ⟨n, hn⟩ : ∃ n, uint64Size = n + 2 := ⟨uint64Size - 2, by omega⟩
  rw [hn] at hi
  intro hc
  rw [hi, List.chain'_map, List.chain'_range_succ] at hc
  have h2 := hc n (by omega)
  rw [Nat.mod_eq_of_lt (by omega), show Nat.succ n + 1 = n + 2 from rfl, Nat.mod_self] at h2
  omega

/-- C1 (amended). For every run from a fresh manager in which fewer than 2^64
handles have been issued (by AfterFunc and
AfterFuncWithAfterFuncFinishedCallback in any mix, interleaved with anything
else), the returned handles are 1, 2, 3, ...: strictly increasing, starting
at 1, each a 64-bit value, pairwise distinct. -/
theorem C1_handles_strictly_increasing (acts : List Action) (s : Sys)
    (hrun : run Sys.init acts = some s) (hlen : s.issued.length < uint64Size) :
    s.issued = List.range' 1 s.issued.length ∧
    List.Chain' (fun a b => a < b) s.issued ∧
    (∀ x, s.issued.head? = some x → x = 1) ∧
    (∀ x ∈ s.issued, x < uint64Size) ∧ s.issued.Nodup := by
  have hi := allocInv_run hrun
  have he := issued_eq_range' hi hlen
  refine ⟨he, ?_, ?_, ?_, issued_nodup hi hlen⟩
  · rw [he]
    exact List.Pairwise.chain' (List.pairwise_lt_range' 1 _)
  · intro x hx
    rw [he] at hx
    cases hn : s.issued.length with
    | zero => rw [hn] at hx; simp at hx
    | succ n =>
      rw [hn] at hx
      simp [List.range'_succ] at hx
      omega
  · intro x hx
    rw [he, List.mem_range'_1] at hx
    omega

/-- C1, a run: two kinds of creating calls mixed with other operations. -/
theorem C1_handles_strictly_increasing_witness :
    ∃ s, run Sys.init [Action.AfterFunc 1000 7, Action.Stop 1,
        Action.AfterFuncWithAfterFuncFinishedCallback 1000 8 9, Action.send 0, Action.recv,
        Action.AfterFunc 5 7] = some s ∧
      s.issued = [1, 2, 3] ∧
      (s.issued = List.range' 1 s.issued.length ∧
        List.Chain' (fun a b => a < b) s.issued ∧
        (∀ x, s.issued.head? = some x → x = 1) ∧
        (∀ x ∈ s.issued, x < uint64Size) ∧ s.issued.Nodup) :=
  ⟨_, rfl, rfl, C1_handles_strictly_increasing [Action.AfterFunc 1000 7, Action.Stop 1,
        Action.AfterFuncWithAfterFuncFinishedCallback 1000 8 9, Action.send 0, Action.recv,
        Action.AfterFunc 5 7] _ rfl (by decide)⟩

/-! ### C5, C6: the registry against the history of dispatched commands -/

theorem isCreateFor_false_of_isRemoveFor {h : Nat} {e : event} (hr : isRemoveFor h e = true) :
    isCreateFor h e = false := by
  obtain ⟨ty, a⟩ := e
  cases a <;> simp_all [isCreateFor, isRemoveFor]

theorem liveB_snoc (h : Nat) (hist : List event) (e : event) :
    liveB h (hist ++ [e]) = liveStep h (liveB h hist) e := by
  simp [liveB, List.foldl_append]

theorem foldl_liveStep_no_create (h : Nat) :
    ∀ (post : List event), (∀ e ∈ post, isCreateFor h e = false) →
      post.foldl (liveStep h) false = false
  | [], _ => rfl
  | e :: es, hp => by
    have he : isCreateFor h e = false := hp e (List.mem_cons_self _ _)
    have hstep : liveStep h false e = false := by
      simp [liveStep, he]
    simp only [List.foldl_cons, hstep]
    exact foldl_liveStep_no_create h es (fun x hx => hp x (List.mem_cons_of_mem _ hx))

theorem liveIn_snoc (h : Nat) (hist : List event) (e : event) :
    LiveIn h (hist ++ [e]) ↔
      isCreateFor h e = true ∨
        (LiveIn h hist ∧ isFireFor h e = false ∧ isRemoveFor h e = false) := by
  constructor
  · rintro ⟨pre, c, post, heq, hc, hpost⟩
    rcases List.eq_nil_or_concat post with rfl | ⟨post1, x, rfl⟩
    · have := List.append_inj_right' (heq.trans (by simp : pre ++ [c] = pre ++ [c])) rfl
      simp at this
      subst this
      exact Or.inl hc
    · have heq2 : hist ++ [e] = (pre ++ c :: post1) ++ [x] := by
        rw [heq]; simp
      have h1 := List.append_inj_left' heq2 rfl
      have h2 := List.append_inj_right' heq2 rfl
      simp at h2
      subst h2
      refine Or.inr ⟨⟨pre, c, post1, h1, hc, fun y hy => hpost y (by simp [hy])⟩, ?_⟩
      exact hpost e (by simp)
  · rintro (hc | ⟨⟨pre, c, post, heq, hc, hpost⟩, hf, hr⟩)
    · exact ⟨hist, e, [], rfl, hc, by simp⟩
    · refine ⟨pre, c, post ++ [e], by rw [heq]; simp, hc, ?_⟩
      intro y hy
      rcases List.mem_append.mp hy with hy | hy
      · exact hpost y hy
      · simp at hy; subst hy; exact ⟨hf, hr⟩

theorem liveIn_iff_liveB (h : Nat) (hist : List event) : LiveIn h hist ↔ liveB h hist = true := by
  induction hist using List.reverseRecOn with
  | nil =>
    constructor
    · rintro ⟨pre, c, post, heq, -⟩
      simp at heq
    · intro hb; simp [liveB] at hb
  | append_singleton l e ih =>
    rw [liveIn_snoc, liveB_snoc, ih]
    unfold liveStep
    cases isCreateFor h e <;> cases isFireFor h e <;> cases isRemoveFor h e <;>
      cases liveB h l <;> simp

/-- The entry for `h` after `Deal`: present iff the event creates `h`, or the
entry was present and the event neither fires nor removes `h`. -/
theorem Deal_present {t : Timer} {rt : Runtime} {e : event} {r : Timer × Runtime}
    (hd : Deal t rt e = some r) (h : Nat) :
    (r.1.timers h).isSome = liveStep h (t.timers h).isSome e := by
  unfold liveStep
  rcases Deal_effect hd with ⟨h0, f, w, hc, ho, ht, -⟩ | ⟨h0, hf, ho, ht, -⟩ |
    ⟨h0, x, hx, ho, ht, -⟩ | ⟨h0, x, w, hx, hrs, ho, ht, -⟩ | ⟨h0, x, hx, hrm, ho, ht, -⟩ |
    ⟨ho, hrm, hrs, ht, -⟩
  · rw [ht, hc]
    by_cases hk : h0 = h
    · subst hk; simp
    · simp [hk, Function.update_noteq (Ne.symm hk), (ho h).1, (ho h).2.1]
  · rw [ht, (ho h).1, hf, (ho h).2.1]
    by_cases hk : h0 = h
    · subst hk; simp
    · simp [hk, Function.update_noteq (Ne.symm hk)]
  · rw [ht, (ho h).1, (ho h).2.1, (ho h).2.2.1]; simp
  · rw [ht, (ho h).1, (ho h).2.1, (ho h).2.2]; simp
  · rw [ht, (ho h).1, (ho h).2.1, hrm]
    by_cases hk : h0 = h
    · subst hk; simp
    · simp [hk, Function.update_noteq (Ne.symm hk)]
  · rw [ht, (ho h).1, (ho h).2]
    cases hr : isRemoveFor h e with
    | false => simp
    | true => simp [hrm h hr]

/-- The registry holds `h` exactly when replaying the history says so. -/
theorem live_run {acts : List Action} {s : Sys} (hr : run Sys.init acts = some s) (h : Nat) :
    (s.t.timers h).isSome = liveB h s.history := by
  refine run_induction (fun s => (s.t.timers h).isSome = liveB h s.history) ?_ acts Sys.init s
    rfl hr
  intro s a s1 hi hs
  rcases step_cases hs with ⟨_, e, _, _, rfl⟩ | ⟨_, e, _, rfl⟩ | ⟨_, i, e, _, _, rfl⟩ |
    ⟨_, e, rest, r, _, hd, rfl⟩ | ⟨_, r, h0, f, w, _, _, rfl⟩ | ⟨_, dt, rfl⟩
  · exact hi
  · exact hi
  · exact hi
  · simp only
    rw [liveB_snoc, Deal_present hd h, ← hi]
  · exact hi
  · exact hi

/-- C5 (as stated) fails: AfterFunc returns handle 1, the caller then calls
Remove(1), and the goroutine of Remove reaches the channel first.  Remove(1)
is dispatched (a no-op), then Create(1): the registry holds 1 although a
Remove for 1 has been dispatched. -/
theorem C5_counterexample_remove_before_create :
    ∃ s, run Sys.init [Action.AfterFunc 1000000000 7, Action.Remove 1, Action.send 1,
        Action.recv, Action.send 0, Action.recv] = some s ∧
      s.history = [evRemove 1, evAfterFunc 1 1000000000 7] ∧
      s.t.timers 1 = some 0 ∧ ¬ I1 s 1 := by
  refine ⟨_, rfl, rfl, rfl, ?_⟩
  intro hI
  have h1 := ((hI.mp rfl).2 (evRemove 1) (List.mem_cons_self _ _)).2
  simp at h1

/-- C5 (amended). In every state reachable from New, the registry holds an
entry for h if and only if some Create or CreateAck for h has been dispatched
that is followed by no dispatched Fire, Remove or RemoveAck for h. -/
theorem C5_registry_iff_live (acts : List Action) (s : Sys) (h : Nat)
    (hrun : run Sys.init acts = some s) :
    (s.t.timers h).isSome = true ↔ LiveIn h s.history := by
  rw [live_run hrun h, liveIn_iff_liveB]

/-- C5, a run: handle 1 is created and fired, handle 2 is created and stays. -/
theorem C5_registry_iff_live_witness :
    ∃ s, run Sys.init [Action.AfterFunc 0 7, Action.AfterFunc 5 8, Action.send 0, Action.send 0,
        Action.recv, Action.recv, Action.expire 0, Action.send 0, Action.recv] = some s ∧
      s.t.timers 1 = none ∧ s.t.timers 2 = some 1 ∧
      ((s.t.timers 2).isSome = true ↔ LiveIn 2 s.history) ∧
      ((s.t.timers 1).isSome = true ↔ LiveIn 1 s.history) :=
  ⟨_, rfl, rfl, rfl,
    C5_registry_iff_live [Action.AfterFunc 0 7, Action.AfterFunc 5 8, Action.send 0,
      Action.send 0, Action.recv, Action.recv, Action.expire 0, Action.send 0, Action.recv]
      _ 2 rfl,
    C5_registry_iff_live [Action.AfterFunc 0 7, Action.AfterFunc 5 8, Action.send 0,
      Action.send 0, Action.recv, Action.recv, Action.expire 0, Action.send 0, Action.recv]
      _ 1 rfl⟩

/-- C6. In every state reachable from New in which h was never created (no
Create or CreateAck for h dispatched), or in which a Remove or RemoveAck for h
has been dispatched since its creation (with no Create or CreateAck for h
after that removal), dispatching RemoveAck(h, ack) calls ack with false, once,
touches no runtime timer and leaves the registry as it is. -/
theorem C6_removeAck_absent_reports_false (acts : List Action) (s : Sys) (h ack : Nat)
    (rest : List event) (hrun : run Sys.init acts = some s)
    (hhead : s.t.mainChan = evRemoveWithRemoveFinishedCallback h ack :: rest)
    (hgone : (∀ e ∈ s.history, isCreateFor h e = false) ∨
      ∃ pre rm post, s.history = pre ++ rm :: post ∧ isRemoveFor h rm = true ∧
        ∀ e ∈ post, isCreateFor h e = false) :
    ∃ s1, step s Action.recv = some s1 ∧
      s1.rt.trace = s.rt.trace ++ [Effect.callBool ack false] ∧
      s1.t.timers = s.t.timers ∧ s1.rt.gotimers = s.rt.gotimers ∧
      s1.history = s.history ++ [evRemoveWithRemoveFinishedCallback h ack] := by
  have hdead : liveB h s.history = false := by
    rcases hgone with hno | ⟨pre, rm, post, heq, hrm, hpost⟩
    · exact foldl_liveStep_no_create h s.history hno
    · rw [heq]
      simp only [liveB, List.foldl_append, List.foldl_cons]
      have : liveStep h (List.foldl (liveStep h) false pre) rm = false := by
        simp [liveStep, hrm, isCreateFor_false_of_isRemoveFor hrm]
      rw [this]
      exact foldl_liveStep_no_create h post hpost
  have hnone : s.t.timers h = none := by
    have := live_run hrun h
    rw [hdead] at this
    simpa using this
  refine ⟨{ s with
      t := { s.t with mainChan := rest }
      rt := callFuncBool s.rt ack false
      history := s.history ++ [evRemoveWithRemoveFinishedCallback h ack] }, ?_, rfl, rfl, rfl, rfl⟩
  simp only [step, hhead, Deal_evRemoveWithRemoveFinishedCallback, hnone]

/-- C6, a run: handle 1 is created and removed, then RemoveAck(1) is
dispatched and reports false. -/
theorem C6_removeAck_absent_reports_false_witness :
    ∃ s, run Sys.init [Action.AfterFunc 1000 7, Action.send 0, Action.recv, Action.Remove 1,
        Action.send 0, Action.recv, Action.RemoveWithRemoveFinishedCallback 1 9,
        Action.send 0] = some s ∧
      s.history = [evAfterFunc 1 1000 7, evRemove 1] ∧
      ∃ s1, step s Action.recv = some s1 ∧
        s1.rt.trace = s.rt.trace ++ [Effect.callBool 9 false] ∧
        s1.t.timers = s.t.timers ∧ s1.rt.gotimers = s.rt.gotimers ∧
        s1.history = s.history ++ [evRemoveWithRemoveFinishedCallback 1 9] :=
  ⟨_, rfl, rfl,
    C6_removeAck_absent_reports_false [Action.AfterFunc 1000 7, Action.send 0, Action.recv,
      Action.Remove 1, Action.send 0, Action.recv, Action.RemoveWithRemoveFinishedCallback 1 9,
      Action.send 0] _ 1 9 [] rfl rfl
      (Or.inr ⟨[evAfterFunc 1 1000 7], evRemove 1, [], rfl, rfl, by simp⟩)⟩

/-! ### Invariants of the running system -/

theorem fires_snoc (h : Nat) (l : List event) (e : event) :
    fires h (l ++ [e]) = fires h l + (if isFireFor h e = true then 1 else 0) := by
  simp [fires, List.countP_append, List.countP_cons]

theorem fires_cons (h : Nat) (l : List event) (e : event) :
    fires h (e :: l) = fires h l + (if isFireFor h e = true then 1 else 0) := by
  simp [fires, List.countP_cons]

theorem creates_snoc (h : Nat) (l : List event) (e : event) :
    creates h (l ++ [e]) = creates h l + (if isCreateFor h e = true then 1 else 0) := by
  simp [creates, List.countP_append, List.countP_cons]

theorem creates_cons (h : Nat) (l : List event) (e : event) :
    creates h (e :: l) = creates h l + (if isCreateFor h e = true then 1 else 0) := by
  simp [creates, List.countP_cons]

theorem made_snoc (h : Nat) (gs : List GoTimer) (g : GoTimer) :
    made h (gs ++ [g]) = made h gs + (if g.fn.id = h then 1 else 0) := by
  simp [made, List.countP_append, List.countP_cons]

theorem armed_snoc (h : Nat) (gs : List GoTimer) (g : GoTimer) :
    armed h (gs ++ [g]) =
      armed h gs + (if (g.when.isSome && decide (g.fn.id = h)) = true then 1 else 0) := by
  simp [armed, List.countP_append, List.countP_cons]

theorem regInv_step (s : Sys) (a : Action) (s1 : Sys) (hi : RegInv s)
    (hs : step s a = some s1) : RegInv s1 := by
  have hkeep : ∀ (x : Nat) (w : Option Int) (h r : Nat), s.t.timers h = some r →
      ∃ g, (setWhen s.rt.gotimers x w)[r]? = some g ∧ g.fn.id = h := by
    intro x w h r hr
    obtain ⟨g, hg, hid⟩ := hi h r hr
    have hfn := getElem?_setWhen_fn s.rt.gotimers x w r
    rw [hg] at hfn
    cases hg1 : (setWhen s.rt.gotimers x w)[r]? with
    | none => rw [hg1] at hfn; simp at hfn
    | some g1 =>
      rw [hg1] at hfn
      simp at hfn
      exact ⟨g1, rfl, by rw [hfn]; exact hid⟩
  rcases step_cases hs with ⟨_, e, _, _, rfl⟩ | ⟨_, e, _, rfl⟩ | ⟨_, i, e, _, _, rfl⟩ |
    ⟨_, e, rest, r, _, hd, rfl⟩ | ⟨_, r, h0, f, w, _, _, rfl⟩ | ⟨_, dt, rfl⟩
  · exact hi
  · exact hi
  · exact hi
  · intro h x hx
    simp only at hx ⊢
    rcases Deal_effect hd with ⟨h0, f, w, -, -, ht, hg⟩ | ⟨h0, -, -, ht, hg⟩ |
      ⟨h0, y, -, -, ht, hg⟩ | ⟨h0, y, w, -, -, -, ht, hg⟩ | ⟨h0, y, -, -, -, ht, hg⟩ |
      ⟨-, -, -, ht, hg⟩
    · rw [ht] at hx
      rw [hg]
      by_cases hk : h = h0
      · subst hk
        simp at hx
        subst hx
        exact ⟨{ when := some w, fn := Closure.sendExecute h f }, by simp, rfl⟩
      · rw [Function.update_noteq hk] at hx
        obtain ⟨g, hg1, hid⟩ := hi h x hx
        exact ⟨g, by rw [List.getElem?_append_left (List.getElem?_eq_some_iff.mp hg1).1]; exact hg1,
          hid⟩
    · rw [ht] at hx
      rw [hg]
      by_cases hk : h = h0
      · subst hk; simp at hx
      · rw [Function.update_noteq hk] at hx
        exact hi h x hx
    · rw [ht] at hx; rw [hg]; exact hkeep y none h x hx
    · rw [ht] at hx; rw [hg]; exact hkeep y (some w) h x hx
    · rw [ht] at hx
      rw [hg]
      by_cases hk : h = h0
      · subst hk; simp at hx
      · rw [Function.update_noteq hk] at hx
        exact hkeep y none h x hx
    · rw [ht] at hx; rw [hg]; exact hi h x hx
  · intro h x hx
    exact hkeep r none h x hx
  · exact hi

theorem regInv_run {acts : List Action} {s : Sys} (hr : run Sys.init acts = some s) :
    RegInv s :=
  run_induction RegInv regInv_step acts Sys.init s (by intro h r hx; simp [Sys.init, New] at hx) hr

/-- One runtime timer per dispatched Create or CreateAck. -/
theorem made_run {acts : List Action} {s : Sys} (hr : run Sys.init acts = some s) (h : Nat) :
    made h s.rt.gotimers = creates h s.history := by
  refine run_induction (fun s => made h s.rt.gotimers = creates h s.history) ?_ acts Sys.init s
    rfl hr
  intro s a s1 hi hs
  rcases step_cases hs with ⟨_, e, _, _, rfl⟩ | ⟨_, e, _, rfl⟩ | ⟨_, i, e, _, _, rfl⟩ |
    ⟨_, e, rest, r, _, hd, rfl⟩ | ⟨_, r, h0, f, w, _, _, rfl⟩ | ⟨_, dt, rfl⟩
  · exact hi
  · exact hi
  · exact hi
  · simp only
    rw [creates_snoc]
    rcases Deal_effect hd with ⟨h0, f, w, hc, -, -, hg⟩ | ⟨h0, -, ho, -, hg⟩ |
      ⟨h0, y, -, ho, -, hg⟩ | ⟨h0, y, w, -, -, ho, -, hg⟩ | ⟨h0, y, -, -, ho, -, hg⟩ |
      ⟨ho, -, -, -, hg⟩
    · rw [hg, made_snoc, hc, hi]; simp [Closure.id]
    · rw [hg, (ho h).1, hi]; simp
    · rw [hg, (ho h).1, made_setWhen, hi]; simp
    · rw [hg, (ho h).1, made_setWhen, hi]; simp
    · rw [hg, (ho h).1, made_setWhen, hi]; simp
    · rw [hg, (ho h).1, hi]; simp
  · simp only
    rw [made_setWhen]
    exact hi
  · exact hi

/-- A Fire command for `h` exists only if a runtime timer was made for `h`. -/
theorem fire_made_run {acts : List Action} {s : Sys} (hr : run Sys.init acts = some s)
    (h : Nat) : 0 < inFlight h s → 0 < made h s.rt.gotimers := by
  refine run_induction (fun s => 0 < inFlight h s → 0 < made h s.rt.gotimers) ?_ acts Sys.init s
    (by simp [inFlight, fires, Sys.init, New, Runtime.init]) hr
  intro s a s1 hi hs
  simp only [inFlight] at hi ⊢
  rcases step_cases hs with ⟨_, e, _, hf, rfl⟩ | ⟨_, e, hf, rfl⟩ | ⟨_, i, e, hg, _, rfl⟩ |
    ⟨_, e, rest, r, hc, hd, rfl⟩ | ⟨_, r, h0, f, w, hg, _, rfl⟩ | ⟨_, dt, rfl⟩
  · simp only [fires_snoc, hf h]
    simpa using hi
  · simp only [fires_snoc, (hf h).2]
    simpa using hi
  · have := countP_eraseIdx_add (isFireFor h) s.rt.goroutines i e hg
    simp only [fires_snoc]
    simp only [fires] at hi ⊢
    intro hp
    exact hi (by omega)
  · simp only [fires_snoc]
    rw [hc, fires_cons] at hi
    obtain ⟨hm, -, hgo, -⟩ := Deal_frame hd
    rw [hm, hgo]
    simp only
    intro hp
    have hold := hi (by omega)
    rcases Deal_effect hd with ⟨h0, f, w, -, -, -, hg⟩ | ⟨h0, -, -, -, hg⟩ |
      ⟨h0, y, -, -, -, hg⟩ | ⟨h0, y, w, -, -, -, -, hg⟩ | ⟨h0, y, -, -, -, -, hg⟩ |
      ⟨-, -, -, -, hg⟩
    · rw [hg, made_snoc]; omega
    · rw [hg]; exact hold
    · rw [hg, made_setWhen]; exact hold
    · rw [hg, made_setWhen]; exact hold
    · rw [hg, made_setWhen]; exact hold
    · rw [hg]; exact hold
  · simp only [fires_snoc, made_setWhen]
    intro hp
    by_cases hk : h0 = h
    · exact made_pos_of_getElem? hg (by simp [Closure.id, hk])
    · simp [hk] at hp
      exact hi (by omega)
  · exact hi

/-- Every Create or CreateAck command for `h`, wherever it is, answers to one
issue of `h` by the allocator. -/
theorem uniq_run {acts : List Action} {s : Sys} (hr : run Sys.init acts = some s) (h : Nat) :
    creates h s.history + creates h s.t.mainChan + creates h s.rt.goroutines =
      s.issued.count h := by
  refine run_induction (fun s => creates h s.history + creates h s.t.mainChan +
    creates h s.rt.goroutines = s.issued.count h) ?_ acts Sys.init s
    (by simp [creates, Sys.init, New, Runtime.init]) hr
  intro s a s1 hi hs
  rcases step_cases hs with ⟨_, e, hcr, _, rfl⟩ | ⟨_, e, hf, rfl⟩ | ⟨_, i, e, hg, _, rfl⟩ |
    ⟨_, e, rest, r, hc, hd, rfl⟩ | ⟨_, r, h0, f, w, hg, _, rfl⟩ | ⟨_, dt, rfl⟩
  · simp only [creates_snoc, hcr h, List.count_append, List.count_singleton, decide_eq_true_eq]
    simp only [beq_iff_eq]
    have : (if (s.t.allocID + 1) % uint64Size = h then 1 else 0) =
        (if h = (s.t.allocID + 1) % uint64Size then 1 else 0) := by
      by_cases hk : (s.t.allocID + 1) % uint64Size = h
      · simp [hk]
      · simp [hk, Ne.symm hk]
    omega
  · simp only [creates_snoc, (hf h).1]
    simpa using hi
  · have := countP_eraseIdx_add (isCreateFor h) s.rt.goroutines i e hg
    simp only [creates_snoc]
    simp only [creates] at hi ⊢
    omega
  · simp only [creates_snoc]
    rw [hc, creates_cons] at hi
    obtain ⟨hm, -, hgo, -⟩ := Deal_frame hd
    rw [hm, hgo]
    simp only
    omega
  · simp only [creates_snoc]
    simpa using hi
  · exact hi

theorem run_singleton (s : Sys) (a : Action) : run s [a] = step s a := by
  simp only [run]
  cases step s a <;> rfl

/-- Induction over the runs from a fresh manager, with the run in hand. -/
theorem run_induction_reach (P : Sys → Prop) (h0 : P Sys.init)
    (hstep : ∀ acts s a s1, run Sys.init acts = some s → P s → step s a = some s1 → P s1) :
    ∀ (acts : List Action) (s : Sys), run Sys.init acts = some s → P s := by
  intro acts
  induction acts using List.reverseRecOn with
  | nil =>
    intro s hr
    simp only [run, Option.some.injEq] at hr
    exact hr ▸ h0
  | append_singleton l a ih =>
    intro s hr
    rw [run_append] at hr
    cases hl : run Sys.init l with
    | none => rw [hl] at hr; cases hr
    | some s0 =>
      rw [hl] at hr
      simp only [Option.bind, run_singleton] at hr
      exact hstep l s0 a s hl (ih s0 hl) hr

theorem creates_le_one {acts : List Action} {s : Sys} (hr : run Sys.init acts = some s)
    (hlen : s.issued.length < uint64Size) (h : Nat) : creates h s.history ≤ 1 := by
  have h1 := uniq_run hr h
  have h2 : s.issued.count h ≤ 1 :=
    List.nodup_iff_count_le_one.mp (issued_nodup (allocInv_run hr) hlen) h
  omega

/-- Once a Fire for `h` has been dispatched, and while `h` has been created
at most once, the registry has no entry for `h`. -/
theorem once_run {acts : List Action} {s : Sys} (hr : run Sys.init acts = some s) (h : Nat) :
    0 < fires h s.history → creates h s.history ≤ 1 → s.t.timers h = none := by
  refine run_induction_reach
    (fun s => 0 < fires h s.history → creates h s.history ≤ 1 → s.t.timers h = none)
    (by simp [fires, Sys.init]) ?_ acts s hr
  intro acts s a s1 hrs hi hs
  rcases step_cases hs with ⟨_, e, _, _, rfl⟩ | ⟨_, e, _, rfl⟩ | ⟨_, i, e, _, _, rfl⟩ |
    ⟨_, e, rest, r, hc, hd, rfl⟩ | ⟨_, r, h0, f, w, _, _, rfl⟩ | ⟨_, dt, rfl⟩
  · exact hi
  · exact hi
  · exact hi
  · simp only [fires_snoc, creates_snoc]
    intro hf hcr
    rcases Deal_effect hd with ⟨h0, f, w, hcre, ho, ht, -⟩ | ⟨h0, hfi, ho, ht, -⟩ |
      ⟨h0, y, -, ho, ht, -⟩ | ⟨h0, y, w, -, -, ho, ht, -⟩ | ⟨h0, y, -, hrm, ho, ht, -⟩ |
      ⟨ho, -, -, ht, -⟩
    · rw [(ho h).1] at hf
      rw [hcre] at hcr
      simp only [Bool.false_eq_true, if_false, Nat.add_zero] at hf
      by_cases hk : h0 = h
      · have hm := fire_made_run hrs h (by simp only [inFlight]; omega)
        rw [made_run hrs h] at hm
        simp [hk] at hcr
        omega
      · rw [ht, Function.update_noteq (Ne.symm hk)]
        simp [hk] at hcr
        exact hi hf hcr
    · rw [ht]
      rw [(ho h).1] at hcr
      rw [hfi] at hf
      by_cases hk : h0 = h
      · subst hk; simp
      · rw [Function.update_noteq (Ne.symm hk)]
        simp [hk] at hf
        simp at hcr
        exact hi hf hcr
    · rw [ht]; rw [(ho h).1] at hcr; rw [(ho h).2.1] at hf
      simp at hf hcr
      exact hi hf hcr
    · rw [ht]; rw [(ho h).1] at hcr; rw [(ho h).2.1] at hf
      simp at hf hcr
      exact hi hf hcr
    · rw [ht]; rw [(ho h).1] at hcr; rw [(ho h).2.1] at hf
      by_cases hk : h0 = h
      · subst hk; simp
      · rw [Function.update_noteq (Ne.symm hk)]
        simp at hf hcr
        exact hi hf hcr
    · rw [ht]; rw [(ho h).1] at hcr; rw [(ho h).2] at hf
      simp at hf hcr
      exact hi hf hcr
  · exact hi
  · exact hi

theorem lateReset_of_ne_recv (h : Nat) (s : Sys) {a : Action} (ha : a ≠ Action.recv) :
    lateReset h s a = 0 := by
  cases a <;> simp_all [lateReset]

/-- One step changes the potential of `h` by no more than the Create commands
and the late resets for `h` it dispatches. -/
theorem potential_step {s s1 : Sys} {a : Action} (h : Nat) (hreg : RegInv s)
    (hs : step s a = some s1) :
    potential h s1 + creates h s.history ≤
      potential h s + creates h s1.history + lateReset h s a := by
  simp only [potential, inFlight]
  rcases step_cases hs with ⟨ha, e, _, hf, rfl⟩ | ⟨ha, e, hf, rfl⟩ | ⟨ha, i, e, hg, _, rfl⟩ |
    ⟨ha, e, rest, r, hc, hd, rfl⟩ | ⟨ha, r, h0, f, w, hg, _, rfl⟩ | ⟨ha, dt, rfl⟩
  · simp only [fires_snoc, hf h]
    simp
  · simp only [fires_snoc, (hf h).2]
    simp
  · have := countP_eraseIdx_add (isFireFor h) s.rt.goroutines i e hg
    simp only [fires_snoc]
    simp only [fires] at this ⊢
    omega
  · subst ha
    obtain ⟨hm, -, hgo, -⟩ := Deal_frame hd
    simp only at hm
    simp only [fires_snoc, creates_snoc, hgo, hm]
    rw [hc, fires_cons]
    rcases Deal_effect hd with ⟨h0, f, w, hcre, ho, -, hgt⟩ | ⟨h0, hfi, ho, -, hgt⟩ |
      ⟨h0, y, -, ho, -, hgt⟩ | ⟨h0, y, w, hy, hrs, ho, -, hgt⟩ | ⟨h0, y, -, hrm, ho, -, hgt⟩ |
      ⟨ho, -, -, -, hgt⟩
    · rw [hgt, armed_snoc, hcre, (ho h).1]
      simp [Closure.id]
      omega
    · rw [hgt, (ho h).1]
      simp
      omega
    · have := armed_setWhen_none_le h s.rt.gotimers y
      rw [hgt, (ho h).1, (ho h).2.1]
      simp
      omega
    · simp only at hy
      obtain ⟨g, hg, hid⟩ := hreg h0 y hy
      have ha := armed_setWhen h (some w) hg
      rw [hgt, (ho h).1, (ho h).2.1]
      simp only [lateReset, hc, hrs]
      by_cases hk : h0 = h
      · subst hk
        simp only [hy, isActive, hg]
        simp only [hid] at ha
        cases hw : g.when with
        | none =>
          simp [hw] at ha ⊢
          omega
        | some w0 =>
          simp [hw] at ha ⊢
          omega
      · have hne : ¬ g.fn.id = h := by rw [hid]; exact hk
        simp [hne] at ha
        simp [hk]
        omega
    · have := armed_setWhen_none_le h s.rt.gotimers y
      rw [hgt, (ho h).1, (ho h).2.1]
      simp
      omega
    · rw [hgt, (ho h).1, (ho h).2]
      simp
  · have ha2 := armed_setWhen h none hg
    simp only [fires_snoc, isFireFor_evExecute]
    simp only [Closure.id] at ha2
    by_cases hk : h0 = h
    · simp [hk] at ha2 ⊢
      omega
    · simp [hk] at ha2 ⊢
      omega
  · simp

/-- Along a run the potential of `h` grows by no more than the dispatched
Create commands and the late resets for `h`. -/
theorem potential_run (h : Nat) :
    ∀ (acts : List Action) (s s1 : Sys), RegInv s → run s acts = some s1 →
      potential h s1 + creates h s.history ≤
        potential h s + creates h s1.history + lateResets h s acts
  | [], s, s1, _, hr => by
    simp only [run, Option.some.injEq] at hr
    subst hr
    simp [lateResets]
  | a :: as, s, s1, hreg, hr => by
    simp only [run] at hr
    cases hs : step s a with
    | none => rw [hs] at hr; cases hr
    | some s2 =>
      rw [hs] at hr
      have h1 := potential_step h hreg hs
      have h2 := potential_run h as s2 s1 (regInv_step s a s2 hreg hs) hr
      simp only [lateResets, hs]
      omega

/-- `Deal` calls a scheduled callback exactly when it deals with a Fire
command carrying it, and then once. -/
theorem Deal_trace_calls {t : Timer} {rt : Runtime} {e : event} {r : Timer × Runtime}
    (hd : Deal t rt e = some r) (f : Nat) :
    r.2.trace.count (Effect.call f) =
      rt.trace.count (Effect.call f) + (if isFireWith f e = true then 1 else 0) := by
  rcases Deal_cases hd with ⟨h, d, g, rfl⟩ | ⟨h, d, g, cb, rfl⟩ | ⟨h, g, rfl⟩ | ⟨h, rfl⟩ |
    ⟨h, g, rfl⟩ | ⟨h, d, rfl⟩ | ⟨h, d, g, rfl⟩ | ⟨h, rfl⟩ | ⟨h, g, rfl⟩ | ⟨hu, rfl⟩
  · rw [Deal_evAfterFunc] at hd; cases hd
    simp [timeAfterFunc, isFireWith, evAfterFunc, List.count_append, List.count_singleton]
  · rw [Deal_evAfterFuncWithAfterFuncFinishedCallback] at hd; cases hd
    simp [timeAfterFunc, callFuncUint64, isFireWith, evAfterFuncWithAfterFuncFinishedCallback,
      List.count_append, List.count_singleton]
  · rw [Deal_evExecute] at hd; cases hd
    by_cases hk : g = f
    · simp [callFunc, isFireWith, evExecute, List.count_append, List.count_singleton, hk]
    · simp [callFunc, isFireWith, evExecute, List.count_append, List.count_singleton, hk,
        Ne.symm hk]
  · rw [Deal_evStop] at hd
    cases hx : t.timers h <;> rw [hx] at hd <;> cases hd <;>
      simp [timerStop, isFireWith, evStop, List.count_append, List.count_singleton]
  · rw [Deal_evStopWithStopFinishedCallback] at hd
    cases hx : t.timers h <;> rw [hx] at hd <;> cases hd <;>
      simp [timerStop, callFuncBool, isFireWith, evStopWithStopFinishedCallback,
        List.count_append, List.count_singleton]
  · rw [Deal_evReset] at hd
    cases hx : t.timers h <;> rw [hx] at hd <;> cases hd <;>
      simp [timerReset, isFireWith, evReset, List.count_append, List.count_singleton]
  · rw [Deal_evResetWithResetFinishedCallback] at hd
    cases hx : t.timers h <;> rw [hx] at hd <;> cases hd <;>
      simp [timerReset, callFuncBool, isFireWith, evResetWithResetFinishedCallback,
        List.count_append, List.count_singleton]
  · rw [Deal_evRemove] at hd
    cases hx : t.timers h <;> rw [hx] at hd <;> cases hd <;>
      simp [timerStop, isFireWith, evRemove, List.count_append, List.count_singleton]
  · rw [Deal_evRemoveWithRemoveFinishedCallback] at hd
    cases hx : t.timers h <;> rw [hx] at hd <;> cases hd <;>
      simp [timerStop, callFuncBool, isFireWith, evRemoveWithRemoveFinishedCallback,
        List.count_append, List.count_singleton]
  · obtain ⟨-, -, h2, -⟩ := hu
    obtain ⟨ty, a⟩ := e
    cases a <;> simp_all [isFireWith]

/-- The calls of a scheduled callback in the trace are the dispatched Fire
commands that carry it. -/
theorem trace_run {acts : List Action} {s : Sys} (hr : run Sys.init acts = some s) (f : Nat) :
    s.rt.trace.count (Effect.call f) = s.history.countP (isFireWith f) := by
  refine run_induction
    (fun s => s.rt.trace.count (Effect.call f) = s.history.countP (isFireWith f)) ?_
    acts Sys.init s rfl hr
  intro s a s1 hi hs
  rcases step_cases hs with ⟨_, e, _, _, rfl⟩ | ⟨_, e, _, rfl⟩ | ⟨_, i, e, _, _, rfl⟩ |
    ⟨_, e, rest, r, _, hd, rfl⟩ | ⟨_, r, h0, g, w, _, _, rfl⟩ | ⟨_, dt, rfl⟩
  · exact hi
  · exact hi
  · exact hi
  · simp only
    rw [Deal_trace_calls hd f, hi]
    simp [List.countP_append, List.countP_cons]
  · exact hi
  · exact hi

/-- A goroutine at the end of the pending list completes its send. -/
theorem step_send_last (s : Sys) (pending : List event) (e : event)
    (hp : s.rt.goroutines = pending ++ [e]) (hlen : s.t.mainChan.length < mainChanLength) :
    step s (Action.send pending.length) = some { s with
      t := { s.t with mainChan := s.t.mainChan ++ [e] }
      rt := { s.rt with goroutines := pending } } := by
  simp [step, hp, hlen, List.eraseIdx_append_of_length_le]

/-! ### C2: fire-once -/

/-- C2 (as stated) fails when a Reset is dispatched between the expiry of the
runtime timer and the dispatch of the resulting Fire: the entry still exists,
so the expired timer is armed again; the first Fire calls f and deletes the
entry, and the second expiry produces a second Fire that calls f again. -/
theorem C2_counterexample_reset_after_expiry :
    ∃ s, run Sys.init [Action.AfterFunc 1000000000 7, Action.send 0, Action.recv,
        Action.tick 1000000000, Action.expire 0, Action.Reset 1 1000000000, Action.send 1,
        Action.recv, Action.send 0, Action.recv, Action.tick 1000000000, Action.expire 0,
        Action.send 0, Action.recv] = some s ∧
      s.issued = [1] ∧
      s.history = [evAfterFunc 1 1000000000 7, evReset 1 1000000000, evExecute 1 7,
        evExecute 1 7] ∧
      s.rt.trace = [Effect.newTimer 0 1000000000, Effect.resetTimer 0 1000000000,
        Effect.call 7, Effect.call 7] ∧
      s.rt.trace.count (Effect.call 7) = 2 :=
  ⟨_, rfl, rfl, rfl, rfl, rfl⟩

/-! ### C3: stop before fire -/

theorem lateResets_append (h : Nat) :
    ∀ (as : List Action) (s s1 : Sys) (bs : List Action), run s as = some s1 →
      lateResets h s (as ++ bs) = lateResets h s as + lateResets h s1 bs
  | [], s, s1, bs, hr => by
    simp only [run, Option.some.injEq] at hr
    subst hr
    simp [lateResets]
  | a :: as, s, s1, bs, hr => by
    simp only [run] at hr
    cases hs : step s a with
    | none => rw [hs] at hr; cases hr
    | some s2 =>
      rw [hs] at hr
      have ih := lateResets_append h as s2 s1 bs hr
      simp only [List.cons_append, lateResets, hs]
      simp only [List.append_eq, ih]
      omega

theorem isActive_setWhen_none (gs : List GoTimer) (r : Nat) :
    isActive (setWhen gs r none) r = false := by
  cases hr : gs[r]? with
  | none => rw [setWhen_of_none none hr]; simp [isActive, hr]
  | some g =>
    rw [setWhen_of_some none hr]
    have hlt : r < gs.length := (List.getElem?_eq_some_iff.mp hr).1
    simp [isActive, List.getElem?_set, hlt]

/-- Dispatching StopAck(h, ack) on an entry whose runtime timer is active:
the acknowledgement receives true and the potential of `h` drops by one. -/
theorem stopAck_active_step {s s2 : Sys} {h ack r : Nat} {rest : List event}
    (hreg : RegInv s) (hhead : s.t.mainChan = evStopWithStopFinishedCallback h ack :: rest)
    (hentry : s.t.timers h = some r) (hact : isActive s.rt.gotimers r = true)
    (hstep : step s Action.recv = some s2) :
    s2.rt.trace = s.rt.trace ++ [Effect.stopTimer r, Effect.callBool ack true] ∧
    isActive s2.rt.gotimers r = false ∧ s2.t.timers = s.t.timers ∧
    potential h s2 + 1 = potential h s ∧ creates h s2.history = creates h s.history := by
  have hstep1 : step s Action.recv = some { s with
      t := { s.t with mainChan := rest }
      rt := callFuncBool (timerStop s.rt r).1 ack (timerStop s.rt r).2
      history := s.history ++ [evStopWithStopFinishedCallback h ack] } := by
    simp only [step, hhead, Deal_evStopWithStopFinishedCallback, hentry]
  rw [hstep1] at hstep
  cases hstep
  obtain ⟨g, hg, hid⟩ := hreg h r hentry
  have hgw : g.when.isSome = true := by
    simpa [isActive, hg] using hact
  have ha := armed_setWhen h none hg
  simp only [hgw, hid] at ha
  simp at ha
  refine ⟨by simp [timerStop, callFuncBool, hact], ?_, rfl, ?_, ?_⟩
  · simp only [timerStop, callFuncBool]
    exact isActive_setWhen_none _ _
  · simp only [potential, inFlight, fires_snoc, callFuncBool, timerStop, hhead, fires_cons,
      isFireFor_evStopWithStopFinishedCallback]
    simp
    omega
  · simp [creates_snoc]

/-- C3 (as stated) fails when the runtime timer of h has already expired: the
Fire command is on its way but not yet dispatched, StopAck is dispatched
first, the timer's Stop returns false, the acknowledgement receives false, and
the Fire dispatched afterwards still calls the callback. -/
theorem C3_counterexample_stop_after_expiry :
    ∃ s, run Sys.init [Action.AfterFunc 1000000000 7, Action.send 0, Action.recv,
        Action.tick 1000000000, Action.expire 0, Action.StopWithStopFinishedCallback 1 9,
        Action.send 1, Action.recv, Action.send 0, Action.recv] = some s ∧
      s.history = [evAfterFunc 1 1000000000 7, evStopWithStopFinishedCallback 1 9,
        evExecute 1 7] ∧
      s.rt.trace = [Effect.newTimer 0 1000000000, Effect.stopTimer 0, Effect.callBool 9 false,
        Effect.call 7] :=
  ⟨_, rfl, rfl, rfl⟩

/-! ### C4: stop after fire -/

/-- C4 (as stated) fails once the 64-bit allocator has wrapped and issues
handle 1 a second time: Create(1), expiry and Fire(1) are dispatched; 2^64
further calls of AfterFunc bring the counter back to 1; the Create of the
last call is dispatched and StopAck(1), dispatched after the Fire for 1, stops
the new timer and its acknowledgement receives true. -/
theorem C4_counterexample_handle_reuse :
    ∃ s, run Sys.init
        ([Action.AfterFunc 0 7, Action.send 0, Action.recv, Action.expire 0, Action.send 0,
            Action.recv] ++
          List.replicate uint64Size (Action.AfterFunc 0 7) ++
          [Action.send (uint64Size - 1), Action.recv,
            Action.StopWithStopFinishedCallback 1 9, Action.send (uint64Size - 1),
            Action.recv]) = some s ∧
      s.history = [evAfterFunc 1 0 7, evExecute 1 7, evAfterFunc 1 0 7,
        evStopWithStopFinishedCallback 1 9] ∧
      s.rt.trace = [Effect.newTimer 0 0, Effect.call 7, Effect.newTimer 1 0,
        Effect.stopTimer 1, Effect.callBool 9 true] := by
  obtain ⟨s1, hr1, hi1, hh1, hm1, ht1, hg1, htr1, hgo1, hn1⟩ :
      ∃ s1, run Sys.init [Action.AfterFunc 0 7, Action.send 0, Action.recv, Action.expire 0,
          Action.send 0, Action.recv] = some s1 ∧
        s1.issued.length = 1 ∧ s1.history = [evAfterFunc 1 0 7, evExecute 1 7] ∧
        s1.t.mainChan = [] ∧ s1.t.timers 1 = none ∧
        s1.rt.gotimers = [{ when := none, fn := Closure.sendExecute 1 7 }] ∧
        s1.rt.trace = [Effect.newTimer 0 0, Effect.call 7] ∧ s1.rt.goroutines = [] ∧
        s1.rt.now = 0 :=
    ⟨_, rfl, rfl, rfl, rfl, rfl, rfl, rfl, rfl, rfl⟩
  obtain ⟨s2, hr2, hi2, hh2, hm2, ht2, hg2, htr2, hn2, l, hl, hlen, hlast⟩ :=
    run_replicate_AfterFunc 0 7 uint64Size s1
  have hN := uint64Size_eq
  have hr12 : run Sys.init ([Action.AfterFunc 0 7, Action.send 0, Action.recv, Action.expire 0,
      Action.send 0, Action.recv] ++ List.replicate uint64Size (Action.AfterFunc 0 7)) =
      some s2 := by
    rw [run_append, hr1, Option.some_bind]; exact hr2
  have halloc : s2.t.allocID = 1 := by
    have ha := (allocInv_run hr12).1
    rw [hi2, hi1, hN] at ha
    omega
  have hlast1 := hlast (by omega)
  rw [halloc] at hlast1
  have hsplit : l.dropLast ++ [evAfterFunc 1 0 7] = l :=
    List.dropLast_append_getLast? _ hlast1
  have hplen : l.dropLast.length = uint64Size - 1 := by
    rw [List.length_dropLast, hlen]
  rw [hgo1, List.nil_append, ← hsplit] at hl
  rw [hh1] at hh2
  rw [hm1] at hm2
  rw [hg1] at hg2
  rw [htr1] at htr2
  rw [hn1] at hn2
  obtain ⟨⟨a2, mc2, tm2⟩, ⟨now2, gt2, go2, tr2⟩, hist2, iss2⟩ := s2
  simp only at hh2 hm2 hg2 htr2 hn2 hl halloc
  subst hh2 hm2 hg2 htr2 hn2 hl halloc
  have hcap : (0 : Nat) < mainChanLength := by norm_num [mainChanLength]
  have hs3 : step
    { t := { allocID := 1, mainChan := [], timers := tm2 },
      rt := { now := 0, gotimers := [{ when := none, fn := Closure.sendExecute 1 7 }],
              goroutines := l.dropLast ++ [evAfterFunc 1 0 7],
              trace := [Effect.newTimer 0 0, Effect.call 7] },
      history := [evAfterFunc 1 0 7, evExecute 1 7], issued := iss2 }
    (Action.send (uint64Size - 1)) = some
    { t := { allocID := 1, mainChan := [evAfterFunc 1 0 7], timers := tm2 },
      rt := { now := 0, gotimers := [{ when := none, fn := Closure.sendExecute 1 7 }],
              goroutines := l.dropLast,
              trace := [Effect.newTimer 0 0, Effect.call 7] },
      history := [evAfterFunc 1 0 7, evExecute 1 7], issued := iss2 } := by
    rw [← hplen]
    exact step_send_last _ l.dropLast (evAfterFunc 1 0 7) rfl hcap
  have hs4 : step
    { t := { allocID := 1, mainChan := [evAfterFunc 1 0 7], timers := tm2 },
      rt := { now := 0, gotimers := [{ when := none, fn := Closure.sendExecute 1 7 }],
              goroutines := l.dropLast,
              trace := [Effect.newTimer 0 0, Effect.call 7] },
      history := [evAfterFunc 1 0 7, evExecute 1 7], issued := iss2 }
    Action.recv = some
    { t := { allocID := 1, mainChan := [], timers := Function.update tm2 1 (some 1) },
      rt := { now := 0, gotimers := [{ when := none, fn := Closure.sendExecute 1 7 },
                { when := some 0, fn := Closure.sendExecute 1 7 }],
              goroutines := l.dropLast,
              trace := [Effect.newTimer 0 0, Effect.call 7, Effect.newTimer 1 0] },
      history := [evAfterFunc 1 0 7, evExecute 1 7, evAfterFunc 1 0 7], issued := iss2 } := by
    simp [step, Deal_evAfterFunc, timeAfterFunc]
  have hs5 : step
    { t := { allocID := 1, mainChan := [], timers := Function.update tm2 1 (some 1) },
      rt := { now := 0, gotimers := [{ when := none, fn := Closure.sendExecute 1 7 },
                { when := some 0, fn := Closure.sendExecute 1 7 }],
              goroutines := l.dropLast,
              trace := [Effect.newTimer 0 0, Effect.call 7, Effect.newTimer 1 0] },
      history := [evAfterFunc 1 0 7, evExecute 1 7, evAfterFunc 1 0 7], issued := iss2 }
    (Action.StopWithStopFinishedCallback 1 9) = some
    { t := { allocID := 1, mainChan := [], timers := Function.update tm2 1 (some 1) },
      rt := { now := 0, gotimers := [{ when := none, fn := Closure.sendExecute 1 7 },
                { when := some 0, fn := Closure.sendExecute 1 7 }],
              goroutines := l.dropLast ++ [evStopWithStopFinishedCallback 1 9],
              trace := [Effect.newTimer 0 0, Effect.call 7, Effect.newTimer 1 0] },
      history := [evAfterFunc 1 0 7, evExecute 1 7, evAfterFunc 1 0 7], issued := iss2 } := rfl
  have hs6 : step
    { t := { allocID := 1, mainChan := [], timers := Function.update tm2 1 (some 1) },
      rt := { now := 0, gotimers := [{ when := none, fn := Closure.sendExecute 1 7 },
                { when := some 0, fn := Closure.sendExecute 1 7 }],
              goroutines := l.dropLast ++ [evStopWithStopFinishedCallback 1 9],
              trace := [Effect.newTimer 0 0, Effect.call 7, Effect.newTimer 1 0] },
      history := [evAfterFunc 1 0 7, evExecute 1 7, evAfterFunc 1 0 7], issued := iss2 }
    (Action.send (uint64Size - 1)) = some
    { t := { allocID := 1, mainChan := [evStopWithStopFinishedCallback 1 9], timers := Function.update tm2 1 (some 1) },
      rt := { now := 0, gotimers := [{ when := none, fn := Closure.sendExecute 1 7 },
                { when := some 0, fn := Closure.sendExecute 1 7 }],
              goroutines := l.dropLast,
              trace := [Effect.newTimer 0 0, Effect.call 7, Effect.newTimer 1 0] },
      history := [evAfterFunc 1 0 7, evExecute 1 7, evAfterFunc 1 0 7], issued := iss2 } := by
    rw [← hplen]
    exact step_send_last _ l.dropLast (evStopWithStopFinishedCallback 1 9) rfl hcap
  have hs7 : step
    { t := { allocID := 1, mainChan := [evStopWithStopFinishedCallback 1 9], timers := Function.update tm2 1 (some 1) },
      rt := { now := 0, gotimers := [{ when := none, fn := Closure.sendExecute 1 7 },
                { when := some 0, fn := Closure.sendExecute 1 7 }],
              goroutines := l.dropLast,
              trace := [Effect.newTimer 0 0, Effect.call 7, Effect.newTimer 1 0] },
      history := [evAfterFunc 1 0 7, evExecute 1 7, evAfterFunc 1 0 7], issued := iss2 }
    Action.recv = some
    { t := { allocID := 1, mainChan := [], timers := Function.update tm2 1 (some 1) },
      rt := { now := 0, gotimers := [{ when := none, fn := Closure.sendExecute 1 7 },
                { when := none, fn := Closure.sendExecute 1 7 }],
              goroutines := l.dropLast,
              trace := [Effect.newTimer 0 0, Effect.call 7, Effect.newTimer 1 0,
                Effect.stopTimer 1, Effect.callBool 9 true] },
      history := [evAfterFunc 1 0 7, evExecute 1 7, evAfterFunc 1 0 7,
        evStopWithStopFinishedCallback 1 9], issued := iss2 } := by
    simp [step, Deal_evStopWithStopFinishedCallback, timerStop, isActive, setWhen, callFuncBool]
  have htail : run
    { t := { allocID := 1, mainChan := [], timers := tm2 },
      rt := { now := 0, gotimers := [{ when := none, fn := Closure.sendExecute 1 7 }],
              goroutines := l.dropLast ++ [evAfterFunc 1 0 7],
              trace := [Effect.newTimer 0 0, Effect.call 7] },
      history := [evAfterFunc 1 0 7, evExecute 1 7], issued := iss2 }
    [Action.send (uint64Size - 1), Action.recv, Action.StopWithStopFinishedCallback 1 9,
      Action.send (uint64Size - 1), Action.recv] = some
    { t := { allocID := 1, mainChan := [], timers := Function.update tm2 1 (some 1) },
      rt := { now := 0, gotimers := [{ when := none, fn := Closure.sendExecute 1 7 },
                { when := none, fn := Closure.sendExecute 1 7 }],
              goroutines := l.dropLast,
              trace := [Effect.newTimer 0 0, Effect.call 7, Effect.newTimer 1 0,
                Effect.stopTimer 1, Effect.callBool 9 true] },
      history := [evAfterFunc 1 0 7, evExecute 1 7, evAfterFunc 1 0 7,
        evStopWithStopFinishedCallback 1 9], issued := iss2 } := by
    simp only [run, hs3, hs4, hs5, hs6, hs7]
  have hfinal := run_append Sys.init
    ([Action.AfterFunc 0 7, Action.send 0, Action.recv, Action.expire 0, Action.send 0,
        Action.recv] ++ List.replicate uint64Size (Action.AfterFunc 0 7))
    [Action.send (uint64Size - 1), Action.recv, Action.StopWithStopFinishedCallback 1 9,
      Action.send (uint64Size - 1), Action.recv]
  rw [hr12, Option.some_bind, htail] at hfinal
  exact ⟨_, hfinal, rfl, rfl⟩

/-- C4 (amended). In every state reachable from New in which fewer than 2^64
handles have been issued (so h names one timer only), if a Fire for h has
been dispatched, then dispatching StopAck(h, ack) calls ack with false, once,
and touches neither a runtime timer nor the registry. -/
theorem C4_stop_after_fire_reports_false (acts : List Action) (s : Sys) (h ack : Nat)
    (rest : List event) (hrun : run Sys.init acts = some s)
    (hlen : s.issued.length < uint64Size) (hfired : 0 < fires h s.history)
    (hhead : s.t.mainChan = evStopWithStopFinishedCallback h ack :: rest) :
    ∃ s1, step s Action.recv = some s1 ∧
      s1.rt.trace = s.rt.trace ++ [Effect.callBool ack false] ∧
      s1.t.timers = s.t.timers ∧ s1.rt.gotimers = s.rt.gotimers ∧
      s1.history = s.history ++ [evStopWithStopFinishedCallback h ack] := by
  have hnone : s.t.timers h = none := once_run hrun h hfired (creates_le_one hrun hlen h)
  refine ⟨{ s with
      t := { s.t with mainChan := rest }
      rt := callFuncBool s.rt ack false
      history := s.history ++ [evStopWithStopFinishedCallback h ack] }, ?_, rfl, rfl, rfl, rfl⟩
  simp only [step, hhead, Deal_evStopWithStopFinishedCallback, hnone]

/-- C4, a run: handle 1 is scheduled for one second, fires, its Fire is
dispatched, and StopAck(1) is about to be dispatched. -/
theorem C4_stop_after_fire_reports_false_witness :
    ∃ s, run Sys.init [Action.AfterFunc 1000000000 7, Action.send 0, Action.recv,
        Action.tick 1000000000, Action.expire 0, Action.send 0, Action.recv,
        Action.StopWithStopFinishedCallback 1 9, Action.send 0] = some s ∧
      s.history = [evAfterFunc 1 1000000000 7, evExecute 1 7] ∧
      ∃ s1, step s Action.recv = some s1 ∧
        s1.rt.trace = s.rt.trace ++ [Effect.callBool 9 false] ∧
        s1.t.timers = s.t.timers ∧ s1.rt.gotimers = s.rt.gotimers ∧
        s1.history = s.history ++ [evStopWithStopFinishedCallback 1 9] :=
  ⟨_, rfl, rfl,
    C4_stop_after_fire_reports_false [Action.AfterFunc 1000000000 7, Action.send 0,
        Action.recv, Action.tick 1000000000, Action.expire 0, Action.send 0, Action.recv,
        Action.StopWithStopFinishedCallback 1 9, Action.send 0] _ 1 9 [] rfl
      (by decide) (by decide) rfl⟩

/-! ### The dispatch of single commands, continued (C11 to C13, C15, C16) -/

theorem getElem?_setWhen_self {gs : List GoTimer} {r : Nat} {g : GoTimer} (w : Option Int)
    (hg : gs[r]? = some g) : (setWhen gs r w)[r]? = some { when := w, fn := g.fn } := by
  have hlt : r < gs.length := (List.getElem?_eq_some_iff.mp hg).1
  rw [setWhen_of_some w hg, List.getElem?_set]
  simp [hlt]

theorem getElem?_setWhen_ne (gs : List GoTimer) {r i : Nat} (w : Option Int) (hne : i ≠ r) :
    (setWhen gs r w)[i]? = gs[i]? := by
  cases hr : gs[r]? with
  | none => rw [setWhen_of_none w hr]
  | some g =>
    rw [setWhen_of_some w hr, List.getElem?_set]
    simp [Ne.symm hne]

/-- C11. Dispatching ResetAck(h, d, ack): when the registry holds a timer for
h, that timer is reprogrammed to expire d after now (no other timer changes)
and ack is called exactly once with the value Reset returned (true exactly
when the timer was still active); when it holds none, no timer operation is
made and ack is called exactly once with false.  The registry is unchanged in
both cases. -/
theorem C11_resetAck_reprograms_and_reports (t : Timer) (rt : Runtime) (h : Nat) (d : Int)
    (ack : Nat) :
    (∀ r, t.timers h = some r →
      Deal t rt (evResetWithResetFinishedCallback h d ack) =
        some (t, callFuncBool (timerReset rt r d).1 ack (timerReset rt r d).2) ∧
      (callFuncBool (timerReset rt r d).1 ack (timerReset rt r d).2).trace =
        rt.trace ++ [Effect.resetTimer r d, Effect.callBool ack (timerReset rt r d).2] ∧
      (∀ g, rt.gotimers[r]? = some g →
        (callFuncBool (timerReset rt r d).1 ack (timerReset rt r d).2).gotimers[r]? =
          some { when := some (rt.now + d), fn := g.fn } ∧
        (timerReset rt r d).2 = g.when.isSome) ∧
      (∀ i, i ≠ r →
        (callFuncBool (timerReset rt r d).1 ack (timerReset rt r d).2).gotimers[i]? =
          rt.gotimers[i]?)) ∧
    (t.timers h = none →
      Deal t rt (evResetWithResetFinishedCallback h d ack) =
        some (t, callFuncBool rt ack false) ∧
      (callFuncBool rt ack false).trace = rt.trace ++ [Effect.callBool ack false] ∧
      (callFuncBool rt ack false).gotimers = rt.gotimers) := by
  constructor
  · intro r hr
    refine ⟨by rw [Deal_evResetWithResetFinishedCallback, hr], ?_, ?_, ?_⟩
    · simp [timerReset, callFuncBool]
    · intro g hg
      exact ⟨getElem?_setWhen_self _ hg, by simp [timerReset, isActive, hg]⟩
    · intro i hi
      exact getElem?_setWhen_ne _ _ hi
  · intro hn
    exact ⟨by rw [Deal_evResetWithResetFinishedCallback, hn], rfl, rfl⟩

/-- C12. Dispatching RemoveAck(h, ack): when the registry holds a timer for
h, the timer's Stop is requested, the resulting registry is the prior one
without h, and ack is called exactly once, with true; when it holds none,
nothing changes and ack is called exactly once, with false.  So ack receives
true if and only if there was an entry, and afterwards the registry has no
entry for h in either case. -/
theorem C12_removeAck_deletes_and_reports (t : Timer) (rt : Runtime) (h ack : Nat) :
    ∃ t1 rt1, Deal t rt (evRemoveWithRemoveFinishedCallback h ack) = some (t1, rt1) ∧
      t1.timers h = none ∧ (∀ k, k ≠ h → t1.timers k = t.timers k) ∧
      rt1.trace.count (Effect.callBool ack true) + rt1.trace.count (Effect.callBool ack false) =
        rt.trace.count (Effect.callBool ack true) +
          rt.trace.count (Effect.callBool ack false) + 1 ∧
      (rt1.trace.getLast? = some (Effect.callBool ack true) ↔ (t.timers h).isSome = true) ∧
      (∀ r, t.timers h = some r →
        t1.timers = Function.update t.timers h none ∧
        rt1.trace = rt.trace ++ [Effect.stopTimer r, Effect.callBool ack true] ∧
        rt1.gotimers = setWhen rt.gotimers r none ∧ isActive rt1.gotimers r = false) ∧
      (t.timers h = none →
        t1.timers = t.timers ∧ rt1.trace = rt.trace ++ [Effect.callBool ack false] ∧
        rt1.gotimers = rt.gotimers) := by
  rw [Deal_evRemoveWithRemoveFinishedCallback]
  cases hx : t.timers h with
  | none =>
    refine ⟨_, _, rfl, hx, fun _ _ => rfl, ?_, ?_, ?_, fun _ => ⟨rfl, rfl, rfl⟩⟩
    · simp [callFuncBool, List.count_append, List.count_singleton]
      omega
    · simp [callFuncBool]
    · intro r hr; cases hr
  | some x =>
    refine ⟨_, _, rfl, by simp, fun k hk => by simp [Function.update_noteq hk], ?_, ?_, ?_,
      fun hn => by cases hn⟩
    · simp [callFuncBool, timerStop, List.count_append, List.count_singleton]
      omega
    · simp [callFuncBool]
    · intro r hr
      cases hr
      exact ⟨rfl, by simp [callFuncBool, timerStop], rfl, isActive_setWhen_none _ _⟩

/-- C13. With no registry entry for h, each of Stop(h), Reset(h, d),
Remove(h), StopAck(h, ack), ResetAck(h, d, ack), RemoveAck(h, ack) is dealt
with without failure, leaves the registry and every runtime timer as they
are, and records no timer operation; the three Ack variants call ack once,
with false, and the three others do nothing at all. -/
theorem C13_absent_handle_is_noop (t : Timer) (rt : Runtime) (h : Nat) (d : Int) (ack : Nat)
    (habs : t.timers h = none) :
    Deal t rt (evStop h) = some (t, rt) ∧
    Deal t rt (evReset h d) = some (t, rt) ∧
    Deal t rt (evRemove h) = some (t, rt) ∧
    Deal t rt (evStopWithStopFinishedCallback h ack) = some (t, callFuncBool rt ack false) ∧
    Deal t rt (evResetWithResetFinishedCallback h d ack) =
      some (t, callFuncBool rt ack false) ∧
    Deal t rt (evRemoveWithRemoveFinishedCallback h ack) =
      some (t, callFuncBool rt ack false) ∧
    (callFuncBool rt ack false).trace = rt.trace ++ [Effect.callBool ack false] ∧
    (callFuncBool rt ack false).gotimers = rt.gotimers ∧
    (callFuncBool rt ack false).goroutines = rt.goroutines ∧
    (callFuncBool rt ack false).now = rt.now := by
  refine ⟨?_, ?_, ?_, ?_, ?_, ?_, rfl, rfl, rfl, rfl⟩
  · rw [Deal_evStop, habs]
  · rw [Deal_evReset, habs]
  · rw [Deal_evRemove, habs]
  · rw [Deal_evStopWithStopFinishedCallback, habs]
  · rw [Deal_evResetWithResetFinishedCallback, habs]
  · rw [Deal_evRemoveWithRemoveFinishedCallback, habs]

/-- C13, at a fresh manager: handle 5 has no entry. -/
theorem C13_absent_handle_is_noop_witness :
    New.timers 5 = none ∧
    (Deal New Runtime.init (evStop 5) = some (New, Runtime.init) ∧
    Deal New Runtime.init (evReset 5 1000) = some (New, Runtime.init) ∧
    Deal New Runtime.init (evRemove 5) = some (New, Runtime.init) ∧
    Deal New Runtime.init (evStopWithStopFinishedCallback 5 9) =
      some (New, callFuncBool Runtime.init 9 false) ∧
    Deal New Runtime.init (evResetWithResetFinishedCallback 5 1000 9) =
      some (New, callFuncBool Runtime.init 9 false) ∧
    Deal New Runtime.init (evRemoveWithRemoveFinishedCallback 5 9) =
      some (New, callFuncBool Runtime.init 9 false) ∧
    (callFuncBool Runtime.init 9 false).trace =
      Runtime.init.trace ++ [Effect.callBool 9 false] ∧
    (callFuncBool Runtime.init 9 false).gotimers = Runtime.init.gotimers ∧
    (callFuncBool Runtime.init 9 false).goroutines = Runtime.init.goroutines ∧
    (callFuncBool Runtime.init 9 false).now = Runtime.init.now) :=
  ⟨rfl, C13_absent_handle_is_noop New Runtime.init 5 1000 9 rfl⟩

/-- C15. For each pair (Create, CreateAck), (Stop, StopAck), (Reset,
ResetAck), (Remove, RemoveAck), from every state and for every payload: the
Ack variant ends in the registry of the non-Ack variant and in its
environment with one call of the acknowledgement appended to the trace, so
the runtime timers and the operations made on them are the same. -/
theorem C15_ack_variant_adds_one_call (t : Timer) (rt : Runtime) (h : Nat) (d : Int)
    (f ack : Nat) :
    (∃ t1 rt1, Deal t rt (evAfterFunc h d f) = some (t1, rt1) ∧
      Deal t rt (evAfterFuncWithAfterFuncFinishedCallback h d f ack) =
        some (t1, callFuncUint64 rt1 ack h)) ∧
    (∃ t1 rt1 b, Deal t rt (evStop h) = some (t1, rt1) ∧
      Deal t rt (evStopWithStopFinishedCallback h ack) = some (t1, callFuncBool rt1 ack b)) ∧
    (∃ t1 rt1 b, Deal t rt (evReset h d) = some (t1, rt1) ∧
      Deal t rt (evResetWithResetFinishedCallback h d ack) =
        some (t1, callFuncBool rt1 ack b)) ∧
    (∃ t1 rt1 b, Deal t rt (evRemove h) = some (t1, rt1) ∧
      Deal t rt (evRemoveWithRemoveFinishedCallback h ack) =
        some (t1, callFuncBool rt1 ack b)) ∧
    (∀ (rt1 : Runtime) (b : Bool),
      (callFuncBool rt1 ack b).trace = rt1.trace ++ [Effect.callBool ack b] ∧
      (callFuncBool rt1 ack b).gotimers = rt1.gotimers ∧
      (callFuncBool rt1 ack b).goroutines = rt1.goroutines ∧
      (callFuncBool rt1 ack b).now = rt1.now) ∧
    (∀ rt1 : Runtime,
      (callFuncUint64 rt1 ack h).trace = rt1.trace ++ [Effect.callUint64 ack h] ∧
      (callFuncUint64 rt1 ack h).gotimers = rt1.gotimers ∧
      (callFuncUint64 rt1 ack h).goroutines = rt1.goroutines ∧
      (callFuncUint64 rt1 ack h).now = rt1.now) := by
  refine ⟨⟨_, _, Deal_evAfterFunc t rt h d f,
    Deal_evAfterFuncWithAfterFuncFinishedCallback t rt h d f ack⟩, ?_, ?_, ?_,
    fun _ _ => ⟨rfl, rfl, rfl, rfl⟩, fun _ => ⟨rfl, rfl, rfl, rfl⟩⟩
  · rw [Deal_evStop, Deal_evStopWithStopFinishedCallback]
    cases t.timers h with
    | none => exact ⟨_, _, _, rfl, rfl⟩
    | some r => exact ⟨_, _, _, rfl, rfl⟩
  · rw [Deal_evReset, Deal_evResetWithResetFinishedCallback]
    cases t.timers h with
    | none => exact ⟨_, _, _, rfl, rfl⟩
    | some r => exact ⟨_, _, _, rfl, rfl⟩
  · rw [Deal_evRemove, Deal_evRemoveWithRemoveFinishedCallback]
    cases t.timers h with
    | none => exact ⟨_, _, _, rfl, rfl⟩
    | some r => exact ⟨_, _, _, rfl, rfl⟩

theorem isStopFor_evStop (k h : Nat) : isStopFor k (evStop h) = decide (h = k) := by
  simp [isStopFor, evStop]

theorem isStopFor_evStopWithStopFinishedCallback (k h f : Nat) :
    isStopFor k (evStopWithStopFinishedCallback h f) = decide (h = k) := by
  simp [isStopFor, evStopWithStopFinishedCallback]

/-- C16. Whenever `Deal` deals with a command: a handle k present before is
absent afterwards only if the command is a Fire, Remove or RemoveAck for k; a
Stop, StopAck, Reset or ResetAck leaves the whole registry as it is; and the
entry of every handle other than the one the command carries is unchanged. -/
theorem C16_registry_frame (t : Timer) (rt : Runtime) (e : event) (t1 : Timer) (rt1 : Runtime)
    (hd : Deal t rt e = some (t1, rt1)) :
    (∀ k, (t.timers k).isSome = true → t1.timers k = none →
      isFireFor k e = true ∨ isRemoveFor k e = true) ∧
    (∀ k, isStopFor k e = true ∨ isResetFor k e = true → t1.timers = t.timers) ∧
    (∀ k, k ≠ e.arg.id → t1.timers k = t.timers k) := by
  rcases Deal_cases hd with ⟨h, d, f, rfl⟩ | ⟨h, d, f, cb, rfl⟩ | ⟨h, f, rfl⟩ | ⟨h, rfl⟩ |
    ⟨h, f, rfl⟩ | ⟨h, d, rfl⟩ | ⟨h, d, f, rfl⟩ | ⟨h, rfl⟩ | ⟨h, f, rfl⟩ | ⟨hu, heq⟩
  · rw [Deal_evAfterFunc] at hd; cases hd
    refine ⟨?_, ?_, ?_⟩
    · intro k hk hn
      by_cases hkh : k = h
      · subst hkh; simp at hn
      · simp [Function.update_noteq hkh] at hn; rw [hn] at hk; cases hk
    · intro k hk
      rcases hk with hk | hk
      · simp [isStopFor, evAfterFunc] at hk
      · simp at hk
    · intro k hk
      simp only [evAfterFunc, Arg.id] at hk
      simp [Function.update_noteq hk]
  · rw [Deal_evAfterFuncWithAfterFuncFinishedCallback] at hd; cases hd
    refine ⟨?_, ?_, ?_⟩
    · intro k hk hn
      by_cases hkh : k = h
      · subst hkh; simp at hn
      · simp [Function.update_noteq hkh] at hn; rw [hn] at hk; cases hk
    · intro k hk
      rcases hk with hk | hk
      · simp [isStopFor, evAfterFuncWithAfterFuncFinishedCallback] at hk
      · simp at hk
    · intro k hk
      simp only [evAfterFuncWithAfterFuncFinishedCallback, Arg.id] at hk
      simp [Function.update_noteq hk]
  · rw [Deal_evExecute] at hd; cases hd
    refine ⟨?_, ?_, ?_⟩
    · intro k hk hn
      by_cases hkh : k = h
      · subst hkh; simp
      · simp [Function.update_noteq hkh] at hn; rw [hn] at hk; cases hk
    · intro k hk
      rcases hk with hk | hk
      · simp [isStopFor, evExecute] at hk
      · simp at hk
    · intro k hk
      simp only [evExecute, Arg.id] at hk
      simp [Function.update_noteq hk]
  · rw [Deal_evStop] at hd
    have ht : t1.timers = t.timers := by
      cases hx : t.timers h <;> rw [hx] at hd <;> cases hd <;> rfl
    exact ⟨fun k hk hn => (by rw [ht] at hn; rw [hn] at hk; cases hk), fun _ _ => ht,
      fun k _ => (by rw [ht])⟩
  · rw [Deal_evStopWithStopFinishedCallback] at hd
    have ht : t1.timers = t.timers := by
      cases hx : t.timers h <;> rw [hx] at hd <;> cases hd <;> rfl
    exact ⟨fun k hk hn => (by rw [ht] at hn; rw [hn] at hk; cases hk), fun _ _ => ht,
      fun k _ => (by rw [ht])⟩
  · rw [Deal_evReset] at hd
    have ht : t1.timers = t.timers := by
      cases hx : t.timers h <;> rw [hx] at hd <;> cases hd <;> rfl
    exact ⟨fun k hk hn => (by rw [ht] at hn; rw [hn] at hk; cases hk), fun _ _ => ht,
      fun k _ => (by rw [ht])⟩
  · rw [Deal_evResetWithResetFinishedCallback] at hd
    have ht : t1.timers = t.timers := by
      cases hx : t.timers h <;> rw [hx] at hd <;> cases hd <;> rfl
    exact ⟨fun k hk hn => (by rw [ht] at hn; rw [hn] at hk; cases hk), fun _ _ => ht,
      fun k _ => (by rw [ht])⟩
  · rw [Deal_evRemove] at hd
    have ht : t1.timers = Function.update t.timers h none := by
      cases hx : t.timers h <;> rw [hx] at hd <;> cases hd
      · funext k
        by_cases hkh : k = h
        · subst hkh; simp [hx]
        · simp [Function.update_noteq hkh]
      · rfl
    refine ⟨?_, ?_, ?_⟩
    · intro k hk hn
      by_cases hkh : k = h
      · subst hkh; simp
      · rw [ht, Function.update_noteq hkh] at hn; rw [hn] at hk; cases hk
    · intro k hk
      rcases hk with hk | hk
      · simp [isStopFor, evRemove] at hk
      · simp at hk
    · intro k hk
      simp only [evRemove, Arg.id] at hk
      rw [ht, Function.update_noteq hk]
  · rw [Deal_evRemoveWithRemoveFinishedCallback] at hd
    have ht : t1.timers = Function.update t.timers h none := by
      cases hx : t.timers h <;> rw [hx] at hd <;> cases hd
      · funext k
        by_cases hkh : k = h
        · subst hkh; simp [hx]
        · simp [Function.update_noteq hkh]
      · rfl
    refine ⟨?_, ?_, ?_⟩
    · intro k hk hn
      by_cases hkh : k = h
      · subst hkh; simp
      · rw [ht, Function.update_noteq hkh] at hn; rw [hn] at hk; cases hk
    · intro k hk
      rcases hk with hk | hk
      · simp [isStopFor, evRemoveWithRemoveFinishedCallback] at hk
      · simp at hk
    · intro k hk
      simp only [evRemoveWithRemoveFinishedCallback, Arg.id] at hk
      rw [ht, Function.update_noteq hk]
  · cases heq
    exact ⟨fun k hk hn => (by rw [hn] at hk; cases hk), fun _ _ => rfl, fun _ _ => rfl⟩

/-- C16, at a state holding entries for 1 and 2: Remove(1) is dealt with. -/
theorem C16_registry_frame_witness :
    ∃ t1 rt1,
      Deal { allocID := 2, mainChan := [],
             timers := Function.update (Function.update New.timers 1 (some 0)) 2 (some 1) }
        { now := 0, gotimers := [{ when := some 5, fn := Closure.sendExecute 1 7 },
            { when := some 6, fn := Closure.sendExecute 2 8 }], goroutines := [], trace := [] }
        (evRemove 1) = some (t1, rt1) ∧
      t1.timers 1 = none ∧ t1.timers 2 = some 1 ∧
      ((∀ k, (Function.update (Function.update New.timers 1 (some 0)) 2 (some 1) k).isSome = true →
          t1.timers k = none →
          isFireFor k (evRemove 1) = true ∨ isRemoveFor k (evRemove 1) = true) ∧
        (∀ k, isStopFor k (evRemove 1) = true ∨ isResetFor k (evRemove 1) = true →
          t1.timers = Function.update (Function.update New.timers 1 (some 0)) 2 (some 1)) ∧
        (∀ k, k ≠ (evRemove 1).arg.id →
          t1.timers k = Function.update (Function.update New.timers 1 (some 0)) 2 (some 1) k)) :=
  ⟨_, _, rfl, rfl, rfl,
    C16_registry_frame
      { allocID := 2, mainChan := [],
        timers := Function.update (Function.update New.timers 1 (some 0)) 2 (some 1) }
      { now := 0, gotimers := [{ when := some 5, fn := Closure.sendExecute 1 7 },
          { when := some 6, fn := Closure.sendExecute 2 8 }], goroutines := [], trace := [] }
      (evRemove 1) _ _ rfl⟩

/-! ### The public operations (C18) and the well-typedness of events (C19) -/

/-- C18. Each of the eight public operations spawns exactly one goroutine,
which holds exactly one command: the one with the tag of the operation and
with the caller's arguments as payload (for the two creating operations the
handle in the command is the handle returned); that goroutine's send appends
exactly this command to the channel.  The creating operations advance the
allocator by one (as a `uint64`, that is modulo 2^64) and return the new
value, the other six leave it as it is; no operation changes the registry,
the channel, the runtime timers or the trace, and none depends on the
registry. -/
theorem C18_public_operations_enqueue_one_command (t : Timer) (rt : Runtime) (id : Nat)
    (d : Int) (f cb : Nat) :
    (AfterFunc t rt d f =
        (({ t with allocID := (t.allocID + 1) % uint64Size },
          { rt with goroutines := rt.goroutines ++
              [{ _type := afterFunc,
                 arg := Arg.afterFuncEvent ((t.allocID + 1) % uint64Size) d f }] }),
         (t.allocID + 1) % uint64Size) ∧
      AfterFuncWithAfterFuncFinishedCallback t rt d f cb =
        (({ t with allocID := (t.allocID + 1) % uint64Size },
          { rt with goroutines := rt.goroutines ++
              [{ _type := afterFuncWithAfterFuncFinishedCallback,
                 arg := Arg.afterFuncWithAfterFuncFinishedCallbackEvent
                   ((t.allocID + 1) % uint64Size) d f cb }] }),
         (t.allocID + 1) % uint64Size) ∧
      (t.allocID + 1 < uint64Size → (AfterFunc t rt d f).1.1.allocID = t.allocID + 1 ∧
        (AfterFuncWithAfterFuncFinishedCallback t rt d f cb).1.1.allocID = t.allocID + 1)) ∧
    (Stop t rt id =
        (t, { rt with goroutines := rt.goroutines ++
          [{ _type := stop, arg := Arg.stopEvent id }] }) ∧
      StopWithStopFinishedCallback t rt id f =
        (t, { rt with goroutines := rt.goroutines ++
          [{ _type := stopWithStopFinishedCallback,
             arg := Arg.stopWithStopFinishedCallbackEvent id f }] }) ∧
      Reset t rt id d =
        (t, { rt with goroutines := rt.goroutines ++
          [{ _type := reset, arg := Arg.resetEvent id d }] }) ∧
      ResetWithResetFinishedCallback t rt id d f =
        (t, { rt with goroutines := rt.goroutines ++
          [{ _type := resetWithResetFinishedCallback,
             arg := Arg.resetWithResetFinishedCallbackEvent id d f }] }) ∧
      Remove t rt id =
        (t, { rt with goroutines := rt.goroutines ++
          [{ _type := remove, arg := Arg.removeEvent id }] }) ∧
      RemoveWithRemoveFinishedCallback t rt id f =
        (t, { rt with goroutines := rt.goroutines ++
          [{ _type := removeWithRemoveFinishedCallback,
             arg := Arg.removeWithRemoveFinishedCallbackEvent id f }] })) ∧
    (∀ m : Nat → Option Nat,
      AfterFunc { t with timers := m } rt d f =
        (({ (AfterFunc t rt d f).1.1 with timers := m }, (AfterFunc t rt d f).1.2),
          (AfterFunc t rt d f).2) ∧
      AfterFuncWithAfterFuncFinishedCallback { t with timers := m } rt d f cb =
        (({ (AfterFuncWithAfterFuncFinishedCallback t rt d f cb).1.1 with timers := m },
          (AfterFuncWithAfterFuncFinishedCallback t rt d f cb).1.2),
          (AfterFuncWithAfterFuncFinishedCallback t rt d f cb).2) ∧
      (Stop { t with timers := m } rt id).2 = (Stop t rt id).2 ∧
      (StopWithStopFinishedCallback { t with timers := m } rt id f).2 =
        (StopWithStopFinishedCallback t rt id f).2 ∧
      (Reset { t with timers := m } rt id d).2 = (Reset t rt id d).2 ∧
      (ResetWithResetFinishedCallback { t with timers := m } rt id d f).2 =
        (ResetWithResetFinishedCallback t rt id d f).2 ∧
      (Remove { t with timers := m } rt id).2 = (Remove t rt id).2 ∧
      (RemoveWithRemoveFinishedCallback { t with timers := m } rt id f).2 =
        (RemoveWithRemoveFinishedCallback t rt id f).2) ∧
    (∀ (s : Sys) (e : event), s.t.mainChan.length < mainChanLength →
      step { s with rt := { s.rt with goroutines := s.rt.goroutines ++ [e] } }
          (Action.send s.rt.goroutines.length) =
        some { s with t := { s.t with mainChan := s.t.mainChan ++ [e] } }) := by
  refine ⟨⟨rfl, rfl, ?_⟩, ⟨rfl, rfl, rfl, rfl, rfl, rfl⟩,
    fun m => ⟨rfl, rfl, rfl, rfl, rfl, rfl, rfl, rfl⟩, ?_⟩
  · intro hlt
    exact ⟨Nat.mod_eq_of_lt hlt, Nat.mod_eq_of_lt hlt⟩
  · intro s e hlen
    exact step_send_last _ s.rt.goroutines e rfl hlen

theorem wellTyped_ev (id : Nat) (d : Int) (f cb : Nat) :
    wellTyped (evAfterFunc id d f) = true ∧
    wellTyped (evAfterFuncWithAfterFuncFinishedCallback id d f cb) = true ∧
    wellTyped (evExecute id f) = true ∧
    wellTyped (evStop id) = true ∧
    wellTyped (evStopWithStopFinishedCallback id f) = true ∧
    wellTyped (evReset id d) = true ∧
    wellTyped (evResetWithResetFinishedCallback id d f) = true ∧
    wellTyped (evRemove id) = true ∧
    wellTyped (evRemoveWithRemoveFinishedCallback id f) = true := by
  simp [wellTyped, evAfterFunc, evAfterFuncWithAfterFuncFinishedCallback, evExecute, evStop,
    evStopWithStopFinishedCallback, evReset, evResetWithResetFinishedCallback, evRemove,
    evRemoveWithRemoveFinishedCallback]

/-- `Deal` succeeds on every event whose tag and payload type agree. -/
theorem Deal_isSome_of_wellTyped (t : Timer) (rt : Runtime) {e : event}
    (hw : wellTyped e = true) : ∃ r, Deal t rt e = some r := by
  obtain ⟨ty, a⟩ := e
  cases a with
  | afterFuncEvent id d f =>
    simp [wellTyped] at hw; subst hw
    exact ⟨_, Deal_evAfterFunc t rt id d f⟩
  | afterFuncWithAfterFuncFinishedCallbackEvent id d f cb =>
    simp [wellTyped] at hw; subst hw
    exact ⟨_, Deal_evAfterFuncWithAfterFuncFinishedCallback t rt id d f cb⟩
  | executeEvent id f =>
    simp [wellTyped] at hw; subst hw
    exact ⟨_, Deal_evExecute t rt id f⟩
  | stopEvent id =>
    simp [wellTyped] at hw; subst hw
    have := Deal_evStop t rt id
    cases hx : t.timers id <;> rw [hx] at this <;> exact ⟨_, this⟩
  | stopWithStopFinishedCallbackEvent id f =>
    simp [wellTyped] at hw; subst hw
    have := Deal_evStopWithStopFinishedCallback t rt id f
    cases hx : t.timers id <;> rw [hx] at this <;> exact ⟨_, this⟩
  | resetEvent id d =>
    simp [wellTyped] at hw; subst hw
    have := Deal_evReset t rt id d
    cases hx : t.timers id <;> rw [hx] at this <;> exact ⟨_, this⟩
  | resetWithResetFinishedCallbackEvent id d f =>
    simp [wellTyped] at hw; subst hw
    have := Deal_evResetWithResetFinishedCallback t rt id d f
    cases hx : t.timers id <;> rw [hx] at this <;> exact ⟨_, this⟩
  | removeEvent id =>
    simp [wellTyped] at hw; subst hw
    have := Deal_evRemove t rt id
    cases hx : t.timers id <;> rw [hx] at this <;> exact ⟨_, this⟩
  | removeWithRemoveFinishedCallbackEvent id f =>
    simp [wellTyped] at hw; subst hw
    have := Deal_evRemoveWithRemoveFinishedCallback t rt id f
    cases hx : t.timers id <;> rw [hx] at this <;> exact ⟨_, this⟩

/-- An event with an unknown tag falls through the switch. -/
theorem Deal_unknownTag (t : Timer) (rt : Runtime) {e : event} (hu : unknownTag e._type) :
    Deal t rt e = some (t, rt) := by
  obtain ⟨h0, h1, h2, h3, h4, h5, h6, h7, h8⟩ := hu
  simp [Deal, h0, h1, h2, h3, h4, h5, h6, h7, h8]

/-- Every event in the channel or held by a goroutine is well typed. -/
theorem wellTyped_run {acts : List Action} {s : Sys} (hr : run Sys.init acts = some s) :
    (∀ e ∈ s.t.mainChan, wellTyped e = true) ∧ (∀ e ∈ s.rt.goroutines, wellTyped e = true) := by
  refine run_induction (fun s => (∀ e ∈ s.t.mainChan, wellTyped e = true) ∧
    (∀ e ∈ s.rt.goroutines, wellTyped e = true)) ?_ acts Sys.init s
    (by simp [Sys.init, New, Runtime.init]) hr
  intro s a s1 hi hs
  obtain ⟨hc, hg⟩ := hi
  have hsnoc : ∀ e0, wellTyped e0 = true →
      ∀ e ∈ s.rt.goroutines ++ [e0], wellTyped e = true := by
    intro e0 h0 e he
    rcases List.mem_append.mp he with he | he
    · exact hg e he
    · simp at he; subst he; exact h0
  cases a with
  | AfterFunc d f =>
    simp only [step, AfterFunc, Option.some.injEq] at hs; subst hs
    exact ⟨hc, hsnoc _ (wellTyped_ev _ d f 0).1⟩
  | AfterFuncWithAfterFuncFinishedCallback d f cb =>
    simp only [step, AfterFuncWithAfterFuncFinishedCallback, Option.some.injEq] at hs; subst hs
    exact ⟨hc, hsnoc _ (wellTyped_ev _ d f cb).2.1⟩
  | Stop id =>
    simp only [step, Stop, Option.some.injEq] at hs; subst hs
    exact ⟨hc, hsnoc _ (wellTyped_ev id 0 0 0).2.2.2.1⟩
  | StopWithStopFinishedCallback id f =>
    simp only [step, StopWithStopFinishedCallback, Option.some.injEq] at hs; subst hs
    exact ⟨hc, hsnoc _ (wellTyped_ev id 0 f 0).2.2.2.2.1⟩
  | Reset id d =>
    simp only [step, Reset, Option.some.injEq] at hs; subst hs
    exact ⟨hc, hsnoc _ (wellTyped_ev id d 0 0).2.2.2.2.2.1⟩
  | ResetWithResetFinishedCallback id d f =>
    simp only [step, ResetWithResetFinishedCallback, Option.some.injEq] at hs; subst hs
    exact ⟨hc, hsnoc _ (wellTyped_ev id d f 0).2.2.2.2.2.2.1⟩
  | Remove id =>
    simp only [step, Remove, Option.some.injEq] at hs; subst hs
    exact ⟨hc, hsnoc _ (wellTyped_ev id 0 0 0).2.2.2.2.2.2.2.1⟩
  | RemoveWithRemoveFinishedCallback id f =>
    simp only [step, RemoveWithRemoveFinishedCallback, Option.some.injEq] at hs; subst hs
    exact ⟨hc, hsnoc _ (wellTyped_ev id 0 f 0).2.2.2.2.2.2.2.2⟩
  | send i =>
    simp only [step] at hs
    cases hj : s.rt.goroutines[i]? with
    | none => rw [hj] at hs; cases hs
    | some e =>
      rw [hj] at hs
      simp only at hs
      split_ifs at hs with hlen
      cases hs
      refine ⟨?_, ?_⟩
      · intro e0 he0
        simp only at he0
        rcases List.mem_append.mp he0 with he0 | he0
        · exact hc _ he0
        · simp at he0; subst he0
          exact hg _ (List.getElem?_mem hj)
      · intro e0 he0
        exact hg _ (List.mem_of_mem_eraseIdx he0)
  | recv =>
    rcases step_cases hs with ⟨ha, _⟩ | ⟨ha, _⟩ | ⟨ha, _⟩ |
      ⟨_, e, rest, r, hch, hd, rfl⟩ | ⟨ha, _⟩ | ⟨ha, _⟩
    · exact absurd rfl ha
    · exact absurd rfl ha
    · exact absurd rfl ha
    · obtain ⟨hm, -, hgo, -⟩ := Deal_frame hd
      simp only at hm
      refine ⟨?_, ?_⟩
      · intro e0 he0
        simp only [hm] at he0
        exact hc _ (by rw [hch]; exact List.mem_cons_of_mem _ he0)
      · intro e0 he0
        simp only [hgo] at he0
        exact hg _ he0
    · exact absurd rfl ha
    · exact absurd rfl ha
  | expire r =>
    simp only [step] at hs
    cases hgr : s.rt.gotimers[r]? with
    | none => rw [hgr] at hs; cases hs
    | some g =>
      rw [hgr] at hs
      obtain ⟨wh, fn⟩ := g
      cases wh with
      | none => cases hs
      | some w =>
        simp only at hs
        split_ifs at hs with hw
        cases hs
        obtain ⟨h0, f⟩ := fn
        exact ⟨hc, hsnoc _ (wellTyped_ev h0 0 f 0).2.2.1⟩
  | tick dt =>
    simp only [step, Option.some.injEq] at hs; subst hs
    exact ⟨hc, hg⟩

/-- C19. Every event built by one of the eight public operations or by the
closure of a runtime timer has a tag that agrees with the dynamic type of its
payload; on such an event every type assertion of `Deal` succeeds, so `Deal`
does not fail; in every state reachable from New all events in the channel
and in the hands of goroutines are of this kind, so the dispatch loop never
fails on a received event; and an event whose tag is none of the nine known
values is ignored: `Deal` returns with registry and environment unchanged. -/
theorem C19_deal_never_fails_on_built_events :
    (∀ (id : Nat) (d : Int) (f cb : Nat),
      wellTyped (evAfterFunc id d f) = true ∧
      wellTyped (evAfterFuncWithAfterFuncFinishedCallback id d f cb) = true ∧
      wellTyped (evExecute id f) = true ∧
      wellTyped (evStop id) = true ∧
      wellTyped (evStopWithStopFinishedCallback id f) = true ∧
      wellTyped (evReset id d) = true ∧
      wellTyped (evResetWithResetFinishedCallback id d f) = true ∧
      wellTyped (evRemove id) = true ∧
      wellTyped (evRemoveWithRemoveFinishedCallback id f) = true) ∧
    (∀ (t : Timer) (rt : Runtime) (e : event), wellTyped e = true →
      ∃ r, Deal t rt e = some r) ∧
    (∀ (acts : List Action) (s : Sys), run Sys.init acts = some s →
      (∀ e ∈ s.t.mainChan, wellTyped e = true) ∧
      (∀ e ∈ s.rt.goroutines, wellTyped e = true) ∧
      (s.t.mainChan ≠ [] → ∃ s1, step s Action.recv = some s1)) ∧
    (∀ (t : Timer) (rt : Runtime) (e : event), unknownTag e._type →
      Deal t rt e = some (t, rt)) := by
  refine ⟨wellTyped_ev, fun t rt e hw => Deal_isSome_of_wellTyped t rt hw, ?_,
    fun t rt e hu => Deal_unknownTag t rt hu⟩
  intro acts s hr
  obtain ⟨hc, hg⟩ := wellTyped_run hr
  refine ⟨hc, hg, ?_⟩
  intro hne
  cases hch : s.t.mainChan with
  | nil => exact absurd hch hne
  | cons e rest =>
    obtain ⟨r, hd⟩ := Deal_isSome_of_wellTyped { s.t with mainChan := rest } s.rt
      (hc e (by rw [hch]; exact List.mem_cons_self _ _))
    exact ⟨{ s with t := r.1, rt := r.2, history := s.history ++ [e] },
      by simp only [step, hch, hd]⟩

/-! ### C20: a reset after a stop re-arms the timer -/

/-- C20. Let the registry hold timer r for h, active, with the closure for
(h, f).  Stop(h) and StopAck(h, a) stop the timer and leave the entry in the
registry (StopAck reports true).  In any later state in which the entry is
still there and the timer is still inactive, ResetAck(h, d, ack) reports
false and yet arms the timer again, for d after now: the timer can expire
from then on and not earlier, its expiry hands Fire(h, f) to a goroutine for
the channel, and the dispatch of that Fire calls f.  So false from ResetAck
does not mean that no timer was reprogrammed. -/
theorem C20_reset_after_stop_rearms (t : Timer) (rt : Runtime) (h r : Nat) (w : Int)
    (f : Nat) (d : Int) (ack : Nat) (hreg : t.timers h = some r)
    (hg : rt.gotimers[r]? = some { when := some w, fn := Closure.sendExecute h f }) :
    (∃ rt1, Deal t rt (evStop h) = some (t, rt1) ∧
      rt1.gotimers[r]? = some { when := none, fn := Closure.sendExecute h f } ∧
      rt1.trace = rt.trace ++ [Effect.stopTimer r]) ∧
    (∀ a, ∃ rt1, Deal t rt (evStopWithStopFinishedCallback h a) = some (t, rt1) ∧
      rt1.gotimers[r]? = some { when := none, fn := Closure.sendExecute h f } ∧
      rt1.trace = rt.trace ++ [Effect.stopTimer r, Effect.callBool a true]) ∧
    (∀ (t2 : Timer) (rt2 : Runtime), t2.timers h = some r →
      rt2.gotimers[r]? = some { when := none, fn := Closure.sendExecute h f } →
      ∃ rt3, Deal t2 rt2 (evResetWithResetFinishedCallback h d ack) = some (t2, rt3) ∧
        rt3.trace = rt2.trace ++ [Effect.resetTimer r d, Effect.callBool ack false] ∧
        rt3.gotimers[r]? =
          some { when := some (rt2.now + d), fn := Closure.sendExecute h f } ∧
        rt3.now = rt2.now ∧
        (∀ s : Sys,
          s.rt.gotimers[r]? =
            some { when := some (rt2.now + d), fn := Closure.sendExecute h f } →
          (rt2.now + d ≤ s.rt.now →
            step s (Action.expire r) = some { s with
              rt := { s.rt with
                gotimers := setWhen s.rt.gotimers r none
                goroutines := s.rt.goroutines ++ [evExecute h f] } }) ∧
          (s.rt.now < rt2.now + d → step s (Action.expire r) = none)) ∧
        (∀ (t4 : Timer) (rt4 : Runtime), ∃ t5 rt5,
          Deal t4 rt4 (evExecute h f) = some (t5, rt5) ∧
          rt5.trace = rt4.trace ++ [Effect.call f])) := by
  refine ⟨?_, ?_, ?_⟩
  · refine ⟨_, by rw [Deal_evStop, hreg], ?_, ?_⟩
    · simp only [timerStop]
      exact getElem?_setWhen_self none hg
    · simp [timerStop]
  · intro a
    refine ⟨_, by rw [Deal_evStopWithStopFinishedCallback, hreg], ?_, ?_⟩
    · simp only [timerStop, callFuncBool]
      exact getElem?_setWhen_self none hg
    · simp [timerStop, callFuncBool, isActive, hg]
  · intro t2 rt2 hreg2 hg2
    refine ⟨callFuncBool (timerReset rt2 r d).1 ack (timerReset rt2 r d).2,
      by rw [Deal_evResetWithResetFinishedCallback, hreg2], ?_, ?_, rfl, ?_, ?_⟩
    · simp [timerReset, callFuncBool, isActive, hg2]
    · simp only [timerReset, callFuncBool]
      exact getElem?_setWhen_self _ hg2
    · intro s hs
      constructor
      · intro hle
        simp [step, hs, hle, runClosure]
      · intro hlt
        simp [step, hs, not_le.mpr hlt]
    · intro t4 rt4
      exact ⟨_, _, Deal_evExecute t4 rt4 h f, rfl⟩

/-- C20, at a state holding an active timer for handle 1: Stop at 900 stops
the timer, and ResetAck(1, 500, 9) on the stopped timer reports false and
arms it for 1400. -/
theorem C20_reset_after_stop_rearms_witness :
    (Function.update New.timers 1 (some 0)) 1 = some 0 ∧
    ([{ when := some 1000, fn := Closure.sendExecute 1 7 }] : List GoTimer)[0]? =
      some { when := some 1000, fn := Closure.sendExecute 1 7 } ∧
    (∃ rt1,
      Deal { allocID := 1, mainChan := [], timers := Function.update New.timers 1 (some 0) }
        { now := 900, gotimers := [{ when := some 1000, fn := Closure.sendExecute 1 7 }],
          goroutines := [], trace := [] } (evStop 1) =
        some ({ allocID := 1, mainChan := [],
                timers := Function.update New.timers 1 (some 0) }, rt1) ∧
      rt1.gotimers[0]? = some { when := none, fn := Closure.sendExecute 1 7 } ∧
      rt1.trace = [] ++ [Effect.stopTimer 0]) ∧
    ∃ rt3,
      Deal { allocID := 1, mainChan := [], timers := Function.update New.timers 1 (some 0) }
        { now := 900, gotimers := [{ when := none, fn := Closure.sendExecute 1 7 }],
          goroutines := [], trace := [Effect.stopTimer 0] }
        (evResetWithResetFinishedCallback 1 500 9) =
        some ({ allocID := 1, mainChan := [],
                timers := Function.update New.timers 1 (some 0) }, rt3) ∧
      rt3.trace = [Effect.stopTimer 0] ++ [Effect.resetTimer 0 500, Effect.callBool 9 false] ∧
      rt3.gotimers[0]? = some { when := some (900 + 500), fn := Closure.sendExecute 1 7 } := by
  have key := C20_reset_after_stop_rearms
    { allocID := 1, mainChan := [], timers := Function.update New.timers 1 (some 0) }
    { now := 900, gotimers := [{ when := some 1000, fn := Closure.sendExecute 1 7 }],
      goroutines := [], trace := [] } 1 0 1000 7 500 9 rfl rfl
  refine ⟨rfl, rfl, key.1, ?_⟩
  obtain ⟨rt3, h1, h2, h3, -⟩ := key.2.2
    { allocID := 1, mainChan := [], timers := Function.update New.timers 1 (some 0) }
    { now := 900, gotimers := [{ when := none, fn := Closure.sendExecute 1 7 }],
      goroutines := [], trace := [Effect.stopTimer 0] } rfl rfl
  exact ⟨rt3, h1, h2, h3⟩

/-- C20 in a run: handle 1 is scheduled for 1000, stopped at 900 (StopAck
reports true), reset by ResetAck(1, 500, 11) (reports false), and the timer
expires at 1400; the Fire is dispatched and callback 7 is called. -/
theorem reset_after_stop_run :
    ∃ s, run Sys.init [Action.AfterFunc 1000 7, Action.send 0, Action.recv, Action.tick 900,
        Action.StopWithStopFinishedCallback 1 9, Action.send 0, Action.recv,
        Action.ResetWithResetFinishedCallback 1 500 11, Action.send 0, Action.recv,
        Action.tick 500, Action.expire 0, Action.send 0, Action.recv] = some s ∧
      s.rt.now = 1400 ∧
      s.rt.trace = [Effect.newTimer 0 1000, Effect.stopTimer 0, Effect.callBool 9 true,
        Effect.resetTimer 0 500, Effect.callBool 11 false, Effect.call 7] :=
  ⟨_, rfl, rfl, rfl⟩

/-! ### C14: a reset before the expiry, with logical time -/

/-- A call of a public operation adds one goroutine holding a command that is
not a Fire, and changes nothing else but the allocator and the issued
handles. -/
theorem step_call {s s1 : Sys} {a : Action} (hs : step s a = some s1)
    (hcall : a.isCall = true) :
    ∃ e, (∀ k, isFireFor k e = false) ∧ s1.rt.goroutines = s.rt.goroutines ++ [e] ∧
      s1.rt.gotimers = s.rt.gotimers ∧ s1.rt.now = s.rt.now ∧ s1.rt.trace = s.rt.trace ∧
      s1.t.timers = s.t.timers ∧ s1.t.mainChan = s.t.mainChan ∧ s1.history = s.history := by
  cases a with
  | AfterFunc d f =>
    simp only [step, AfterFunc, Option.some.injEq] at hs; subst hs
    exact ⟨_, by simp, rfl, rfl, rfl, rfl, rfl, rfl, rfl⟩
  | AfterFuncWithAfterFuncFinishedCallback d f cb =>
    simp only [step, AfterFuncWithAfterFuncFinishedCallback, Option.some.injEq] at hs; subst hs
    exact ⟨_, by simp, rfl, rfl, rfl, rfl, rfl, rfl, rfl⟩
  | Stop id =>
    simp only [step, Stop, Option.some.injEq] at hs; subst hs
    exact ⟨_, by simp, rfl, rfl, rfl, rfl, rfl, rfl, rfl⟩
  | StopWithStopFinishedCallback id f =>
    simp only [step, StopWithStopFinishedCallback, Option.some.injEq] at hs; subst hs
    exact ⟨_, by simp, rfl, rfl, rfl, rfl, rfl, rfl, rfl⟩
  | Reset id d =>
    simp only [step, Reset, Option.some.injEq] at hs; subst hs
    exact ⟨_, by simp, rfl, rfl, rfl, rfl, rfl, rfl, rfl⟩
  | ResetWithResetFinishedCallback id d f =>
    simp only [step, ResetWithResetFinishedCallback, Option.some.injEq] at hs; subst hs
    exact ⟨_, by simp, rfl, rfl, rfl, rfl, rfl, rfl, rfl⟩
  | Remove id =>
    simp only [step, Remove, Option.some.injEq] at hs; subst hs
    exact ⟨_, by simp, rfl, rfl, rfl, rfl, rfl, rfl, rfl⟩
  | RemoveWithRemoveFinishedCallback id f =>
    simp only [step, RemoveWithRemoveFinishedCallback, Option.some.injEq] at hs; subst hs
    exact ⟨_, by simp, rfl, rfl, rfl, rfl, rfl, rfl, rfl⟩
  | send i => cases hcall
  | recv => cases hcall
  | expire r => cases hcall
  | tick dt => cases hcall

theorem step_send {s s1 : Sys} {i : Nat} (hs : step s (Action.send i) = some s1) :
    ∃ e, s.rt.goroutines[i]? = some e ∧
      s1 = { s with
        t := { s.t with mainChan := s.t.mainChan ++ [e] }
        rt := { s.rt with goroutines := s.rt.goroutines.eraseIdx i } } := by
  simp only [step] at hs
  cases hj : s.rt.goroutines[i]? with
  | none => rw [hj] at hs; cases hs
  | some e =>
    rw [hj] at hs
    simp only at hs
    split_ifs at hs with hlen
    cases hs
    exact ⟨e, rfl, rfl⟩

theorem step_recv {s s1 : Sys} (hs : step s Action.recv = some s1) :
    ∃ e rest r, s.t.mainChan = e :: rest ∧
      Deal { s.t with mainChan := rest } s.rt e = some r ∧
      s1 = { s with t := r.1, rt := r.2, history := s.history ++ [e] } := by
  rcases step_cases hs with ⟨ha, _⟩ | ⟨ha, _⟩ | ⟨ha, _⟩ | ⟨_, h⟩ | ⟨ha, _⟩ | ⟨ha, _⟩
  · exact absurd rfl ha
  · exact absurd rfl ha
  · exact absurd rfl ha
  · exact h
  · exact absurd rfl ha
  · exact absurd rfl ha

theorem step_expire {s s1 : Sys} {r : Nat} (hs : step s (Action.expire r) = some s1) :
    ∃ h f w, s.rt.gotimers[r]? = some { when := some w, fn := Closure.sendExecute h f } ∧
      w ≤ s.rt.now ∧
      s1 = { s with rt := { s.rt with
        gotimers := setWhen s.rt.gotimers r none
        goroutines := s.rt.goroutines ++ [evExecute h f] } } := by
  simp only [step] at hs
  cases hg : s.rt.gotimers[r]? with
  | none => rw [hg] at hs; cases hs
  | some g =>
    rw [hg] at hs
    obtain ⟨wh, fn⟩ := g
    cases wh with
    | none => cases hs
    | some w =>
      simp only at hs
      split_ifs at hs with hw
      cases hs
      obtain ⟨h, f⟩ := fn
      exact ⟨h, f, w, rfl, hw, by simp [runClosure]⟩

theorem step_tick {s s1 : Sys} {dt : Nat} (hs : step s (Action.tick dt) = some s1) :
    s1 = { s with rt := { s.rt with now := s.rt.now + dt } } := by
  simp only [step, Option.some.injEq] at hs
  exact hs.symm

/-- What `Deal` does to registry and runtime timers, in terms of the handle
the event carries. -/
theorem Deal_effect_id {t : Timer} {rt : Runtime} {e : event} {r : Timer × Runtime}
    (hd : Deal t rt e = some r) :
    (∃ f w, (∀ k, isFireFor k e = false) ∧
        r.1.timers = Function.update t.timers e.arg.id (some rt.gotimers.length) ∧
        r.2.gotimers = rt.gotimers ++
          [{ when := some w, fn := Closure.sendExecute e.arg.id f }]) ∨
    (isFireFor e.arg.id e = true ∧ r.1.timers = Function.update t.timers e.arg.id none ∧
        r.2.gotimers = rt.gotimers) ∨
    (∃ x w, (∀ k, isFireFor k e = false) ∧ t.timers e.arg.id = some x ∧
        (r.1.timers = t.timers ∨ r.1.timers = Function.update t.timers e.arg.id none) ∧
        r.2.gotimers = setWhen rt.gotimers x w) ∨
    (r.1.timers = t.timers ∧ r.2.gotimers = rt.gotimers) := by
  rcases Deal_cases hd with ⟨h, d, f, rfl⟩ | ⟨h, d, f, cb, rfl⟩ | ⟨h, f, rfl⟩ | ⟨h, rfl⟩ |
    ⟨h, f, rfl⟩ | ⟨h, d, rfl⟩ | ⟨h, d, f, rfl⟩ | ⟨h, rfl⟩ | ⟨h, f, rfl⟩ | ⟨hu, rfl⟩
  · rw [Deal_evAfterFunc] at hd; cases hd
    exact Or.inl ⟨f, rt.now + d, by simp, rfl, rfl⟩
  · rw [Deal_evAfterFuncWithAfterFuncFinishedCallback] at hd; cases hd
    exact Or.inl ⟨f, rt.now + d, by simp, rfl, rfl⟩
  · rw [Deal_evExecute] at hd; cases hd
    exact Or.inr (Or.inl ⟨by simp [evExecute, Arg.id, isFireFor], rfl, rfl⟩)
  · rw [Deal_evStop] at hd
    cases hx : t.timers h with
    | none => rw [hx] at hd; cases hd; exact Or.inr (Or.inr (Or.inr ⟨rfl, rfl⟩))
    | some x =>
      rw [hx] at hd; cases hd
      exact Or.inr (Or.inr (Or.inl ⟨x, none, by simp, hx, Or.inl rfl, rfl⟩))
  · rw [Deal_evStopWithStopFinishedCallback] at hd
    cases hx : t.timers h with
    | none => rw [hx] at hd; cases hd; exact Or.inr (Or.inr (Or.inr ⟨rfl, rfl⟩))
    | some x =>
      rw [hx] at hd; cases hd
      exact Or.inr (Or.inr (Or.inl ⟨x, none, by simp, hx, Or.inl rfl, rfl⟩))
  · rw [Deal_evReset] at hd
    cases hx : t.timers h with
    | none => rw [hx] at hd; cases hd; exact Or.inr (Or.inr (Or.inr ⟨rfl, rfl⟩))
    | some x =>
      rw [hx] at hd; cases hd
      exact Or.inr (Or.inr (Or.inl ⟨x, some (rt.now + d), by simp, hx, Or.inl rfl, rfl⟩))
  · rw [Deal_evResetWithResetFinishedCallback] at hd
    cases hx : t.timers h with
    | none => rw [hx] at hd; cases hd; exact Or.inr (Or.inr (Or.inr ⟨rfl, rfl⟩))
    | some x =>
      rw [hx] at hd; cases hd
      exact Or.inr (Or.inr (Or.inl ⟨x, some (rt.now + d), by simp, hx, Or.inl rfl, rfl⟩))
  · rw [Deal_evRemove] at hd
    cases hx : t.timers h with
    | none => rw [hx] at hd; cases hd; exact Or.inr (Or.inr (Or.inr ⟨rfl, rfl⟩))
    | some x =>
      rw [hx] at hd; cases hd
      exact Or.inr (Or.inr (Or.inl ⟨x, none, by simp, hx, Or.inr rfl, rfl⟩))
  · rw [Deal_evRemoveWithRemoveFinishedCallback] at hd
    cases hx : t.timers h with
    | none => rw [hx] at hd; cases hd; exact Or.inr (Or.inr (Or.inr ⟨rfl, rfl⟩))
    | some x =>
      rw [hx] at hd; cases hd
      exact Or.inr (Or.inr (Or.inl ⟨x, none, by simp, hx, Or.inr rfl, rfl⟩))
  · exact Or.inr (Or.inr (Or.inr ⟨rfl, rfl⟩))

theorem whenOf_of_getElem? {s : Sys} {r : Nat} {g : GoTimer} (hg : s.rt.gotimers[r]? = some g) :
    whenOf s r = g.when := by
  simp [whenOf, hg]

theorem now_step {s s1 : Sys} {a : Action} (hs : step s a = some s1) :
    s.rt.now ≤ s1.rt.now := by
  rcases step_cases hs with ⟨_, e, _, _, rfl⟩ | ⟨_, e, _, rfl⟩ | ⟨_, i, e, _, _, rfl⟩ |
    ⟨_, e, rest, r, _, hd, rfl⟩ | ⟨_, r, h0, f, w, _, _, rfl⟩ | ⟨_, dt, rfl⟩
  · exact le_refl _
  · exact le_refl _
  · exact le_refl _
  · exact le_of_eq (Deal_frame hd).2.2.2.symm
  · exact le_refl _
  · simp

theorem now_run : ∀ (acts : List Action) (s s1 : Sys), run s acts = some s1 →
    s.rt.now ≤ s1.rt.now
  | [], s, s1, hr => by
    simp only [run, Option.some.injEq] at hr
    subst hr
    exact le_refl _
  | a :: as, s, s1, hr => by
    simp only [run] at hr
    cases hs : step s a with
    | none => rw [hs] at hr; cases hr
    | some s2 =>
      rw [hs] at hr
      exact le_trans (now_step hs) (now_run as s2 s1 hr)

/-- A step that dispatches no command for `h` but a Fire keeps the one timer
of `h`, and either leaves it as it is and hands over no Fire for `h`, or is
the expiry of that timer, which was active and due. -/
theorem quiet_step {h f r : Nat} {s s1 : Sys} {a : Action} (hi : TimerFor h f r s)
    (hs : step s a = some s1) (hq : quietStep h s a = true) :
    TimerFor h f r s1 ∧
    ((expiryAt h s a = [] ∧ whenOf s1 r = whenOf s r) ∨
     (∃ w, whenOf s r = some w ∧ w ≤ s.rt.now ∧ whenOf s1 r = none ∧
        expiryAt h s a = [s.rt.now])) := by
  obtain ⟨hreg, huniq, ⟨wh, hr⟩, hfire⟩ := hi
  have hreg1 : RegInv s1 := regInv_step s a s1 hreg hs
  by_cases hcall : a.isCall = true
  · obtain ⟨e, hnf, hgo, hgt, -, -, -, hch, hhist⟩ := step_call hs hcall
    refine ⟨⟨hreg1, ?_, ⟨wh, by rw [hgt]; exact hr⟩, ?_⟩, Or.inl ⟨?_, ?_⟩⟩
    · intro i g hg hid
      rw [hgt] at hg
      exact huniq i g hg hid
    · intro e1 hf hmem
      rw [hhist, hch, hgo, List.mem_append] at hmem
      rcases hmem with hm | hm | hm | hm
      · exact hfire e1 hf (Or.inl hm)
      · exact hfire e1 hf (Or.inr (Or.inl hm))
      · exact hfire e1 hf (Or.inr (Or.inr hm))
      · rw [List.mem_singleton] at hm
        rw [hm, hnf h] at hf
        cases hf
    · cases a <;> first | rfl | cases hcall
    · simp only [whenOf, hgt]
  · cases a with
    | send i =>
      obtain ⟨e, he, rfl⟩ := step_send hs
      refine ⟨⟨hreg1, huniq, ⟨wh, hr⟩, ?_⟩, Or.inl ⟨rfl, rfl⟩⟩
      intro e1 hf hmem
      simp only [List.mem_append, List.mem_singleton] at hmem
      rcases hmem with hm | (hm | hm) | hm
      · exact hfire e1 hf (Or.inl hm)
      · exact hfire e1 hf (Or.inr (Or.inl hm))
      · rw [hm] at hf ⊢
        exact hfire e hf (Or.inr (Or.inr (List.getElem?_mem he)))
      · exact hfire e1 hf (Or.inr (Or.inr (List.mem_of_mem_eraseIdx hm)))
    | recv =>
      obtain ⟨e, rest, p, hc, hd, rfl⟩ := step_recv hs
      simp only [quietStep, hc, Bool.or_eq_true, decide_eq_true_eq] at hq
      have hfire1 : ∀ e1, isFireFor h e1 = true →
          e1 ∈ s.history ++ [e] ∨ e1 ∈ p.1.mainChan ∨ e1 ∈ p.2.goroutines →
          e1 = evExecute h f := by
        intro e1 hf hmem
        rw [(Deal_frame hd).1, (Deal_frame hd).2.2.1, List.mem_append, List.mem_singleton] at hmem
        rcases hmem with (hm | hm) | hm | hm
        · exact hfire e1 hf (Or.inl hm)
        · exact hfire e1 hf (Or.inr (Or.inl (by rw [hc, hm]; exact List.mem_cons_self _ _)))
        · exact hfire e1 hf (Or.inr (Or.inl (by rw [hc]; exact List.mem_cons_of_mem _ hm)))
        · exact hfire e1 hf (Or.inr (Or.inr hm))
      have hlt : r < s.rt.gotimers.length := (List.getElem?_eq_some_iff.mp hr).1
      rcases Deal_effect_id hd with ⟨f0, w, hnf, -, hg⟩ | ⟨hf, -, hg⟩ |
        ⟨x, w, hnf, hx, -, hg⟩ | ⟨-, hg⟩
      · have hne : e.arg.id ≠ h := by
          rcases hq with hq | hq
          · exact hq
          · rw [hnf h] at hq; cases hq
        have hr1 : p.2.gotimers[r]? = some { when := wh, fn := Closure.sendExecute h f } := by
          rw [hg, List.getElem?_append_left hlt]; exact hr
        refine ⟨⟨hreg1, ?_, ⟨wh, hr1⟩, hfire1⟩, Or.inl ⟨rfl, ?_⟩⟩
        · intro i g hgi hid
          simp only at hgi
          rw [hg] at hgi
          by_cases hil : i < s.rt.gotimers.length
          · rw [List.getElem?_append_left hil] at hgi
            exact huniq i g hgi hid
          · rw [List.getElem?_append_right (not_lt.mp hil)] at hgi
            have hmem := List.getElem?_mem hgi
            rw [List.mem_singleton] at hmem
            rw [hmem] at hid
            exact absurd hid hne
        · rw [whenOf_of_getElem? hr1, whenOf_of_getElem? hr]
      · refine ⟨⟨hreg1, ?_, ⟨wh, by simp only; rw [hg]; exact hr⟩, hfire1⟩, Or.inl ⟨rfl, ?_⟩⟩
        · intro i g hgi hid
          simp only at hgi
          rw [hg] at hgi
          exact huniq i g hgi hid
        · simp only [whenOf]; rw [hg]
      · have hne : e.arg.id ≠ h := by
          rcases hq with hq | hq
          · exact hq
          · rw [hnf h] at hq; cases hq
        obtain ⟨gx, hgx, hidx⟩ := hreg _ _ hx
        have hxr : r ≠ x := by
          intro hrx
          rw [← hrx, hr] at hgx
          cases hgx
          exact hne hidx.symm
        have hr1 : p.2.gotimers[r]? = some { when := wh, fn := Closure.sendExecute h f } := by
          rw [hg, getElem?_setWhen_ne _ _ hxr]; exact hr
        refine ⟨⟨hreg1, ?_, ⟨wh, hr1⟩, hfire1⟩, Or.inl ⟨rfl, ?_⟩⟩
        · intro i g hgi hid
          simp only at hgi
          rw [hg] at hgi
          have hfn := getElem?_setWhen_fn s.rt.gotimers x w i
          rw [hgi] at hfn
          cases hgi0 : s.rt.gotimers[i]? with
          | none => rw [hgi0] at hfn; simp at hfn
          | some g0 =>
            rw [hgi0] at hfn
            simp only [Option.map_some', Option.some.injEq] at hfn
            exact huniq i g0 hgi0 (by rw [← hfn]; exact hid)
        · rw [whenOf_of_getElem? hr1, whenOf_of_getElem? hr]
      · refine ⟨⟨hreg1, ?_, ⟨wh, by simp only; rw [hg]; exact hr⟩, hfire1⟩, Or.inl ⟨rfl, ?_⟩⟩
        · intro i g hgi hid
          simp only at hgi
          rw [hg] at hgi
          exact huniq i g hgi hid
        · simp only [whenOf]; rw [hg]
    | expire r0 =>
      obtain ⟨h0, f0, w, hg0, hw, rfl⟩ := step_expire hs
      have huniq1 : ∀ i g, (setWhen s.rt.gotimers r0 none)[i]? = some g → g.fn.id = h → i = r := by
        intro i g hgi hid
        have hfn := getElem?_setWhen_fn s.rt.gotimers r0 none i
        rw [hgi] at hfn
        cases hgi0 : s.rt.gotimers[i]? with
        | none => rw [hgi0] at hfn; simp at hfn
        | some g1 =>
          rw [hgi0] at hfn
          simp only [Option.map_some', Option.some.injEq] at hfn
          exact huniq i g1 hgi0 (by rw [← hfn]; exact hid)
      by_cases hh : h0 = h
      · subst hh
        have hrr : r0 = r := huniq r0 _ hg0 rfl
        subst hrr
        rw [hr] at hg0
        simp only [Option.some.injEq, GoTimer.mk.injEq, Closure.sendExecute.injEq, true_and] at hg0
        obtain ⟨hwh, hff⟩ := hg0
        subst hff
        have hr1 : (setWhen s.rt.gotimers r0 none)[r0]? =
            some { when := none, fn := Closure.sendExecute h0 f } := getElem?_setWhen_self none hr
        refine ⟨⟨hreg1, huniq1, ⟨none, hr1⟩, ?_⟩, Or.inr ⟨w, ?_, hw, ?_, ?_⟩⟩
        · intro e1 hf hmem
          simp only [List.mem_append, List.mem_singleton] at hmem
          rcases hmem with hm | hm | hm | hm
          · exact hfire e1 hf (Or.inl hm)
          · exact hfire e1 hf (Or.inr (Or.inl hm))
          · exact hfire e1 hf (Or.inr (Or.inr hm))
          · exact hm
        · rw [whenOf_of_getElem? hr, hwh]
        · simp [whenOf, hr1]
        · simp [expiryAt, hr, Closure.id]
      · have hrr : r ≠ r0 := by
          intro hrr
          rw [← hrr, hr] at hg0
          simp only [Option.some.injEq, GoTimer.mk.injEq, Closure.sendExecute.injEq] at hg0
          exact hh hg0.2.1.symm
        have hr1 : (setWhen s.rt.gotimers r0 none)[r]? =
            some { when := wh, fn := Closure.sendExecute h f } := by
          rw [getElem?_setWhen_ne _ _ hrr]; exact hr
        refine ⟨⟨hreg1, huniq1, ⟨wh, hr1⟩, ?_⟩, Or.inl ⟨?_, ?_⟩⟩
        · intro e1 hf hmem
          simp only [List.mem_append, List.mem_singleton] at hmem
          rcases hmem with hm | hm | hm | hm
          · exact hfire e1 hf (Or.inl hm)
          · exact hfire e1 hf (Or.inr (Or.inl hm))
          · exact hfire e1 hf (Or.inr (Or.inr hm))
          · rw [hm] at hf
            simp [isFireFor, evExecute] at hf
            exact absurd hf hh
        · simp [expiryAt, hg0, Closure.id, hh]
        · rw [whenOf_of_getElem? hr1, whenOf_of_getElem? hr]
    | tick dt =>
      have := step_tick hs
      subst this
      exact ⟨⟨hreg1, huniq, ⟨wh, hr⟩, hfire⟩, Or.inl ⟨rfl, rfl⟩⟩
    | AfterFunc d f => exact absurd rfl hcall
    | AfterFuncWithAfterFuncFinishedCallback d f cb => exact absurd rfl hcall
    | Stop id => exact absurd rfl hcall
    | StopWithStopFinishedCallback id f => exact absurd rfl hcall
    | Reset id d => exact absurd rfl hcall
    | ResetWithResetFinishedCallback id d f => exact absurd rfl hcall
    | Remove id => exact absurd rfl hcall
    | RemoveWithRemoveFinishedCallback id f => exact absurd rfl hcall

theorem now_step_cases {s s1 : Sys} {a : Action} (hs : step s a = some s1) :
    s1.rt.now = s.rt.now ∨ ∃ dt, a = Action.tick dt ∧ s1.rt.now = s.rt.now + dt := by
  by_cases hcall : a.isCall = true
  · obtain ⟨e, -, -, -, hnow, -⟩ := step_call hs hcall
    exact Or.inl hnow
  · cases a with
    | send i =>
      obtain ⟨e, -, rfl⟩ := step_send hs
      exact Or.inl rfl
    | recv =>
      obtain ⟨e, rest, p, -, hd, rfl⟩ := step_recv hs
      exact Or.inl (Deal_frame hd).2.2.2
    | expire r0 =>
      obtain ⟨h0, f0, w, -, -, rfl⟩ := step_expire hs
      exact Or.inl rfl
    | tick dt =>
      have := step_tick hs
      subst this
      exact Or.inr ⟨dt, rfl, rfl⟩
    | AfterFunc d f => exact absurd rfl hcall
    | AfterFuncWithAfterFuncFinishedCallback d f cb => exact absurd rfl hcall
    | Stop id => exact absurd rfl hcall
    | StopWithStopFinishedCallback id f => exact absurd rfl hcall
    | Reset id d => exact absurd rfl hcall
    | ResetWithResetFinishedCallback id d f => exact absurd rfl hcall
    | Remove id => exact absurd rfl hcall
    | RemoveWithRemoveFinishedCallback id f => exact absurd rfl hcall

/-- A punctual step does not pass the deadline of an active timer. -/
theorem punctual_bound {s s1 : Sys} {a : Action} {r : Nat} {w : Int}
    (hs : step s a = some s1) (hp : punctualStep s a = true) (hw : whenOf s r = some w) :
    s1.rt.now ≤ max w s.rt.now := by
  rcases now_step_cases hs with hnow | ⟨dt, rfl, hnow⟩
  · rw [hnow]; exact le_max_right _ _
  · simp only [punctualStep, List.all_eq_true] at hp
    simp only [whenOf] at hw
    cases hg : s.rt.gotimers[r]? with
    | none => rw [hg] at hw; cases hw
    | some g =>
      rw [hg] at hw
      simp only at hw
      have := hp g (List.getElem?_mem hg)
      rw [hw] at this
      simp only [decide_eq_true_eq] at this
      rw [hnow]
      exact this

theorem allSteps_mono {p q : Sys → Action → Bool} (hpq : ∀ s a, p s a = true → q s a = true) :
    ∀ (acts : List Action) (s : Sys), allSteps p s acts = true → allSteps q s acts = true
  | [], _, _ => rfl
  | a :: as, s, hp => by
    simp only [allSteps] at hp ⊢
    cases hs : step s a with
    | none => rfl
    | some s1 =>
      rw [hs] at hp
      simp only [Bool.and_eq_true] at hp ⊢
      exact ⟨hpq s a hp.1, allSteps_mono hpq as s1 hp.2⟩

theorem allSteps_append (p : Sys → Action → Bool) :
    ∀ (as : List Action) (s s1 : Sys) (bs : List Action), run s as = some s1 →
      allSteps p s (as ++ bs) = (allSteps p s as && allSteps p s1 bs)
  | [], s, s1, bs, hr => by
    simp only [run, Option.some.injEq] at hr
    subst hr
    simp [allSteps]
  | a :: as, s, s1, bs, hr => by
    simp only [run] at hr
    cases hs : step s a with
    | none => rw [hs] at hr; cases hr
    | some s2 =>
      rw [hs] at hr
      have ih := allSteps_append p as s2 s1 bs hr
      simp only [List.cons_append, allSteps, hs, Bool.and_assoc]
      exact congrArg _ ih

theorem expiryTimes_append (h : Nat) :
    ∀ (as : List Action) (s s1 : Sys) (bs : List Action), run s as = some s1 →
      expiryTimes h s (as ++ bs) = expiryTimes h s as ++ expiryTimes h s1 bs
  | [], s, s1, bs, hr => by
    simp only [run, Option.some.injEq] at hr
    subst hr
    simp [expiryTimes]
  | a :: as, s, s1, bs, hr => by
    simp only [run] at hr
    cases hs : step s a with
    | none => rw [hs] at hr; cases hr
    | some s2 =>
      rw [hs] at hr
      have ih := expiryTimes_append h as s2 s1 bs hr
      simp only [List.cons_append, expiryTimes, hs, List.append_assoc]
      exact congrArg (fun l => expiryAt h s a ++ l) ih

/-- Along a run that dispatches no command for `h` but a Fire, the one timer
of `h` expires at most once, not before its deadline, and exactly at its
deadline (or at once when that has passed) if timers are punctual. -/
theorem quiet_run (h f r : Nat) : ∀ (acts : List Action) (s s1 : Sys), TimerFor h f r s →
    run s acts = some s1 → allSteps (quietStep h) s acts = true →
    TimerFor h f r s1 ∧
    (whenOf s r = none → expiryTimes h s acts = [] ∧ whenOf s1 r = none) ∧
    (∀ w, whenOf s r = some w →
      (expiryTimes h s acts = [] ∧ whenOf s1 r = some w ∧
        (allSteps punctualStep s acts = true → s1.rt.now ≤ max w s.rt.now)) ∨
      (∃ τ, expiryTimes h s acts = [τ] ∧ w ≤ τ ∧ s.rt.now ≤ τ ∧ τ ≤ s1.rt.now ∧
        whenOf s1 r = none ∧ (allSteps punctualStep s acts = true → τ = max w s.rt.now)))
  | [], s, s1, hi, hr, _ => by
    simp only [run, Option.some.injEq] at hr
    subst hr
    refine ⟨hi, fun hn => ⟨rfl, hn⟩, fun w hw => Or.inl ⟨rfl, hw, fun _ => le_max_right _ _⟩⟩
  | a :: as, s, s1, hi, hr, hq => by
    simp only [run] at hr
    cases hs : step s a with
    | none => rw [hs] at hr; cases hr
    | some s2 =>
      rw [hs] at hr
      simp only [allSteps, hs, Bool.and_eq_true] at hq
      obtain ⟨hi2, hstep⟩ := quiet_step hi hs hq.1
      obtain ⟨hi1, ihn, ihw⟩ := quiet_run h f r as s2 s1 hi2 hr hq.2
      have hnow12 := now_run as s2 s1 hr
      have hnow02 := now_step hs
      refine ⟨hi1, ?_, ?_⟩
      · intro hn
        rcases hstep with ⟨hex, hwe⟩ | ⟨w, hw, -⟩
        · obtain ⟨h1, h2⟩ := ihn (by rw [hwe]; exact hn)
          exact ⟨by simp only [expiryTimes, hs, hex, h1, List.append_nil], h2⟩
        · rw [hn] at hw; cases hw
      · intro w hw
        rcases hstep with ⟨hex, hwe⟩ | ⟨w0, hw0, hle, hn2, hex⟩
        · rcases ihw w (by rw [hwe]; exact hw) with ⟨h1, h2, h3⟩ | ⟨τ, h1, h2, h3, h4, h5, h6⟩
          · refine Or.inl ⟨by simp only [expiryTimes, hs, hex, h1, List.append_nil], h2, ?_⟩
            intro hp
            simp only [allSteps, hs, Bool.and_eq_true] at hp
            have hb := punctual_bound hs hp.1 hw
            have hb2 := h3 hp.2
            rw [le_max_iff] at hb hb2 ⊢
            omega
          · refine Or.inr ⟨τ, by simp only [expiryTimes, hs, hex, h1, List.nil_append], h2,
              le_trans hnow02 h3, h4, h5, ?_⟩
            intro hp
            simp only [allSteps, hs, Bool.and_eq_true] at hp
            have hb := punctual_bound hs hp.1 hw
            have hb2 := h6 hp.2
            rw [hb2]
            simp only [max_def] at hb ⊢
            split_ifs at hb ⊢ <;> omega
        · rw [hw] at hw0
          cases hw0
          obtain ⟨h1, h2⟩ := ihn hn2
          refine Or.inr ⟨s.rt.now, by simp only [expiryTimes, hs, hex, h1, List.append_nil],
            hle, le_refl _, le_trans hnow02 hnow12, h2, ?_⟩
          intro _
          simp only [max_def]
          split_ifs <;> omega

theorem expiryAt_of_isCall (h : Nat) (s : Sys) {a : Action} (hcall : a.isCall = true) :
    expiryAt h s a = [] := by
  cases a <;> first | rfl | cases hcall

/-- Every expiry of a timer of `h` puts one more Fire for `h` on its way, and
nothing else does. -/
theorem inFlight_step (h : Nat) {s s1 : Sys} {a : Action} (hs : step s a = some s1) :
    inFlight h s1 = inFlight h s + (expiryAt h s a).length := by
  by_cases hcall : a.isCall = true
  · obtain ⟨e, hnf, hgo, -, -, -, -, hch, hhist⟩ := step_call hs hcall
    simp only [inFlight, hgo, hch, hhist, fires_snoc, hnf h, expiryAt_of_isCall h s hcall]
    simp
  · cases a with
    | send i =>
      obtain ⟨e, he, rfl⟩ := step_send hs
      have := countP_eraseIdx_add (isFireFor h) s.rt.goroutines i e he
      simp only [inFlight, fires_snoc, expiryAt, List.length_nil]
      simp only [fires] at this ⊢
      omega
    | recv =>
      obtain ⟨e, rest, p, hc, hd, rfl⟩ := step_recv hs
      simp only [inFlight, fires_snoc, expiryAt, (Deal_frame hd).1, (Deal_frame hd).2.2.1, hc,
        fires_cons, List.length_nil]
      omega
    | expire r0 =>
      obtain ⟨h0, f0, w, hg0, -, rfl⟩ := step_expire hs
      simp only [inFlight, fires_snoc, expiryAt, hg0, Closure.id]
      by_cases hh : h0 = h
      · simp [hh, isFireFor, evExecute]
        omega
      · simp [hh, isFireFor, evExecute]
    | tick dt =>
      have := step_tick hs
      subst this
      simp [inFlight, expiryAt]
    | AfterFunc d f => exact absurd rfl hcall
    | AfterFuncWithAfterFuncFinishedCallback d f cb => exact absurd rfl hcall
    | Stop id => exact absurd rfl hcall
    | StopWithStopFinishedCallback id f => exact absurd rfl hcall
    | Reset id d => exact absurd rfl hcall
    | ResetWithResetFinishedCallback id d f => exact absurd rfl hcall
    | Remove id => exact absurd rfl hcall
    | RemoveWithRemoveFinishedCallback id f => exact absurd rfl hcall

theorem inFlight_run (h : Nat) : ∀ (acts : List Action) (s s1 : Sys), run s acts = some s1 →
    inFlight h s1 = inFlight h s + (expiryTimes h s acts).length
  | [], s, s1, hr => by
    simp only [run, Option.some.injEq] at hr
    subst hr
    simp [expiryTimes]
  | a :: as, s, s1, hr => by
    simp only [run] at hr
    cases hs : step s a with
    | none => rw [hs] at hr; cases hr
    | some s2 =>
      rw [hs] at hr
      have h1 := inFlight_step h hs
      have h2 := inFlight_run h as s2 s1 hr
      simp only [expiryTimes, hs, List.length_append]
      omega

/-- A step that dispatches no command for `h` leaves the registry entry of
`h` as it is. -/
theorem silent_step {h : Nat} {s s1 : Sys} {a : Action} (hs : step s a = some s1)
    (hq : silentStep h s a = true) : s1.t.timers h = s.t.timers h := by
  by_cases hcall : a.isCall = true
  · obtain ⟨e, -, -, -, -, -, ht, -⟩ := step_call hs hcall
    rw [ht]
  · cases a with
    | send i =>
      obtain ⟨e, -, rfl⟩ := step_send hs
      rfl
    | recv =>
      obtain ⟨e, rest, p, hc, hd, rfl⟩ := step_recv hs
      simp only [silentStep, hc, decide_eq_true_eq] at hq
      rcases Deal_effect_id hd with ⟨f0, w, -, ht, -⟩ | ⟨-, ht, -⟩ |
        ⟨x, w, -, -, ht | ht, -⟩ | ⟨ht, -⟩
      · simp only; rw [ht]; exact Function.update_noteq (Ne.symm hq) _ _
      · simp only; rw [ht]; exact Function.update_noteq (Ne.symm hq) _ _
      · simp only; rw [ht]
      · simp only; rw [ht]; exact Function.update_noteq (Ne.symm hq) _ _
      · simp only; rw [ht]
    | expire r0 =>
      obtain ⟨h0, f0, w, -, -, rfl⟩ := step_expire hs
      rfl
    | tick dt =>
      have := step_tick hs
      subst this
      rfl
    | AfterFunc d f => exact absurd rfl hcall
    | AfterFuncWithAfterFuncFinishedCallback d f cb => exact absurd rfl hcall
    | Stop id => exact absurd rfl hcall
    | StopWithStopFinishedCallback id f => exact absurd rfl hcall
    | Reset id d => exact absurd rfl hcall
    | ResetWithResetFinishedCallback id d f => exact absurd rfl hcall
    | Remove id => exact absurd rfl hcall
    | RemoveWithRemoveFinishedCallback id f => exact absurd rfl hcall

theorem silent_run (h : Nat) : ∀ (acts : List Action) (s s1 : Sys), run s acts = some s1 →
    allSteps (silentStep h) s acts = true → s1.t.timers h = s.t.timers h
  | [], s, s1, hr, _ => by
    simp only [run, Option.some.injEq] at hr
    subst hr
    rfl
  | a :: as, s, s1, hr, hq => by
    simp only [run] at hr
    cases hs : step s a with
    | none => rw [hs] at hr; cases hr
    | some s2 =>
      rw [hs] at hr
      simp only [allSteps, hs, Bool.and_eq_true] at hq
      rw [silent_run h as s2 s1 hr hq.2, silent_step hs hq.1]

theorem quietStep_of_silentStep (h : Nat) (s : Sys) (a : Action)
    (hq : silentStep h s a = true) : quietStep h s a = true := by
  cases a <;> try rfl
  simp only [silentStep, quietStep] at hq ⊢
  cases hc : s.t.mainChan with
  | nil => rfl
  | cons e rest =>
    rw [hc] at hq
    simp only [Bool.or_eq_true]
    exact Or.inl hq

theorem not_fire_of_fires_zero {h : Nat} {l : List event} (hz : fires h l = 0) :
    ∀ e ∈ l, isFireFor h e = true → False := by
  intro e he hf
  have hpos : 0 < fires h l := List.countP_pos_iff.mpr ⟨e, he, hf⟩
  omega

/-- The dispatch of Create(h, d, f), below 2^64 issued handles: the new
runtime timer is the one timer of `h`, active with deadline now + d, and no
Fire for `h` exists yet. -/
theorem timerFor_after_create {acts0 : List Action} {s0 s1 : Sys} {h : Nat} {d : Int}
    {f : Nat} {rest0 : List event} (hrun0 : run Sys.init acts0 = some s0)
    (hnw : s0.issued.length < uint64Size) (hc0 : s0.t.mainChan = evAfterFunc h d f :: rest0)
    (hs1 : step s0 Action.recv = some s1) :
    TimerFor h f s0.rt.gotimers.length s1 ∧
    whenOf s1 s0.rt.gotimers.length = some (s0.rt.now + d) ∧
    s1.t.timers h = some s0.rt.gotimers.length ∧ s1.rt.now = s0.rt.now ∧
    inFlight h s0 = 0 := by
  have hr1 : run Sys.init (acts0 ++ [Action.recv]) = some s1 := by
    rw [run_append, hrun0, Option.some_bind, run_singleton]; exact hs1
  have hreg1 : RegInv s1 := regInv_run hr1
  obtain ⟨e, rest, p, hc, hd, rfl⟩ := step_recv hs1
  rw [hc0] at hc
  cases hc
  rw [Deal_evAfterFunc] at hd
  cases hd
  have hcre1 := creates_le_one hr1 hnw h
  simp only [creates_snoc, isCreateFor_evAfterFunc, decide_True, if_true] at hcre1
  have hcre : creates h s0.history = 0 := by omega
  have hmade : made h s0.rt.gotimers = 0 := by rw [made_run hrun0]; exact hcre
  have hinf0 : inFlight h s0 = 0 := by
    by_contra hne
    have := fire_made_run hrun0 h (Nat.pos_of_ne_zero hne)
    omega
  simp only [inFlight] at hinf0
  have hlast : (s0.rt.gotimers ++
      [({ when := some (s0.rt.now + d), fn := Closure.sendExecute h f } : GoTimer)])[
        s0.rt.gotimers.length]? =
      some { when := some (s0.rt.now + d), fn := Closure.sendExecute h f } := by
    simp
  refine ⟨⟨hreg1, ?_, ⟨_, hlast⟩, ?_⟩, ?_, ?_, rfl, ?_⟩
  · intro i g hg hid
    simp only [timeAfterFunc] at hg
    by_cases hil : i < s0.rt.gotimers.length
    · rw [List.getElem?_append_left hil] at hg
      have := made_pos_of_getElem? hg hid
      omega
    · rw [List.getElem?_append_right (not_lt.mp hil)] at hg
      have hlen := (List.getElem?_eq_some_iff.mp hg).1
      simp only [List.length_singleton] at hlen
      omega
  · intro e1 hf hmem
    simp only [List.mem_append, List.mem_singleton, timeAfterFunc] at hmem
    rcases hmem with (hm | hm) | hm | hm
    · exact absurd hf (fun hf => not_fire_of_fires_zero (by omega) e1 hm hf)
    · rw [hm] at hf; simp at hf
    · exact absurd hf (fun hf => not_fire_of_fires_zero (l := s0.t.mainChan) (by omega) e1
        (by rw [hc0]; exact List.mem_cons_of_mem _ hm) hf)
    · exact absurd hf (fun hf => not_fire_of_fires_zero (by omega) e1 hm hf)
  · simp only [whenOf, timeAfterFunc, hlast]
  · simp
  · simp only [inFlight]; exact hinf0

/-- The dispatch of ResetAck(h, d2, ack) while the registry holds the one
timer of `h`, still active: the acknowledgement gets true and the timer is
armed for now + d2. -/
theorem resetAck_step {h f r : Nat} {s2 : Sys} {w d2 : Int} {ack : Nat} {rest2 : List event}
    (hi : TimerFor h f r s2) (hreg : s2.t.timers h = some r) (hw : whenOf s2 r = some w)
    (hc2 : s2.t.mainChan = evResetWithResetFinishedCallback h d2 ack :: rest2) :
    ∃ s3, step s2 Action.recv = some s3 ∧
      s3.rt.trace = s2.rt.trace ++ [Effect.resetTimer r d2, Effect.callBool ack true] ∧
      s3.rt.gotimers[r]? =
        some { when := some (s2.rt.now + d2), fn := Closure.sendExecute h f } ∧
      TimerFor h f r s3 ∧ whenOf s3 r = some (s2.rt.now + d2) ∧ s3.rt.now = s2.rt.now := by
  obtain ⟨hregInv, huniq, ⟨wh, hr⟩, hfire⟩ := hi
  have hwh : wh = some w := by
    rw [whenOf_of_getElem? hr] at hw; exact hw
  subst hwh
  have hd : Deal { s2.t with mainChan := rest2 } s2.rt
      (evResetWithResetFinishedCallback h d2 ack) =
      some ({ s2.t with mainChan := rest2 },
        callFuncBool (timerReset s2.rt r d2).1 ack (timerReset s2.rt r d2).2) := by
    rw [Deal_evResetWithResetFinishedCallback]
    simp only [hreg]
  have hs3 : step s2 Action.recv = some { s2 with
      t := { s2.t with mainChan := rest2 }
      rt := callFuncBool (timerReset s2.rt r d2).1 ack (timerReset s2.rt r d2).2
      history := s2.history ++ [evResetWithResetFinishedCallback h d2 ack] } := by
    simp only [step, hc2, hd]
  have hr3 : (setWhen s2.rt.gotimers r (some (s2.rt.now + d2)))[r]? =
      some { when := some (s2.rt.now + d2), fn := Closure.sendExecute h f } :=
    getElem?_setWhen_self _ hr
  refine ⟨_, hs3, ?_, ?_, ⟨regInv_step _ _ _ hregInv hs3, ?_, ⟨some (s2.rt.now + d2), ?_⟩, ?_⟩,
    ?_, rfl⟩
  · simp [timerReset, callFuncBool, isActive, hr]
  · simp only [timerReset, callFuncBool]; exact hr3
  · intro i g hgi hid
    simp only [timerReset, callFuncBool] at hgi
    have hfn := getElem?_setWhen_fn s2.rt.gotimers r (some (s2.rt.now + d2)) i
    rw [hgi] at hfn
    cases hgi0 : s2.rt.gotimers[i]? with
    | none => rw [hgi0] at hfn; simp at hfn
    | some g0 =>
      rw [hgi0] at hfn
      simp only [Option.map_some', Option.some.injEq] at hfn
      exact huniq i g0 hgi0 (by rw [← hfn]; exact hid)
  · simp only [timerReset, callFuncBool]; exact hr3
  · intro e1 hf hmem
    simp only [List.mem_append, List.mem_singleton, timerReset, callFuncBool] at hmem
    rcases hmem with (hm | hm) | hm | hm
    · exact hfire e1 hf (Or.inl hm)
    · rw [hm] at hf; simp at hf
    · exact hfire e1 hf (Or.inr (Or.inl (by rw [hc2]; exact List.mem_cons_of_mem _ hm)))
    · exact hfire e1 hf (Or.inr (Or.inr hm))
  · simp only [whenOf, timerReset, callFuncBool, hr3]

/-- C14 (as stated) fails when the new deadline t1 + d2 is the old one
t0 + d: Create(1, 1000, 7) is dispatched at time 0, ResetAck(1, 100, 9) at
time 900 < 1000 with no command for handle 1 in between, and the
acknowledgement gets true; timers are punctual; yet the one Fire for handle 1
is handed over for the channel at time 1000 = t0 + d. -/
theorem C14_counterexample_same_deadline :
    ∃ s0 s1 s2 s4,
      run Sys.init [Action.AfterFunc 1000 7, Action.send 0] = some s0 ∧
      s0.t.mainChan = [evAfterFunc 1 1000 7] ∧ s0.rt.now = 0 ∧
      step s0 Action.recv = some s1 ∧
      run s1 [Action.tick 900, Action.ResetWithResetFinishedCallback 1 100 9,
        Action.send 0] = some s2 ∧
      allSteps (silentStep 1) s1 [Action.tick 900,
        Action.ResetWithResetFinishedCallback 1 100 9, Action.send 0] = true ∧
      s2.t.mainChan = [evResetWithResetFinishedCallback 1 100 9] ∧ s2.rt.now = 900 ∧
      run s2 [Action.recv, Action.tick 100, Action.expire 0, Action.send 0, Action.recv] =
        some s4 ∧
      s4.rt.trace = [Effect.newTimer 0 1000, Effect.resetTimer 0 100, Effect.callBool 9 true,
        Effect.call 7] ∧
      allSteps punctualStep Sys.init [Action.AfterFunc 1000 7, Action.send 0, Action.recv,
        Action.tick 900, Action.ResetWithResetFinishedCallback 1 100 9, Action.send 0,
        Action.recv, Action.tick 100, Action.expire 0, Action.send 0, Action.recv] = true ∧
      expiryTimes 1 Sys.init [Action.AfterFunc 1000 7, Action.send 0, Action.recv,
        Action.tick 900, Action.ResetWithResetFinishedCallback 1 100 9, Action.send 0,
        Action.recv, Action.tick 100, Action.expire 0, Action.send 0, Action.recv] =
        [s0.rt.now + 1000] :=
  ⟨_, _, _, _, rfl, rfl, rfl, rfl, rfl, by decide, rfl, rfl, rfl, rfl, by decide, by decide⟩

/-- C14 (amended). Take a run from New with fewer than 2^64 handles issued
when Create(h, d, f) is dispatched, at time t0, and let ResetAck(h, d2, ack)
be dispatched at a time t1 < t0 + d with no command for h dispatched in
between.  Then ack receives true and the timer of h is armed for t1 + d2; no
Fire for h has been handed over for the channel up to and including the
reset, and none exists or has been dispatched then, so f has not been invoked
before the reset.  In every continuation that dispatches no command for h but
a Fire: at most one Fire for h is handed over, not before t1 + d2 and not
before t1; with punctual timers it is handed over exactly at the later of
t1 + d2 and t1 (which is t1 + d2 for d2 ≥ 0, and may be the instant t0 + d),
and it has been handed over once time has passed that instant; at most one
Fire for h exists (dispatched, in the channel or about to be sent), and every
Fire for h is Fire(h, f). -/
theorem C14_reset_before_expiry (acts0 mid : List Action) (s0 s1 s2 : Sys) (h : Nat) (d : Int)
    (f : Nat) (d2 : Int) (ack : Nat) (rest0 rest2 : List event)
    (hrun0 : run Sys.init acts0 = some s0) (hnw : s0.issued.length < uint64Size)
    (hc0 : s0.t.mainChan = evAfterFunc h d f :: rest0)
    (hs1 : step s0 Action.recv = some s1)
    (hmid : run s1 mid = some s2) (hsil : allSteps (silentStep h) s1 mid = true)
    (hc2 : s2.t.mainChan = evResetWithResetFinishedCallback h d2 ack :: rest2)
    (ht1 : s2.rt.now < s0.rt.now + d) :
    ∃ s3, step s2 Action.recv = some s3 ∧
      s3.rt.trace = s2.rt.trace ++
        [Effect.resetTimer s0.rt.gotimers.length d2, Effect.callBool ack true] ∧
      s3.rt.gotimers[s0.rt.gotimers.length]? =
        some { when := some (s2.rt.now + d2), fn := Closure.sendExecute h f } ∧
      expiryTimes h s0 (Action.recv :: mid ++ [Action.recv]) = [] ∧
      inFlight h s3 = 0 ∧
      ∀ (acts3 : List Action) (s4 : Sys), run s3 acts3 = some s4 →
        allSteps (quietStep h) s3 acts3 = true →
        (expiryTimes h s3 acts3 = [] ∨
          ∃ τ, expiryTimes h s3 acts3 = [τ] ∧ s2.rt.now + d2 ≤ τ ∧ s2.rt.now ≤ τ ∧
            τ ≤ s4.rt.now ∧
            (allSteps punctualStep s3 acts3 = true → τ = max (s2.rt.now + d2) s2.rt.now)) ∧
        (allSteps punctualStep s3 acts3 = true → max (s2.rt.now + d2) s2.rt.now < s4.rt.now →
          expiryTimes h s3 acts3 ≠ []) ∧
        inFlight h s4 ≤ 1 ∧
        (∀ e, isFireFor h e = true →
          e ∈ s4.history ∨ e ∈ s4.t.mainChan ∨ e ∈ s4.rt.goroutines → e = evExecute h f) := by
  obtain ⟨hi1, hw1, hreg1, hnow1, hinf0⟩ := timerFor_after_create hrun0 hnw hc0 hs1
  have hqmid := allSteps_mono (quietStep_of_silentStep h) mid s1 hsil
  obtain ⟨hi2, -, hw2⟩ := quiet_run h f _ mid s1 s2 hi1 hmid hqmid
  have hreg2 : s2.t.timers h = some s0.rt.gotimers.length := by
    rw [silent_run h mid s1 s2 hmid hsil]; exact hreg1
  rcases hw2 _ hw1 with ⟨hex, hw2a, -⟩ | ⟨τ, -, hle, -, hle2, -⟩
  swap
  · omega
  obtain ⟨s3, hs3, htr, hg3, hi3, hw3, hnow3⟩ := resetAck_step hi2 hreg2 hw2a hc2
  have hrun03 : run s0 (Action.recv :: mid ++ [Action.recv]) = some s3 := by
    have h13 : run s1 (mid ++ [Action.recv]) = some s3 := by
      rw [run_append, hmid, Option.some_bind, run_singleton]; exact hs3
    simp only [List.cons_append, run, hs1]
    exact h13
  have hex03 : expiryTimes h s0 (Action.recv :: mid ++ [Action.recv]) = [] := by
    have h13 : expiryTimes h s1 (mid ++ [Action.recv]) = [] := by
      rw [expiryTimes_append h mid s1 s2 [Action.recv] hmid, hex]
      simp [expiryTimes, hs3, expiryAt]
    simp only [List.cons_append, expiryTimes, hs1, expiryAt, List.nil_append]
    exact h13
  have hinf3 : inFlight h s3 = 0 := by
    have := inFlight_run h _ s0 s3 hrun03
    rw [hex03, hinf0] at this
    simpa using this
  refine ⟨s3, hs3, htr, hg3, hex03, hinf3, ?_⟩
  intro acts3 s4 hr4 hq4
  obtain ⟨hi4, -, hw4⟩ := quiet_run h f _ acts3 s3 s4 hi3 hr4 hq4
  have hinf4 := inFlight_run h acts3 s3 s4 hr4
  have hcarry := hi4.2.2.2
  rcases hw4 _ hw3 with ⟨hex4, -, hb⟩ | ⟨τ, hex4, hle, hle2, hle3, -, hp⟩
  · refine ⟨Or.inl hex4, ?_, ?_, hcarry⟩
    · intro hp hlt
      have := hb hp
      rw [hnow3] at this
      exact absurd (lt_of_lt_of_le hlt this) (lt_irrefl _)
    · rw [hex4, hinf3] at hinf4
      simp only [List.length_nil] at hinf4
      omega
  · rw [hnow3] at hle2 hp
    refine ⟨Or.inr ⟨τ, hex4, hle, hle2, hle3, hp⟩, ?_, ?_, hcarry⟩
    · intro _ _
      rw [hex4]
      simp
    · rw [hex4, hinf3] at hinf4
      simp only [List.length_singleton] at hinf4
      omega

/-- C14 (amended), at the scenario of the end-to-end test, in milliseconds:
a timer of 1000, reset at 900 for another 1000. -/
theorem C14_reset_before_expiry_witness :
    ∃ s0 s1 s2,
      run Sys.init [Action.AfterFunc 1000 7, Action.send 0] = some s0 ∧
      s0.issued.length < uint64Size ∧
      s0.t.mainChan = evAfterFunc 1 1000 7 :: [] ∧
      step s0 Action.recv = some s1 ∧
      run s1 [Action.tick 900, Action.ResetWithResetFinishedCallback 1 1000 9,
        Action.send 0] = some s2 ∧
      allSteps (silentStep 1) s1 [Action.tick 900,
        Action.ResetWithResetFinishedCallback 1 1000 9, Action.send 0] = true ∧
      s2.t.mainChan = evResetWithResetFinishedCallback 1 1000 9 :: [] ∧
      s2.rt.now < s0.rt.now + 1000 ∧
      ∃ s3, step s2 Action.recv = some s3 ∧
        s3.rt.trace = s2.rt.trace ++
          [Effect.resetTimer s0.rt.gotimers.length 1000, Effect.callBool 9 true] ∧
        s3.rt.gotimers[s0.rt.gotimers.length]? =
          some { when := some (s2.rt.now + 1000), fn := Closure.sendExecute 1 7 } ∧
        expiryTimes 1 s0 (Action.recv :: [Action.tick 900,
          Action.ResetWithResetFinishedCallback 1 1000 9, Action.send 0] ++ [Action.recv]) = [] ∧
        inFlight 1 s3 = 0 ∧
        ∀ (acts3 : List Action) (s4 : Sys), run s3 acts3 = some s4 →
          allSteps (quietStep 1) s3 acts3 = true →
          (expiryTimes 1 s3 acts3 = [] ∨
            ∃ τ, expiryTimes 1 s3 acts3 = [τ] ∧ s2.rt.now + 1000 ≤ τ ∧ s2.rt.now ≤ τ ∧
              τ ≤ s4.rt.now ∧
              (allSteps punctualStep s3 acts3 = true →
                τ = max (s2.rt.now + 1000) s2.rt.now)) ∧
          (allSteps punctualStep s3 acts3 = true →
            max (s2.rt.now + 1000) s2.rt.now < s4.rt.now → expiryTimes 1 s3 acts3 ≠ []) ∧
          inFlight 1 s4 ≤ 1 ∧
          (∀ e, isFireFor 1 e = true →
            e ∈ s4.history ∨ e ∈ s4.t.mainChan ∨ e ∈ s4.rt.goroutines →
            e = evExecute 1 7) :=
  ⟨_, _, _, rfl, by decide, rfl, rfl, rfl, by decide, rfl, by decide,
    C14_reset_before_expiry [Action.AfterFunc 1000 7, Action.send 0]
      [Action.tick 900, Action.ResetWithResetFinishedCallback 1 1000 9, Action.send 0]
      _ _ _ 1 1000 7 1000 9 [] [] rfl (by decide) rfl rfl rfl (by decide) rfl (by decide)⟩

/-- The scenario of C14 in a run with punctual timers, in milliseconds: the
timer of 1000 is reset at 900 for another 1000; the one Fire is handed over
at 1900, and callback 7 is called once. -/
theorem reset_before_expiry_run :
    ∃ s, run Sys.init [Action.AfterFunc 1000 7, Action.send 0, Action.recv, Action.tick 900,
        Action.ResetWithResetFinishedCallback 1 1000 9, Action.send 0, Action.recv,
        Action.tick 1000, Action.expire 0, Action.send 0, Action.recv] = some s ∧
      allSteps punctualStep Sys.init [Action.AfterFunc 1000 7, Action.send 0, Action.recv,
        Action.tick 900, Action.ResetWithResetFinishedCallback 1 1000 9, Action.send 0,
        Action.recv, Action.tick 1000, Action.expire 0, Action.send 0, Action.recv] = true ∧
      expiryTimes 1 Sys.init [Action.AfterFunc 1000 7, Action.send 0, Action.recv,
        Action.tick 900, Action.ResetWithResetFinishedCallback 1 1000 9, Action.send 0,
        Action.recv, Action.tick 1000, Action.expire 0, Action.send 0, Action.recv] = [1900] ∧
      s.rt.trace = [Effect.newTimer 0 1000, Effect.resetTimer 0 1000, Effect.callBool 9 true,
        Effect.call 7] :=
  ⟨_, rfl, by decide, by decide, rfl⟩

/-! ### Where the registry changes -/

/-- Only the dispatch of a received command, that is `Deal`, changes the
registry: every other step (a call of a public operation, a channel send, the
expiry of a runtime timer, the passing of time) leaves it as it is. -/
theorem registry_changes_only_on_recv {s s1 : Sys} {a : Action} (hs : step s a = some s1)
    (ha : a ≠ Action.recv) : s1.t.timers = s.t.timers := by
  rcases step_cases hs with ⟨_, e, _, _, rfl⟩ | ⟨_, e, _, rfl⟩ | ⟨_, i, e, _, _, rfl⟩ |
    ⟨hrecv, _⟩ | ⟨_, r, h0, f, w, _, _, rfl⟩ | ⟨_, dt, rfl⟩
  · rfl
  · rfl
  · rfl
  · exact absurd hrecv ha
  · rfl
  · rfl

/-! ### C2 and C3: the reset that races with a Fire -/

theorem creates_mono_step (h : Nat) {s s1 : Sys} {a : Action} (hs : step s a = some s1) :
    creates h s.history ≤ creates h s1.history := by
  rcases step_cases hs with ⟨_, e, _, _, rfl⟩ | ⟨_, e, _, rfl⟩ | ⟨_, i, e, _, _, rfl⟩ |
    ⟨_, e, rest, r, _, hd, rfl⟩ | ⟨_, r, h0, f, w, _, _, rfl⟩ | ⟨_, dt, rfl⟩
  · exact le_refl _
  · exact le_refl _
  · exact le_refl _
  · simp only [creates_snoc]; omega
  · exact le_refl _
  · exact le_refl _

theorem creates_mono_run (h : Nat) : ∀ (acts : List Action) (s s1 : Sys),
    run s acts = some s1 → creates h s.history ≤ creates h s1.history
  | [], s, s1, hr => by
    simp only [run, Option.some.injEq] at hr
    subst hr
    exact le_refl _
  | a :: as, s, s1, hr => by
    simp only [run] at hr
    cases hs : step s a with
    | none => rw [hs] at hr; cases hr
    | some s2 =>
      rw [hs] at hr
      exact le_trans (creates_mono_step h hs) (creates_mono_run h as s2 s1 hr)

theorem armed_le_made (h : Nat) (gs : List GoTimer) : armed h gs ≤ made h gs := by
  simp only [armed, made]
  apply List.countP_mono_left
  intro g _ hg
  simp only [Bool.and_eq_true] at hg
  exact hg.2

theorem raceResets_append (h : Nat) :
    ∀ (as : List Action) (s s1 : Sys) (bs : List Action), run s as = some s1 →
      raceResets h s (as ++ bs) = raceResets h s as + raceResets h s1 bs
  | [], s, s1, bs, hr => by
    simp only [run, Option.some.injEq] at hr
    subst hr
    simp [raceResets]
  | a :: as, s, s1, bs, hr => by
    simp only [run] at hr
    cases hs : step s a with
    | none => rw [hs] at hr; cases hr
    | some s2 =>
      rw [hs] at hr
      have ih := raceResets_append h as s2 s1 bs hr
      simp only [List.cons_append, raceResets, hs]
      simp only [List.append_eq, ih]
      omega

theorem raceReset_le_lateReset (h : Nat) (s : Sys) (a : Action) :
    raceReset h s a ≤ lateReset h s a := by
  simp only [raceReset]
  split_ifs <;> omega

/-- A late reset finds an entry for `h`. -/
theorem entry_of_lateReset {h : Nat} {s : Sys} {a : Action} (hl : lateReset h s a ≠ 0) :
    a = Action.recv ∧ ∃ r, s.t.timers h = some r := by
  have ha : a = Action.recv := by
    by_contra hne
    exact hl (lateReset_of_ne_recv h s hne)
  subst ha
  refine ⟨rfl, ?_⟩
  cases hx : s.t.timers h with
  | some r => exact ⟨r, rfl⟩
  | none =>
    exfalso
    apply hl
    simp only [lateReset, hx]
    cases s.t.mainChan with
    | nil => rfl
    | cons e rest => simp

/-- With at most one Create for `h` dispatched, a step that dispatches no
racing reset for `h` keeps the potential of `h` within the number of Create
commands dispatched for `h`. -/
theorem potential_bound_step {acts : List Action} {s s1 : Sys} {a : Action} (h : Nat)
    (hr : run Sys.init acts = some s) (hs : step s a = some s1)
    (hc1 : creates h s1.history ≤ 1) (hrace : raceReset h s a = 0)
    (hi : potential h s ≤ creates h s.history) :
    potential h s1 ≤ creates h s1.history := by
  have hps := potential_step h (regInv_run hr) hs
  by_cases hl : lateReset h s a = 0
  · omega
  · obtain ⟨ha, r, hentry⟩ := entry_of_lateReset hl
    subst ha
    have hfl : fires h s.t.mainChan + fires h s.rt.goroutines = 0 := by
      simp only [raceReset] at hrace
      split_ifs at hrace with hpos
      · exact absurd hrace hl
      · omega
    have hcs : creates h s.history ≤ 1 := le_trans (creates_mono_step h hs) hc1
    have hfh : fires h s.history = 0 := by
      by_contra hne
      have := once_run hr h (Nat.pos_of_ne_zero hne) hcs
      rw [this] at hentry
      cases hentry
    have hinf := inFlight_step h hs
    simp only [expiryAt, List.length_nil] at hinf
    have hinf0 : inFlight h s = 0 := by simp only [inFlight]; omega
    have hr1 : run Sys.init (acts ++ [Action.recv]) = some s1 := by
      rw [run_append, hr, Option.some_bind, run_singleton]; exact hs
    have hmade := made_run hr1 h
    have ham := armed_le_made h s1.rt.gotimers
    simp only [potential]
    omega

/-- In a run from New with at most one Create for `h` dispatched and no
racing reset for `h`, the Fire commands for `h` dispatched or on their way and
the active timers of `h` are together at most one. -/
theorem potential_bound_run (h : Nat) : ∀ (acts : List Action) (s : Sys),
    run Sys.init acts = some s → creates h s.history ≤ 1 → raceResets h Sys.init acts = 0 →
    potential h s ≤ creates h s.history := by
  intro acts
  induction acts using List.reverseRecOn with
  | nil =>
    intro s hr _ _
    simp only [run, Option.some.injEq] at hr
    subst hr
    simp [potential, inFlight, fires, armed, Sys.init, New, Runtime.init]
  | append_singleton l a ih =>
    intro s hr hc hrace
    rw [run_append] at hr
    cases hl : run Sys.init l with
    | none => rw [hl] at hr; cases hr
    | some s0 =>
      rw [hl, Option.some_bind, run_singleton] at hr
      have happ := raceResets_append h l Sys.init s0 [a] hl
      rw [hrace] at happ
      simp only [raceResets, hr] at happ
      have hc0 : creates h s0.history ≤ 1 := le_trans (creates_mono_step h hr) hc
      exact potential_bound_step h hl hr hc (by omega) (ih s0 hl hc0 (by omega))

/-- C2 (amended). In every run from New in which fewer than 2^64 handles have
been issued and no Reset or ResetAck for h is dispatched while the entry of h
exists, its runtime timer is no longer active and a Fire for h is not yet
dispatched (it is in the channel or about to be sent): at most one Fire for h
is dispatched; once it has been dispatched the registry holds no entry for h;
and a callback f carried only by Fire commands for h is called at most once.
A Reset of a stopped timer, or of a pending one, is allowed. -/
theorem C2_fire_once (acts : List Action) (s : Sys) (h : Nat)
    (hrun : run Sys.init acts = some s) (hlen : s.issued.length < uint64Size)
    (hrace : raceResets h Sys.init acts = 0) :
    fires h s.history ≤ 1 ∧
    (0 < fires h s.history → s.t.timers h = none) ∧
    (∀ f, (∀ e ∈ s.history, isFireWith f e = true → isFireFor h e = true) →
      s.rt.trace.count (Effect.call f) ≤ 1) := by
  have hc := creates_le_one hrun hlen h
  have hp := potential_bound_run h acts s hrun hc hrace
  have hle : fires h s.history ≤ potential h s := by
    simp only [potential, inFlight]; omega
  have hf1 : fires h s.history ≤ 1 := by omega
  refine ⟨hf1, fun hpos => once_run hrun h hpos hc, ?_⟩
  intro f hf
  rw [trace_run hrun f]
  have : s.history.countP (isFireWith f) ≤ s.history.countP (isFireFor h) :=
    List.countP_mono_left hf
  simp only [fires] at hf1
  omega

/-- C2, a run: handle 1 is stopped while pending, then reset (a reset of a
timer that is no longer active, with no Fire on its way), and later fires
once. -/
theorem C2_fire_once_witness :
    ∃ s, run Sys.init [Action.AfterFunc 1000 7, Action.send 0, Action.recv, Action.tick 900,
        Action.Stop 1, Action.send 0, Action.recv, Action.Reset 1 1000, Action.send 0,
        Action.recv, Action.tick 1000, Action.expire 0, Action.send 0, Action.recv] = some s ∧
      s.issued.length < uint64Size ∧
      raceResets 1 Sys.init [Action.AfterFunc 1000 7, Action.send 0, Action.recv,
        Action.tick 900, Action.Stop 1, Action.send 0, Action.recv, Action.Reset 1 1000,
        Action.send 0, Action.recv, Action.tick 1000, Action.expire 0, Action.send 0,
        Action.recv] = 0 ∧
      lateResets 1 Sys.init [Action.AfterFunc 1000 7, Action.send 0, Action.recv,
        Action.tick 900, Action.Stop 1, Action.send 0, Action.recv, Action.Reset 1 1000,
        Action.send 0, Action.recv, Action.tick 1000, Action.expire 0, Action.send 0,
        Action.recv] = 1 ∧
      s.history = [evAfterFunc 1 1000 7, evStop 1, evReset 1 1000, evExecute 1 7] ∧
      s.rt.trace = [Effect.newTimer 0 1000, Effect.stopTimer 0, Effect.resetTimer 0 1000,
        Effect.call 7] ∧
      (fires 1 s.history ≤ 1 ∧
        (0 < fires 1 s.history → s.t.timers 1 = none) ∧
        (∀ f, (∀ e ∈ s.history, isFireWith f e = true → isFireFor 1 e = true) →
          s.rt.trace.count (Effect.call f) ≤ 1)) :=
  ⟨_, rfl, by decide, by decide, by decide, rfl, rfl,
    C2_fire_once [Action.AfterFunc 1000 7, Action.send 0, Action.recv, Action.tick 900,
        Action.Stop 1, Action.send 0, Action.recv, Action.Reset 1 1000, Action.send 0,
        Action.recv, Action.tick 1000, Action.expire 0, Action.send 0, Action.recv] _ 1 rfl
      (by decide) (by decide)⟩

/-- C3 (amended). In a state reachable from New, if StopAck(h, ack) is
dispatched while the registry holds an entry for h whose runtime timer is
still active (it has not expired and has not been stopped), then the timer is
stopped and ack receives true.  If moreover no Reset or ResetAck for h raced
with a Fire for h before (none was dispatched while the entry existed, its
timer was no longer active and a Fire for h was not yet dispatched; stopping
and resetting the timer before is allowed), then in every continuation in
which fewer than 2^64 handles have been issued and no Reset or ResetAck for h
is dispatched on the stopped timer of h, no Fire for h is dispatched at any
time, so no callback is called for h. -/
theorem C3_stop_pending_timer (acts1 : List Action) (s1 : Sys) (h ack r : Nat)
    (rest : List event) (hrun : run Sys.init acts1 = some s1)
    (hhead : s1.t.mainChan = evStopWithStopFinishedCallback h ack :: rest)
    (hreg : s1.t.timers h = some r) (hact : isActive s1.rt.gotimers r = true) :
    ∃ s2, step s1 Action.recv = some s2 ∧
      s2.rt.trace = s1.rt.trace ++ [Effect.stopTimer r, Effect.callBool ack true] ∧
      isActive s2.rt.gotimers r = false ∧ s2.t.timers = s1.t.timers ∧
      (raceResets h Sys.init acts1 = 0 →
        ∀ acts2 s3, run s2 acts2 = some s3 → s3.issued.length < uint64Size →
          lateResets h s2 acts2 = 0 →
          fires h s3.history = 0 ∧
          ∀ f, (∀ e ∈ s3.history, isFireWith f e = true → isFireFor h e = true) →
            s3.rt.trace.count (Effect.call f) = 0) := by
  obtain ⟨s2, hstep⟩ : ∃ s2, step s1 Action.recv = some s2 := by
    simp only [step, hhead, Deal_evStopWithStopFinishedCallback, hreg]
    exact ⟨_, rfl⟩
  have hreg1 := regInv_run hrun
  obtain ⟨ht, hoff, htm, hp2, hc2⟩ := stopAck_active_step hreg1 hhead hreg hact hstep
  refine ⟨s2, hstep, ht, hoff, htm, ?_⟩
  intro hrace acts2 s3 hr3 hlen hlate
  have hreg2 := regInv_step _ _ _ hreg1 hstep
  have hfull : run Sys.init (acts1 ++ Action.recv :: acts2) = some s3 := by
    rw [run_append, hrun]
    simp only [Option.bind, run, hstep]
    exact hr3
  have hc3 := creates_le_one hfull hlen h
  have hm12 := creates_mono_step h hstep
  have hm23 := creates_mono_run h acts2 s2 s3 hr3
  have hp1 := potential_bound_run h acts1 s1 hrun (by omega) hrace
  have hp3 := potential_run h acts2 s2 s3 hreg2 hr3
  have hf3 : fires h s3.history = 0 := by
    have : fires h s3.history ≤ potential h s3 := by
      simp only [potential, inFlight]; omega
    omega
  refine ⟨hf3, ?_⟩
  intro f hf
  rw [trace_run hfull f]
  have : s3.history.countP (isFireWith f) ≤ s3.history.countP (isFireFor h) :=
    List.countP_mono_left hf
  simp only [fires] at hf3
  omega

/-- C3, a run: handle 1 is stopped at 500 and reset at once for another 1000
(pause and resume), and StopAck(1, 9) is about to be dispatched at 1000, while
the timer is pending again. -/
theorem C3_stop_pending_timer_witness :
    ∃ s1, run Sys.init [Action.AfterFunc 1000 7, Action.send 0, Action.recv, Action.tick 500,
        Action.Stop 1, Action.send 0, Action.recv, Action.Reset 1 1000, Action.send 0,
        Action.recv, Action.tick 500, Action.StopWithStopFinishedCallback 1 9,
        Action.send 0] = some s1 ∧
      s1.t.mainChan = evStopWithStopFinishedCallback 1 9 :: [] ∧
      s1.t.timers 1 = some 0 ∧ isActive s1.rt.gotimers 0 = true ∧
      lateResets 1 Sys.init [Action.AfterFunc 1000 7, Action.send 0, Action.recv,
        Action.tick 500, Action.Stop 1, Action.send 0, Action.recv, Action.Reset 1 1000,
        Action.send 0, Action.recv, Action.tick 500, Action.StopWithStopFinishedCallback 1 9,
        Action.send 0] = 1 ∧
      ∃ s2, step s1 Action.recv = some s2 ∧
        s2.rt.trace = s1.rt.trace ++ [Effect.stopTimer 0, Effect.callBool 9 true] ∧
        isActive s2.rt.gotimers 0 = false ∧ s2.t.timers = s1.t.timers ∧
        ∀ acts2 s3, run s2 acts2 = some s3 → s3.issued.length < uint64Size →
          lateResets 1 s2 acts2 = 0 →
          fires 1 s3.history = 0 ∧
          ∀ f, (∀ e ∈ s3.history, isFireWith f e = true → isFireFor 1 e = true) →
            s3.rt.trace.count (Effect.call f) = 0 := by
  obtain ⟨s2, h1, h2, h3, h4, h5⟩ := C3_stop_pending_timer
    [Action.AfterFunc 1000 7, Action.send 0, Action.recv, Action.tick 500,
      Action.Stop 1, Action.send 0, Action.recv, Action.Reset 1 1000, Action.send 0,
      Action.recv, Action.tick 500, Action.StopWithStopFinishedCallback 1 9, Action.send 0]
    _ 1 9 0 [] rfl rfl rfl rfl
  exact ⟨_, rfl, rfl, rfl, rfl, by decide, s2, h1, h2, h3, h4, h5 (by decide)⟩

/-- The reset that races, in a run: the timer of handle 1 expires, and the
Reset is dispatched while the Fire is still in the channel; this is the one
racing reset of the run, and callback 7 is called twice. -/
theorem racing_reset_run :
    ∃ s, run Sys.init [Action.AfterFunc 1000 7, Action.send 0, Action.recv, Action.tick 1000,
        Action.expire 0, Action.Reset 1 1000, Action.send 1, Action.recv, Action.send 0,
        Action.recv, Action.tick 1000, Action.expire 0, Action.send 0, Action.recv] = some s ∧
      raceResets 1 Sys.init [Action.AfterFunc 1000 7, Action.send 0, Action.recv,
        Action.tick 1000, Action.expire 0, Action.Reset 1 1000, Action.send 1, Action.recv,
        Action.send 0, Action.recv, Action.tick 1000, Action.expire 0, Action.send 0,
        Action.recv] = 1 ∧
      s.rt.trace.count (Effect.call 7) = 2 :=
  ⟨_, rfl, by decide, by decide⟩

end STimer
